import Mathlib

set_option maxRecDepth 4000

/-!
Verification development for the distaff program2 subsystem: the assembler
(`src/programs/program2/assembly/parsers.rs`), the program-block model
(`src/programs/program2/flow.rs`), and the instruction decoder
(`src/processor/decoder/decoder2/mod.rs`).

Machine integers (`u128`, `usize`) are embedded as `Nat`; field arithmetic is
explicit `% MODULUS` where the source calls `field::add`.  Fallible code
(Rust `assert!` / `panic!` / `Result`) is embedded with `Except`-style sum
types.  Definitions named after source items are direct translations of the
source; items of the repository that are not part of the provided sources
(the opcode enumerations, the field and Rescue primitives, `Span`,
`hash_acc`, `hash_seq`, the assembler dispatch loop) are modelled from the
specification and are marked `Modelled from the spec` in their doc comments.
-/

-- ================================================================================================
-- OPCODES
-- ================================================================================================

/-- Modelled from the spec (§2 C2, §3): the closed enumeration of user
operations (`UserOps` in `processor/opcodes2`, not under the provided
sources).  Constructors cover every opcode referenced by the provided
sources. -/
inductive UserOps where
  | Noop | Assert | AssertEq | Push | Read | Read2
  | Dup | Dup2 | Dup4 | Pad2 | Drop | Drop4
  | Swap | Swap2 | Swap4 | Roll4 | Roll8
  | Choose | Choose2
  | Add | Mul | Neg | Inv | Not | And | Or
  | Eq | Cmp | BinAcc | RescR
deriving DecidableEq, Repr

/-- Modelled from the spec (§3, §8): user operations are 7-bit tags; the spec
fixes only that `Noop` decomposes to all-one bits (tag 127).  The remaining
numeric tags live in `processor/opcodes2` (not under the provided sources) and
are assigned arbitrary distinct 7-bit values here; no claim below depends on
them, since both sides of every hash computation use the same tags. -/
def ucode : UserOps → Nat
  | .Noop => 127 | .Assert => 1 | .AssertEq => 2 | .Push => 3 | .Read => 4 | .Read2 => 5
  | .Dup => 6 | .Dup2 => 7 | .Dup4 => 8 | .Pad2 => 9 | .Drop => 10 | .Drop4 => 11
  | .Swap => 12 | .Swap2 => 13 | .Swap4 => 14 | .Roll4 => 15 | .Roll8 => 16
  | .Choose => 17 | .Choose2 => 18
  | .Add => 19 | .Mul => 20 | .Neg => 21 | .Inv => 22 | .Not => 23 | .And => 24 | .Or => 25
  | .Eq => 26 | .Cmp => 27 | .BinAcc => 28 | .RescR => 29

/-- Modelled from the spec (§3): the 3-bit control-flow tags, in the spec's
stated order `{Hacc=0, Begin, Tend, Fend, Loop, Wrap, Break, Void}`. -/
inductive FlowOps where
  | Hacc | Begin | Tend | Fend | Loop | Wrap | Break | Void
deriving DecidableEq, Repr

/-- Numeric value of a control-flow tag (spec §3). -/
def FlowOps.code : FlowOps → Nat
  | .Hacc => 0 | .Begin => 1 | .Tend => 2 | .Fend => 3
  | .Loop => 4 | .Wrap => 5 | .Break => 6 | .Void => 7

-- ================================================================================================
-- HINTS AND THE HINT MAP
-- ================================================================================================

/-- The `OpHint` variant (spec §3); carried values embedded as `Nat`. -/
inductive OpHint where
  | NoHint
  | EqStart
  | CmpStart (n : Nat)
  | RcStart (n : Nat)
  | PushValue (v : Nat)
deriving DecidableEq, Repr

/-- The assembler's hint sidetable `step-index → OpHint`, embedded as an
association list (the source uses an ordered map). -/
abbrev HintMap := List (Nat × OpHint)

/-- Map insert with overwrite semantics (Rust `BTreeMap::insert`). -/
def hintInsert (m : HintMap) (k : Nat) (v : OpHint) : HintMap :=
  if m.any (fun e => e.fst == k) then
    m.map (fun e => if e.fst == k then (k, v) else e)
  else
    m ++ [(k, v)]

/-- Lookup in the hint sidetable. -/
def hintLookup (m : HintMap) (k : Nat) : Option OpHint :=
  (m.find? (fun e => e.fst == k)).map (fun e => e.snd)

-- ================================================================================================
-- ASSEMBLER (src/programs/program2/assembly/parsers.rs)
-- ================================================================================================

/-- Modelled from the spec (§3): the 128-bit prime field modulus of the field
module (not under the provided sources). -/
def MODULUS : Nat := 340282366920938463463374557953744961537

/-- `PUSH_OP_ALIGNMENT` from parsers.rs / decoder2. -/
def PUSH_OP_ALIGNMENT : Nat := 8

/-- `HASH_OP_ALIGNMENT` from parsers.rs. -/
def HASH_OP_ALIGNMENT : Nat := 16

/-- Assembly error kinds (`AssemblyError`); the offending token slice and
message strings of the source are dropped, the step index is retained. -/
inductive AssemblyError where
  | missingParam (step : Nat)
  | extraParam (step : Nat)
  | invalidParam (step : Nat)
  | invalidParamReason (step : Nat)
deriving DecidableEq, Repr

/-- Value of one decimal digit. -/
def decDigitVal (c : Char) : Option Nat :=
  if 48 ≤ c.toNat ∧ c.toNat ≤ 57 then some (c.toNat - 48) else none

/-- Fold of decimal digits. -/
def decFold : List Char → Nat → Option Nat
  | [], acc => some acc
  | c :: cs, acc =>
    match decDigitVal c with
    | some v => decFold cs (acc * 10 + v)
    | none => none

/-- Digit-string to number: at least one digit, all characters decimal. -/
def parseNatDec (s : String) : Option Nat :=
  match s.toList with
  | [] => none
  | cs => decFold cs 0

/-- Rust `str::parse::<u32>`: decimal digits only, result must fit in 32 bits. -/
def parseU32 (s : String) : Option Nat :=
  match parseNatDec s with
  | some n => if n < 4294967296 then some n else none
  | none => none

/-- Rust `u128::from_str_radix(s, 10)`. -/
def parseU128Dec (s : String) : Option Nat :=
  match parseNatDec s with
  | some n => if n < 340282366920938463463374607431768211456 then some n else none
  | none => none

/-- Value of one hexadecimal digit. -/
def hexDigitVal (c : Char) : Option Nat :=
  if 48 ≤ c.toNat ∧ c.toNat ≤ 57 then some (c.toNat - 48)
  else if 97 ≤ c.toNat ∧ c.toNat ≤ 102 then some (c.toNat - 97 + 10)
  else if 65 ≤ c.toNat ∧ c.toNat ≤ 70 then some (c.toNat - 65 + 10)
  else none

/-- Fold of hexadecimal digits. -/
def hexFold : List Char → Nat → Option Nat
  | [], acc => some acc
  | c :: cs, acc =>
    match hexDigitVal c with
    | some v => hexFold cs (acc * 16 + v)
    | none => none

/-- Rust `u128::from_str_radix(cs, 16)` on the digits after `0x`: at least one
hex digit, value bounded by 2^128. -/
def parseU128Hex (cs : List Char) : Option Nat :=
  match cs with
  | [] => none
  | _ =>
    match hexFold cs 0 with
    | some n => if n < 340282366920938463463374607431768211456 then some n else none
    | none => none

/-- `read_param` from parsers.rs. -/
def read_param (op : List String) (step : Nat) : Except AssemblyError Nat :=
  if op.length == 1 then .ok 1
  else if op.length > 2 then .error (.extraParam step)
  else
    match parseU32 (op.getD 1 "") with
    | none => .error (.invalidParam step)
    | some n =>
      if n == 0 then .error (.invalidParamReason step)
      else .ok n

/-- `read_value` from parsers.rs. -/
def read_value (op : List String) (step : Nat) : Except AssemblyError Nat :=
  if op.length == 1 then .error (.missingParam step)
  else if op.length > 2 then .error (.extraParam step)
  else
    let tok := op.getD 1 ""
    match (match tok.toList with
           | '0' :: 'x' :: rest => parseU128Hex rest
           | _ => parseU128Dec tok) with
    | none => .error (.invalidParam step)
    | some v =>
      if v ≥ MODULUS then .error (.invalidParamReason step)
      else .ok v

/-- `append_push_op` from parsers.rs: pad with `Noop` to the next multiple of
8, key a `PushValue` hint at the post-padding length, append `Push`. -/
def append_push_op (program : List UserOps) (hints : HintMap) (value : Nat) :
    List UserOps × HintMap :=
  let alignment := program.length % PUSH_OP_ALIGNMENT
  let pad_length := (PUSH_OP_ALIGNMENT - alignment) % PUSH_OP_ALIGNMENT
  let program := program ++ List.replicate pad_length UserOps.Noop
  let hints := hintInsert hints program.length (OpHint.PushValue value)
  (program ++ [UserOps.Push], hints)

/-- `parse_noop` from parsers.rs. -/
def parse_noop (program : List UserOps) (op : List String) (step : Nat) :
    Except AssemblyError (List UserOps) :=
  if op.length > 1 then .error (.extraParam step)
  else .ok (program ++ [UserOps.Noop])

/-- `parse_assert` from parsers.rs. -/
def parse_assert (program : List UserOps) (op : List String) (step : Nat) :
    Except AssemblyError (List UserOps) :=
  if op.length > 2 then .error (.extraParam step)
  else if op.length == 1 then .ok (program ++ [UserOps.Assert])
  else if op.getD 1 "" == "eq" then .ok (program ++ [UserOps.AssertEq])
  else .error (.invalidParamReason step)

/-- `parse_push` from parsers.rs. -/
def parse_push (program : List UserOps) (hints : HintMap) (op : List String) (step : Nat) :
    Except AssemblyError (List UserOps × HintMap) :=
  match read_value op step with
  | .error e => .error e
  | .ok value => .ok (append_push_op program hints value)

/-- `parse_read` from parsers.rs. -/
def parse_read (program : List UserOps) (op : List String) (step : Nat) :
    Except AssemblyError (List UserOps) :=
  if op.length > 2 then .error (.extraParam step)
  else if op.length == 1 || op.getD 1 "" == "a" then .ok (program ++ [UserOps.Read])
  else if op.getD 1 "" == "ab" then .ok (program ++ [UserOps.Read2])
  else .error (.invalidParamReason step)

/-- `parse_dup` from parsers.rs. -/
def parse_dup (program : List UserOps) (op : List String) (step : Nat) :
    Except AssemblyError (List UserOps) :=
  match read_param op step with
  | .error e => .error e
  | .ok 1 => .ok (program ++ [UserOps.Dup])
  | .ok 2 => .ok (program ++ [UserOps.Dup2])
  | .ok 3 => .ok (program ++ [UserOps.Dup4, UserOps.Roll4, UserOps.Drop])
  | .ok 4 => .ok (program ++ [UserOps.Dup4])
  | .ok _ => .error (.invalidParamReason step)

/-- `parse_pad` from parsers.rs. -/
def parse_pad (program : List UserOps) (op : List String) (step : Nat) :
    Except AssemblyError (List UserOps) :=
  match read_param op step with
  | .error e => .error e
  | .ok 1 => .ok (program ++ [UserOps.Pad2, UserOps.Drop])
  | .ok 2 => .ok (program ++ [UserOps.Pad2])
  | .ok 3 => .ok (program ++ [UserOps.Pad2, UserOps.Pad2, UserOps.Drop])
  | .ok 4 => .ok (program ++ [UserOps.Pad2, UserOps.Pad2])
  | .ok 5 => .ok (program ++ [UserOps.Pad2, UserOps.Pad2, UserOps.Pad2, UserOps.Drop])
  | .ok 6 => .ok (program ++ [UserOps.Pad2, UserOps.Pad2, UserOps.Pad2])
  | .ok 7 => .ok (program ++ [UserOps.Pad2, UserOps.Pad2, UserOps.Dup4, UserOps.Drop])
  | .ok 8 => .ok (program ++ [UserOps.Pad2, UserOps.Pad2, UserOps.Dup4])
  | .ok _ => .error (.invalidParamReason step)

/-- `parse_pick` from parsers.rs. -/
def parse_pick (program : List UserOps) (op : List String) (step : Nat) :
    Except AssemblyError (List UserOps) :=
  match read_param op step with
  | .error e => .error e
  | .ok 1 => .ok (program ++ [UserOps.Dup2, UserOps.Drop])
  | .ok 2 => .ok (program ++ [UserOps.Dup4, UserOps.Roll4, UserOps.Drop, UserOps.Drop, UserOps.Drop])
  | .ok 3 => .ok (program ++ [UserOps.Dup4, UserOps.Drop, UserOps.Drop, UserOps.Drop])
  | .ok _ => .error (.invalidParamReason step)

/-- `parse_drop` from parsers.rs. -/
def parse_drop (program : List UserOps) (op : List String) (step : Nat) :
    Except AssemblyError (List UserOps) :=
  match read_param op step with
  | .error e => .error e
  | .ok 1 => .ok (program ++ [UserOps.Drop])
  | .ok 2 => .ok (program ++ [UserOps.Drop, UserOps.Drop])
  | .ok 3 => .ok (program ++ [UserOps.Dup, UserOps.Drop4])
  | .ok 4 => .ok (program ++ [UserOps.Drop4])
  | .ok 5 => .ok (program ++ [UserOps.Drop, UserOps.Drop4])
  | .ok 6 => .ok (program ++ [UserOps.Drop, UserOps.Drop, UserOps.Drop4])
  | .ok 7 => .ok (program ++ [UserOps.Dup, UserOps.Drop4, UserOps.Drop4])
  | .ok 8 => .ok (program ++ [UserOps.Drop4, UserOps.Drop4])
  | .ok _ => .error (.invalidParamReason step)

/-- `parse_swap` from parsers.rs. -/
def parse_swap (program : List UserOps) (op : List String) (step : Nat) :
    Except AssemblyError (List UserOps) :=
  match read_param op step with
  | .error e => .error e
  | .ok 1 => .ok (program ++ [UserOps.Swap])
  | .ok 2 => .ok (program ++ [UserOps.Swap2])
  | .ok 4 => .ok (program ++ [UserOps.Swap4])
  | .ok _ => .error (.invalidParamReason step)

/-- `parse_roll` from parsers.rs. -/
def parse_roll (program : List UserOps) (op : List String) (step : Nat) :
    Except AssemblyError (List UserOps) :=
  match read_param op step with
  | .error e => .error e
  | .ok 4 => .ok (program ++ [UserOps.Roll4])
  | .ok 8 => .ok (program ++ [UserOps.Roll8])
  | .ok _ => .error (.invalidParamReason step)

/-- `parse_add` from parsers.rs. -/
def parse_add (program : List UserOps) (op : List String) (step : Nat) :
    Except AssemblyError (List UserOps) :=
  if op.length > 1 then .error (.extraParam step) else .ok (program ++ [UserOps.Add])

/-- `parse_sub` from parsers.rs. -/
def parse_sub (program : List UserOps) (op : List String) (step : Nat) :
    Except AssemblyError (List UserOps) :=
  if op.length > 1 then .error (.extraParam step)
  else .ok (program ++ [UserOps.Neg, UserOps.Add])

/-- `parse_mul` from parsers.rs. -/
def parse_mul (program : List UserOps) (op : List String) (step : Nat) :
    Except AssemblyError (List UserOps) :=
  if op.length > 1 then .error (.extraParam step) else .ok (program ++ [UserOps.Mul])

/-- `parse_div` from parsers.rs. -/
def parse_div (program : List UserOps) (op : List String) (step : Nat) :
    Except AssemblyError (List UserOps) :=
  if op.length > 1 then .error (.extraParam step)
  else .ok (program ++ [UserOps.Inv, UserOps.Mul])

/-- `parse_neg` from parsers.rs. -/
def parse_neg (program : List UserOps) (op : List String) (step : Nat) :
    Except AssemblyError (List UserOps) :=
  if op.length > 1 then .error (.extraParam step) else .ok (program ++ [UserOps.Neg])

/-- `parse_inv` from parsers.rs. -/
def parse_inv (program : List UserOps) (op : List String) (step : Nat) :
    Except AssemblyError (List UserOps) :=
  if op.length > 1 then .error (.extraParam step) else .ok (program ++ [UserOps.Inv])

/-- `parse_not` from parsers.rs. -/
def parse_not (program : List UserOps) (op : List String) (step : Nat) :
    Except AssemblyError (List UserOps) :=
  if op.length > 1 then .error (.extraParam step) else .ok (program ++ [UserOps.Not])

/-- `parse_and` from parsers.rs. -/
def parse_and (program : List UserOps) (op : List String) (step : Nat) :
    Except AssemblyError (List UserOps) :=
  if op.length > 1 then .error (.extraParam step) else .ok (program ++ [UserOps.And])

/-- `parse_or` from parsers.rs. -/
def parse_or (program : List UserOps) (op : List String) (step : Nat) :
    Except AssemblyError (List UserOps) :=
  if op.length > 1 then .error (.extraParam step) else .ok (program ++ [UserOps.Or])

/-- `parse_eq` from parsers.rs. -/
def parse_eq (program : List UserOps) (hints : HintMap) (op : List String) (step : Nat) :
    Except AssemblyError (List UserOps × HintMap) :=
  if op.length > 1 then .error (.extraParam step)
  else
    let hints := hintInsert hints program.length OpHint.EqStart
    .ok (program ++ [UserOps.Read, UserOps.Eq], hints)

/-- The 9-opcode post-amble of `parse_gt`. -/
def gtPostamble : List UserOps :=
  [UserOps.Drop4, UserOps.Pad2, UserOps.Swap4, UserOps.Roll4,
   UserOps.AssertEq, UserOps.AssertEq, UserOps.Roll4, UserOps.Dup, UserOps.Drop4]

/-- The 8-opcode post-amble of `parse_lt`. -/
def ltPostamble : List UserOps :=
  [UserOps.Drop4, UserOps.Pad2, UserOps.Swap4, UserOps.Roll4,
   UserOps.AssertEq, UserOps.AssertEq, UserOps.Dup, UserOps.Drop4]

/-- `parse_gt` from parsers.rs. -/
def parse_gt (program : List UserOps) (hints : HintMap) (op : List String) (step : Nat) :
    Except AssemblyError (List UserOps × HintMap) :=
  match read_param op step with
  | .error e => .error e
  | .ok n =>
    if n < 4 ∨ n > 128 then .error (.invalidParamReason step)
    else
      let program := program ++ [UserOps.Pad2, UserOps.Pad2, UserOps.Pad2, UserOps.Dup]
      let ph := append_push_op program hints (2 ^ (n - 1))
      let program := ph.fst
      let hints := hintInsert ph.snd program.length (OpHint.CmpStart n)
      let program := program ++ List.replicate n UserOps.Cmp
      .ok (program ++ gtPostamble, hints)

/-- `parse_lt` from parsers.rs. -/
def parse_lt (program : List UserOps) (hints : HintMap) (op : List String) (step : Nat) :
    Except AssemblyError (List UserOps × HintMap) :=
  match read_param op step with
  | .error e => .error e
  | .ok n =>
    if n < 4 ∨ n > 128 then .error (.invalidParamReason step)
    else
      let program := program ++ [UserOps.Pad2, UserOps.Pad2, UserOps.Pad2, UserOps.Dup]
      let ph := append_push_op program hints (2 ^ (n - 1))
      let program := ph.fst
      let hints := hintInsert ph.snd program.length (OpHint.CmpStart n)
      let program := program ++ List.replicate n UserOps.Cmp
      .ok (program ++ ltPostamble, hints)

/-- `parse_rc` from parsers.rs. -/
def parse_rc (program : List UserOps) (hints : HintMap) (op : List String) (step : Nat) :
    Except AssemblyError (List UserOps × HintMap) :=
  match read_param op step with
  | .error e => .error e
  | .ok n =>
    if n < 4 ∨ n > 128 then .error (.invalidParamReason step)
    else
      let program := program ++ [UserOps.Pad2]
      let ph := append_push_op program hints (2 ^ (n - 1))
      let program := ph.fst
      let hints := hintInsert ph.snd program.length (OpHint.RcStart n)
      let program := program ++ List.replicate n UserOps.BinAcc
      let program := program ++ [UserOps.Drop, UserOps.Drop]
      let hints := hintInsert hints program.length OpHint.EqStart
      .ok (program ++ [UserOps.Read, UserOps.Eq], hints)

/-- `parse_isodd` from parsers.rs. -/
def parse_isodd (program : List UserOps) (hints : HintMap) (op : List String) (step : Nat) :
    Except AssemblyError (List UserOps × HintMap) :=
  match read_param op step with
  | .error e => .error e
  | .ok n =>
    if n < 4 ∨ n > 128 then .error (.invalidParamReason step)
    else
      let program := program ++ [UserOps.Pad2]
      let ph := append_push_op program hints (2 ^ (n - 1))
      let program := ph.fst
      let hints := hintInsert ph.snd program.length (OpHint.RcStart n)
      let program := program ++ List.replicate n UserOps.BinAcc
      .ok (program ++ [UserOps.Swap2, UserOps.AssertEq, UserOps.Drop], hints)

/-- `parse_choose` from parsers.rs. -/
def parse_choose (program : List UserOps) (op : List String) (step : Nat) :
    Except AssemblyError (List UserOps) :=
  match read_param op step with
  | .error e => .error e
  | .ok 1 => .ok (program ++ [UserOps.Choose])
  | .ok 2 => .ok (program ++ [UserOps.Choose2])
  | .ok _ => .error (.invalidParamReason step)

/-- Ten Rescue-round opcodes followed by the truncation `Drop4`
(the tail of `parse_hash`). -/
def hashRounds : List UserOps :=
  [UserOps.RescR, UserOps.RescR, UserOps.RescR, UserOps.RescR, UserOps.RescR,
   UserOps.RescR, UserOps.RescR, UserOps.RescR, UserOps.RescR, UserOps.RescR,
   UserOps.Drop4]

/-- `parse_hash` from parsers.rs. -/
def parse_hash (program : List UserOps) (op : List String) (step : Nat) :
    Except AssemblyError (List UserOps) :=
  match read_param op step with
  | .error e => .error e
  | .ok n =>
    match (match n with
      | 1 => some [UserOps.Pad2, UserOps.Pad2, UserOps.Pad2, UserOps.Drop]
      | 2 => some [UserOps.Pad2, UserOps.Pad2]
      | 3 => some [UserOps.Pad2, UserOps.Pad2, UserOps.Drop]
      | 4 => some [UserOps.Pad2]
      | _ => none) with
    | none => .error (.invalidParamReason step)
    | some pre =>
      let program := program ++ pre
      let alignment := program.length % HASH_OP_ALIGNMENT
      let pad_length := (HASH_OP_ALIGNMENT - alignment) % HASH_OP_ALIGNMENT
      let program := program ++ List.replicate pad_length UserOps.Noop
      .ok (program ++ hashRounds)

/-- The 32-opcode `SUB_CYCLE` of `parse_mpath`. -/
def SUB_CYCLE : List UserOps :=
  [UserOps.RescR, UserOps.RescR, UserOps.RescR, UserOps.RescR,
   UserOps.RescR, UserOps.RescR, UserOps.RescR, UserOps.RescR,
   UserOps.RescR, UserOps.RescR, UserOps.Drop4, UserOps.Read2,
   UserOps.Swap2, UserOps.Swap4, UserOps.Swap2, UserOps.Pad2,
   UserOps.RescR, UserOps.RescR, UserOps.RescR, UserOps.RescR,
   UserOps.RescR, UserOps.RescR, UserOps.RescR, UserOps.RescR,
   UserOps.RescR, UserOps.RescR, UserOps.Drop4, UserOps.Choose2,
   UserOps.Read2, UserOps.Dup4, UserOps.Pad2, UserOps.Noop]

/-- `parse_mpath` from parsers.rs. -/
def parse_mpath (program : List UserOps) (op : List String) (step : Nat) :
    Except AssemblyError (List UserOps) :=
  match read_param op step with
  | .error e => .error e
  | .ok n =>
    if n < 2 ∨ n > 256 then .error (.invalidParamReason step)
    else
      let program := program ++ [UserOps.Read2, UserOps.Dup4, UserOps.Pad2]
      let alignment := program.length % HASH_OP_ALIGNMENT
      let pad_length := (HASH_OP_ALIGNMENT - alignment) % HASH_OP_ALIGNMENT
      let program := program ++ List.replicate pad_length UserOps.Noop
      let program := program ++ (List.replicate (n - 2) SUB_CYCLE).flatten
      .ok (program ++ SUB_CYCLE.take 28)

-- ================================================================================================
-- C2: the gt.64 macro expansion
-- ================================================================================================

/-- C2 counterexample: assembling the single token `gt.64` does NOT produce a
program of 83 opcodes (the claim's count); `append_push_op` pads the 4-opcode
preamble with 4 Noops (not 5) to reach the push slot at index 8, so the total
is 82. -/
theorem c2_gt64_not_83 :
    ((parse_gt [] [] ["gt", "64"] 0).toOption.map (fun r => r.fst.length)) ≠ some 83 := by
  have h82 : ((parse_gt [] [] ["gt", "64"] 0).toOption.map (fun r => r.fst.length))
      = some 82 := rfl
  rw [h82]
  decide

/-- C2 (amended): assembling the single token `gt.64` produces exactly 82
opcodes — the preamble `[Pad2,Pad2,Pad2,Dup]`, 4 Noops of padding up to the
next multiple-of-8 index followed by `Push`, 64 `Cmp` opcodes, and the 9-op
post-amble — with hint `PushValue(2^63)` keyed at the `Push` index (8) and
hint `CmpStart(64)` keyed at the first `Cmp` index (9). -/
theorem c2_gt64_expansion :
    parse_gt [] [] ["gt", "64"] 0 =
      .ok ([UserOps.Pad2, UserOps.Pad2, UserOps.Pad2, UserOps.Dup]
            ++ List.replicate 4 UserOps.Noop ++ [UserOps.Push]
            ++ List.replicate 64 UserOps.Cmp ++ gtPostamble,
          [(8, OpHint.PushValue (2 ^ 63)), (9, OpHint.CmpStart 64)])
    ∧ ([UserOps.Pad2, UserOps.Pad2, UserOps.Pad2, UserOps.Dup]
            ++ List.replicate 4 UserOps.Noop ++ [UserOps.Push]
            ++ List.replicate 64 UserOps.Cmp ++ gtPostamble).length = 82 := by
  exact ⟨rfl, rfl⟩

-- ================================================================================================
-- PROGRAM BLOCKS (src/programs/program2/flow.rs)
-- ================================================================================================

/-- The `ProgramBlock` sum (flow.rs); `Span` (whose own module is not among
the provided sources) is modelled from the spec as its ordered instruction
list. -/
inductive ProgramBlock where
  | span (instructions : List UserOps)
  | group (blocks : List ProgramBlock)
  | switch (t_branch f_branch : List ProgramBlock)
  | loop (body skip : List ProgramBlock)

/-- `ProgramBlock::is_span` from flow.rs. -/
def ProgramBlock.is_span : ProgramBlock → Bool
  | .span _ => true
  | _ => false

/-- Modelled from the spec: `Span::starts_with` (slice prefix test on the
span's instruction list). -/
def opsStartWith : List UserOps → List UserOps → Bool
  | _, [] => true
  | [], _ :: _ => false
  | x :: xs, y :: ys => x == y && opsStartWith xs ys

/-- The `was_span` loop of `validate_block_list` (flow.rs lines 182-190),
applied to `blocks[1..]`: a `Span` element requires `was_span == false`, and
— exactly as in the source — the flag is NOT set back to true on a `Span`,
only cleared on a non-`Span`. -/
def spanChainCheck : Bool → List ProgramBlock → Bool
  | _, [] => true
  | was_span, ProgramBlock.span _ :: rest =>
    (was_span == false) && spanChainCheck was_span rest
  | _, _ :: rest => spanChainCheck false rest

/-- `validate_block_list` from flow.rs: `true` means every `assert!` passes
(construction succeeds), `false` means the construction panics. -/
def validate_block_list (blocks : List ProgramBlock) (starts_with : List UserOps) : Bool :=
  (!blocks.isEmpty) &&
  (match blocks.headD (ProgramBlock.span []) with
   | ProgramBlock.span ops => (starts_with.isEmpty) || opsStartWith ops starts_with
   | _ => false) &&
  spanChainCheck true blocks.tail

/-- `Group::new` from flow.rs (`none` = the validation panicked). -/
def Group.new (blocks : List ProgramBlock) : Option ProgramBlock :=
  if validate_block_list blocks [] then some (ProgramBlock.group blocks) else none

/-- `Switch::new` from flow.rs. -/
def Switch.new (true_branch false_branch : List ProgramBlock) : Option ProgramBlock :=
  if validate_block_list true_branch [UserOps.Assert]
      && validate_block_list false_branch [UserOps.Not, UserOps.Assert] then
    some (ProgramBlock.switch true_branch false_branch)
  else none

/-- The skip-span instruction list synthesized by `Loop::new` (flow.rs lines
123-128): `[NOT, ASSERT, NOOP × 13]`. -/
def loopSkipOps : List UserOps :=
  [UserOps.Not, UserOps.Assert, UserOps.Noop, UserOps.Noop,
   UserOps.Noop, UserOps.Noop, UserOps.Noop, UserOps.Noop,
   UserOps.Noop, UserOps.Noop, UserOps.Noop, UserOps.Noop,
   UserOps.Noop, UserOps.Noop, UserOps.Noop]

/-- `Loop::new` from flow.rs. -/
def Loop.new (body : List ProgramBlock) : Option ProgramBlock :=
  if validate_block_list body [UserOps.Assert] then
    some (ProgramBlock.loop body [ProgramBlock.span loopSkipOps])
  else none

-- ================================================================================================
-- C4: adjacent-Span rejection in validate_block_list
-- ================================================================================================

/-- C4: the claim fails on the code — `validate_block_list` clears `was_span`
on a non-Span element but never sets it back on a Span, so a block list with
two consecutive Spans AFTER the first non-Span element passes validation:
`[Span, Group, Span, Span]` is accepted by `Group::new` even though positions
2 and 3 are adjacent Spans (while `[Span, Span, ...]` is correctly rejected).
This contradicts the source's own assertion message ("a Span block cannot be
followed by another Span block"). -/
theorem c4_adjacent_spans_accepted :
    validate_block_list
      [ProgramBlock.span [UserOps.Noop],
       ProgramBlock.group [ProgramBlock.span [UserOps.Noop]],
       ProgramBlock.span [UserOps.Noop],
       ProgramBlock.span [UserOps.Noop]] [] = true
    ∧ (Group.new
        [ProgramBlock.span [UserOps.Noop],
         ProgramBlock.group [ProgramBlock.span [UserOps.Noop]],
         ProgramBlock.span [UserOps.Noop],
         ProgramBlock.span [UserOps.Noop]]).isSome = true
    ∧ validate_block_list
        [ProgramBlock.span [UserOps.Noop], ProgramBlock.span [UserOps.Noop]] [] = false := by
  exact ⟨rfl, rfl, rfl⟩

-- ================================================================================================
-- C5: the synthesized Loop skip span
-- ================================================================================================

/-- C5 counterexample: for the accepted body `[Span [Assert]]`, `Loop::new`
synthesizes the skip span `[Not, Assert, Noop × 13]`, whose length is 15 —
not 16 as the claim states. -/
theorem c5_skip_not_16 :
    Loop.new [ProgramBlock.span [UserOps.Assert]]
      = some (ProgramBlock.loop [ProgramBlock.span [UserOps.Assert]]
          [ProgramBlock.span loopSkipOps])
    ∧ loopSkipOps.length ≠ 16 := by
  refine ⟨rfl, ?_⟩
  decide

/-- C5 (amended): for every body accepted by `Loop::new`, the constructed
Loop's skip field is a single Span whose instruction list is exactly
`[Not, Assert]` followed by 13 Noops; this canonical skip span consists of
15 opcodes. -/
theorem c5_loop_skip (body : List ProgramBlock) (b : ProgramBlock)
    (h : Loop.new body = some b) :
    b = ProgramBlock.loop body [ProgramBlock.span loopSkipOps]
    ∧ loopSkipOps = [UserOps.Not, UserOps.Assert] ++ List.replicate 13 UserOps.Noop
    ∧ loopSkipOps.length = 15 := by
  unfold Loop.new at h
  split at h
  · exact ⟨(Option.some_injective _ h).symm, rfl, rfl⟩
  · exact absurd h (by simp)

/-- Witness for `c5_loop_skip` at the concrete body `[Span [Assert]]`. -/
theorem c5_loop_skip_witness :
    ProgramBlock.loop [ProgramBlock.span [UserOps.Assert]] [ProgramBlock.span loopSkipOps]
      = ProgramBlock.loop [ProgramBlock.span [UserOps.Assert]] [ProgramBlock.span loopSkipOps]
    ∧ loopSkipOps = [UserOps.Not, UserOps.Assert] ++ List.replicate 13 UserOps.Noop
    ∧ loopSkipOps.length = 15 :=
  c5_loop_skip [ProgramBlock.span [UserOps.Assert]]
    (ProgramBlock.loop [ProgramBlock.span [UserOps.Assert]] [ProgramBlock.span loopSkipOps])
    rfl

-- ================================================================================================
-- C3: the push-alignment invariant of the assembler
-- ================================================================================================

/-- Modelled from the spec (§4.2, §6): the mnemonics of the assembly language;
the token dispatch loop itself is not among the provided sources, so each
mnemonic is routed to the corresponding `parse_*` function below. -/
inductive Mnemonic where
  | noop | assert | push | read | dup | pad | pick | drop | swap | roll
  | add | sub | mul | div | neg | inv | not | and | or
  | eq | gt | lt | rc | isodd | choose | hash | mpath
deriving DecidableEq, Repr

/-- Modelled from the spec (§4.2): dispatch of one token to its parser. -/
def dispatchOp (st : List UserOps × HintMap) (m : Mnemonic) (op : List String) (step : Nat) :
    Except AssemblyError (List UserOps × HintMap) :=
  match m with
  | .noop => (parse_noop st.1 op step).map (fun p => (p, st.2))
  | .assert => (parse_assert st.1 op step).map (fun p => (p, st.2))
  | .push => parse_push st.1 st.2 op step
  | .read => (parse_read st.1 op step).map (fun p => (p, st.2))
  | .dup => (parse_dup st.1 op step).map (fun p => (p, st.2))
  | .pad => (parse_pad st.1 op step).map (fun p => (p, st.2))
  | .pick => (parse_pick st.1 op step).map (fun p => (p, st.2))
  | .drop => (parse_drop st.1 op step).map (fun p => (p, st.2))
  | .swap => (parse_swap st.1 op step).map (fun p => (p, st.2))
  | .roll => (parse_roll st.1 op step).map (fun p => (p, st.2))
  | .add => (parse_add st.1 op step).map (fun p => (p, st.2))
  | .sub => (parse_sub st.1 op step).map (fun p => (p, st.2))
  | .mul => (parse_mul st.1 op step).map (fun p => (p, st.2))
  | .div => (parse_div st.1 op step).map (fun p => (p, st.2))
  | .neg => (parse_neg st.1 op step).map (fun p => (p, st.2))
  | .inv => (parse_inv st.1 op step).map (fun p => (p, st.2))
  | .not => (parse_not st.1 op step).map (fun p => (p, st.2))
  | .and => (parse_and st.1 op step).map (fun p => (p, st.2))
  | .or => (parse_or st.1 op step).map (fun p => (p, st.2))
  | .eq => parse_eq st.1 st.2 op step
  | .gt => parse_gt st.1 st.2 op step
  | .lt => parse_lt st.1 st.2 op step
  | .rc => parse_rc st.1 st.2 op step
  | .isodd => parse_isodd st.1 st.2 op step
  | .choose => (parse_choose st.1 op step).map (fun p => (p, st.2))
  | .hash => (parse_hash st.1 op step).map (fun p => (p, st.2))
  | .mpath => (parse_mpath st.1 op step).map (fun p => (p, st.2))

/-- Modelled from the spec (§4.2): the assembler loop over a token stream,
threading the program and the hint sidetable; the first error aborts. -/
def assembleRun : List (Mnemonic × List String) → Nat → (List UserOps × HintMap) →
    Except AssemblyError (List UserOps × HintMap)
  | [], _, st => .ok st
  | (m, op) :: rest, step, st =>
    match dispatchOp st m op step with
    | .error e => .error e
    | .ok st2 => assembleRun rest (step + 1) st2

/-- The push-alignment invariant (spec §8): every `Push` sits at an index
divisible by 8 and carries exactly one `PushValue` hint keyed at that index. -/
def pushAligned (p : List UserOps) (h : HintMap) : Prop :=
  ∀ i, i < p.length → p.getD i UserOps.Noop = UserOps.Push →
    i % 8 = 0 ∧ (h.filter (fun e => e.fst == i)).length = 1 ∧
      ∃ v, hintLookup h i = some (OpHint.PushValue v)

/-- Auxiliary strengthening: every hint key lies strictly below the program
length (each parser inserts hints at the pre-append position). -/
def hintKeysBelow (p : List UserOps) (h : HintMap) : Prop :=
  ∀ e ∈ h, e.fst < p.length

/-- The inductive invariant carried through the assembler loop. -/
def asmInv (st : List UserOps × HintMap) : Prop :=
  pushAligned st.1 st.2 ∧ hintKeysBelow st.1 st.2

/-- The primitive program-extension shapes used by the parsers: a plain
append, a hint keyed at the current length followed by an append, and
`append_push_op`. -/
inductive AsmAct where
  | appendOps (ops : List UserOps)
  | hintOps (hint : OpHint) (ops : List UserOps)
  | pushOp (v : Nat)

/-- Effect of one primitive extension. -/
def applyAct (st : List UserOps × HintMap) : AsmAct → List UserOps × HintMap
  | .appendOps ops => (st.1 ++ ops, st.2)
  | .hintOps hint ops => (st.1 ++ ops, hintInsert st.2 st.1.length hint)
  | .pushOp v => append_push_op st.1 st.2 v

/-- Side conditions under which a primitive extension preserves the invariant. -/
def actOK : AsmAct → Prop
  | .appendOps ops => ∀ o ∈ ops, o ≠ UserOps.Push
  | .hintOps _ ops => ops ≠ [] ∧ ∀ o ∈ ops, o ≠ UserOps.Push
  | .pushOp _ => True

/-- Fold of primitive extensions. -/
def applyActs (st : List UserOps × HintMap) (acts : List AsmAct) : List UserOps × HintMap :=
  acts.foldl applyAct st

theorem getD_mem_of_lt {α : Type} (l : List α) (d : α) (i : Nat) (h : i < l.length) :
    l.getD i d ∈ l := by
  rw [List.getD_eq_getElem?_getD, List.getElem?_eq_getElem h]
  exact List.getElem_mem h

theorem getD_replicate_of_lt {α : Type} (n : Nat) (a d : α) (i : Nat) (h : i < n) :
    (List.replicate n a).getD i d = a := by
  have := getD_mem_of_lt (List.replicate n a) d i (by simpa using h)
  exact (List.eq_of_mem_replicate this)

theorem hintInsert_fresh (m : HintMap) (k : Nat) (v : OpHint)
    (hk : ∀ e ∈ m, e.fst ≠ k) : hintInsert m k v = m ++ [(k, v)] := by
  unfold hintInsert
  rw [if_neg]
  intro hany
  rw [List.any_eq_true] at hany
  obtain ⟨e, hmem, he⟩ := hany
  exact hk e hmem (by simpa using he)

theorem hintLookup_append_single_ne (m : HintMap) (k i : Nat) (v : OpHint) (hne : i ≠ k) :
    hintLookup (m ++ [(k, v)]) i = hintLookup m i := by
  unfold hintLookup
  rw [List.find?_append]
  have hnone : List.find? (fun e => e.fst == i) [(k, v)] = none := by
    rw [List.find?_eq_none]
    intro x hx
    rw [List.mem_singleton] at hx
    subst hx
    simp only [beq_iff_eq]
    exact Ne.symm hne
  rw [hnone, Option.or_none]

theorem filter_append_single_ne (m : HintMap) (k i : Nat) (v : OpHint) (hne : i ≠ k) :
    (m ++ [(k, v)]).filter (fun e => e.fst == i) = m.filter (fun e => e.fst == i) := by
  rw [List.filter_append]
  have hnil : List.filter (fun e => e.fst == i) [(k, v)] = [] := by
    rw [List.filter_eq_nil_iff]
    intro x hx
    rw [List.mem_singleton] at hx
    subst hx
    simp only [beq_iff_eq]
    exact Ne.symm hne
  rw [hnil, List.append_nil]

theorem fresh_key_facts (m : HintMap) (k : Nat) (v : OpHint)
    (hfresh : ∀ e ∈ m, e.fst ≠ k) :
    ((m ++ [(k, v)]).filter (fun e => e.fst == k)).length = 1
    ∧ hintLookup (m ++ [(k, v)]) k = some v := by
  constructor
  · rw [List.filter_append]
    have hnil : List.filter (fun e => e.fst == k) m = [] := by
      rw [List.filter_eq_nil_iff]
      intro e he
      simp only [beq_iff_eq]
      exact hfresh e he
    rw [hnil]
    simp
  · unfold hintLookup
    rw [List.find?_append]
    have hnone : List.find? (fun e => e.fst == k) m = none := by
      rw [List.find?_eq_none]
      intro e he
      simp only [beq_iff_eq]
      exact hfresh e he
    rw [hnone]
    simp

theorem append_push_op_eq (p : List UserOps) (h : HintMap) (v : Nat) :
    append_push_op p h v
      = (p ++ List.replicate ((PUSH_OP_ALIGNMENT - p.length % PUSH_OP_ALIGNMENT)
            % PUSH_OP_ALIGNMENT) UserOps.Noop ++ [UserOps.Push],
         hintInsert h (p.length + (PUSH_OP_ALIGNMENT - p.length % PUSH_OP_ALIGNMENT)
            % PUSH_OP_ALIGNMENT) (OpHint.PushValue v)) := by
  simp [append_push_op, List.length_append]

theorem pushAligned_append (p : List UserOps) (h : HintMap) (ops : List UserOps)
    (hp : pushAligned p h) (hops : ∀ o ∈ ops, o ≠ UserOps.Push) :
    pushAligned (p ++ ops) h := by
  intro i hi hpush
  by_cases hlt : i < p.length
  · rw [List.getD_append _ _ _ _ hlt] at hpush
    exact hp i hlt hpush
  · exfalso
    push_neg at hlt
    rw [List.getD_append_right _ _ _ _ hlt] at hpush
    have hidx : i - p.length < ops.length := by
      rw [List.length_append] at hi
      omega
    exact hops _ (getD_mem_of_lt ops UserOps.Noop _ hidx) hpush

theorem applyAct_inv (st : List UserOps × HintMap) (a : AsmAct)
    (hst : asmInv st) (ha : actOK a) : asmInv (applyAct st a) := by
  obtain ⟨hpa, hkb⟩ := hst
  cases a with
  | appendOps ops =>
    refine ⟨pushAligned_append _ _ _ hpa ha, ?_⟩
    intro e he
    have := hkb e he
    rw [applyAct, List.length_append]
    omega
  | hintOps hint ops =>
    obtain ⟨hne, hops⟩ := ha
    have hfresh : ∀ e ∈ st.2, e.fst ≠ st.1.length := by
      intro e he
      exact Nat.ne_of_lt (hkb e he)
    rw [applyAct, hintInsert_fresh _ _ _ hfresh]
    constructor
    · intro i hi hpush
      have hlen : i < st.1.length := by
        by_contra hge
        push_neg at hge
        rw [List.getD_append_right _ _ _ _ hge] at hpush
        have hidx : i - st.1.length < ops.length := by
          rw [List.length_append] at hi
          omega
        exact hops _ (getD_mem_of_lt ops UserOps.Noop _ hidx) hpush
      rw [List.getD_append _ _ _ _ hlen] at hpush
      obtain ⟨h1, h2, v, h3⟩ := hpa i hlen hpush
      have hik : i ≠ st.1.length := Nat.ne_of_lt hlen
      refine ⟨h1, ?_, v, ?_⟩
      · rw [filter_append_single_ne _ _ _ _ hik]
        exact h2
      · rw [hintLookup_append_single_ne _ _ _ _ hik]
        exact h3
    · intro e he
      rw [List.mem_append] at he
      rw [List.length_append]
      rcases he with he | he
      · exact Nat.lt_of_lt_of_le (hkb e he) (Nat.le_add_right _ _)
      · rw [List.mem_singleton] at he
        subst he
        have hlen : 0 < ops.length := List.length_pos.mpr hne
        show st.1.length < st.1.length + ops.length
        omega
  | pushOp v =>
    rw [applyAct, append_push_op_eq]
    set pad := (PUSH_OP_ALIGNMENT - st.1.length % PUSH_OP_ALIGNMENT) % PUSH_OP_ALIGNMENT with hpad
    set k := st.1.length + pad with hk
    have hP : PUSH_OP_ALIGNMENT = 8 := rfl
    have hkmod : k % 8 = 0 := by
      rw [hk, hpad, hP]
      omega
    have hfresh : ∀ e ∈ st.2, e.fst ≠ k := by
      intro e he
      have := hkb e he
      omega
    rw [hintInsert_fresh _ _ _ hfresh]
    constructor
    · intro i hi hpush
      rw [List.length_append, List.length_append, List.length_replicate] at hi
      simp only [List.length_singleton] at hi
      rcases Nat.lt_trichotomy i k with hik | hik | hik
      · -- strictly below the Push slot: an old position or a padding Noop
        have hcond : i % 8 = 0 ∧ (st.2.filter (fun e => e.fst == i)).length = 1
            ∧ ∃ w, hintLookup st.2 i = some (OpHint.PushValue w) := by
          by_cases hlt : i < st.1.length
          · rw [List.append_assoc, List.getD_append _ _ _ _ hlt] at hpush
            exact hpa i hlt hpush
          · exfalso
            push_neg at hlt
            rw [List.append_assoc, List.getD_append_right _ _ _ _ hlt] at hpush
            have hsub : i - st.1.length < pad := by omega
            rw [List.getD_append _ _ _ _ (by simpa using hsub)] at hpush
            rw [getD_replicate_of_lt pad _ _ _ hsub] at hpush
            cases hpush
        obtain ⟨h1, h2, w, h3⟩ := hcond
        have hne : i ≠ k := by omega
        refine ⟨h1, ?_, w, ?_⟩
        · rw [filter_append_single_ne _ _ _ _ hne]
          exact h2
        · rw [hintLookup_append_single_ne _ _ _ _ hne]
          exact h3
      · -- the Push slot itself
        obtain ⟨hflt, hfnd⟩ := fresh_key_facts st.2 k (OpHint.PushValue v) hfresh
        rw [hik]
        exact ⟨hkmod, hflt, v, hfnd⟩
      · omega
    · intro e he
      rw [List.mem_append] at he
      rw [List.length_append, List.length_append, List.length_replicate]
      simp only [List.length_singleton]
      rcases he with he | he
      · have := hkb e he
        omega
      · rw [List.mem_singleton] at he
        subst he
        show k < st.1.length + pad + 1
        omega

theorem applyActs_inv (acts : List AsmAct) (st : List UserOps × HintMap)
    (hst : asmInv st) (hacts : ∀ a ∈ acts, actOK a) : asmInv (applyActs st acts) := by
  induction acts generalizing st with
  | nil => exact hst
  | cons a rest ih =>
    rw [applyActs, List.foldl_cons]
    exact ih _ (applyAct_inv st a hst (hacts a (List.mem_cons_self a rest)))
      (fun b hb => hacts b (List.mem_cons_of_mem a hb))

theorem nonPush_append {xs ys : List UserOps}
    (hx : ∀ o ∈ xs, o ≠ UserOps.Push) (hy : ∀ o ∈ ys, o ≠ UserOps.Push) :
    ∀ o ∈ xs ++ ys, o ≠ UserOps.Push := by
  intro o ho
  rw [List.mem_append] at ho
  rcases ho with ho | ho
  · exact hx o ho
  · exact hy o ho

theorem nonPush_replicate (n : Nat) {a : UserOps} (ha : a ≠ UserOps.Push) :
    ∀ o ∈ List.replicate n a, o ≠ UserOps.Push := by
  intro o ho
  rw [List.mem_replicate] at ho
  rw [ho.2]
  exact ha

theorem plain_inv (p : List UserOps) (h : HintMap) (q : List UserOps)
    (hinv : asmInv (p, h)) (hex : ∃ ops, q = p ++ ops ∧ ∀ o ∈ ops, o ≠ UserOps.Push) :
    asmInv (q, h) := by
  obtain ⟨ops, rfl, hops⟩ := hex
  exact applyAct_inv (p, h) (.appendOps ops) hinv hops

theorem push_hint_block_inv (p : List UserOps) (h : HintMap) (pre : List UserOps)
    (v : Nat) (hint : OpHint) (tailOps : List UserOps)
    (hinv : asmInv (p, h)) (hpre : ∀ o ∈ pre, o ≠ UserOps.Push)
    (htail : tailOps ≠ [] ∧ ∀ o ∈ tailOps, o ≠ UserOps.Push) :
    asmInv ((append_push_op (p ++ pre) h v).1 ++ tailOps,
      hintInsert (append_push_op (p ++ pre) h v).2
        (append_push_op (p ++ pre) h v).1.length hint) := by
  have h1 := applyAct_inv (p, h) (.appendOps pre) hinv hpre
  have h2 := applyAct_inv _ (.pushOp v) h1 trivial
  have h3 := applyAct_inv _ (.hintOps hint tailOps) h2 htail
  exact h3

theorem parse_noop_shape (p : List UserOps) (op : List String) (step : Nat) (q : List UserOps)
    (hok : parse_noop p op step = .ok q) :
    ∃ ops, q = p ++ ops ∧ ∀ o ∈ ops, o ≠ UserOps.Push := by
  unfold parse_noop at hok
  split at hok
  all_goals first
    | (exact ⟨_, (Except.ok.inj hok).symm, by decide⟩)
    | (cases hok)

theorem parse_assert_shape (p : List UserOps) (op : List String) (step : Nat) (q : List UserOps)
    (hok : parse_assert p op step = .ok q) :
    ∃ ops, q = p ++ ops ∧ ∀ o ∈ ops, o ≠ UserOps.Push := by
  unfold parse_assert at hok
  split at hok
  · cases hok
  · split at hok
    · exact ⟨_, (Except.ok.inj hok).symm, by decide⟩
    · split at hok
      · exact ⟨_, (Except.ok.inj hok).symm, by decide⟩
      · cases hok

theorem parse_read_shape (p : List UserOps) (op : List String) (step : Nat) (q : List UserOps)
    (hok : parse_read p op step = .ok q) :
    ∃ ops, q = p ++ ops ∧ ∀ o ∈ ops, o ≠ UserOps.Push := by
  unfold parse_read at hok
  split at hok
  · cases hok
  · split at hok
    · exact ⟨_, (Except.ok.inj hok).symm, by decide⟩
    · split at hok
      · exact ⟨_, (Except.ok.inj hok).symm, by decide⟩
      · cases hok

theorem parse_dup_shape (p : List UserOps) (op : List String) (step : Nat) (q : List UserOps)
    (hok : parse_dup p op step = .ok q) :
    ∃ ops, q = p ++ ops ∧ ∀ o ∈ ops, o ≠ UserOps.Push := by
  unfold parse_dup at hok
  split at hok
  all_goals first
    | (exact ⟨_, (Except.ok.inj hok).symm, by decide⟩)
    | (cases hok)

theorem parse_pad_shape (p : List UserOps) (op : List String) (step : Nat) (q : List UserOps)
    (hok : parse_pad p op step = .ok q) :
    ∃ ops, q = p ++ ops ∧ ∀ o ∈ ops, o ≠ UserOps.Push := by
  unfold parse_pad at hok
  split at hok
  all_goals first
    | (exact ⟨_, (Except.ok.inj hok).symm, by decide⟩)
    | (cases hok)

theorem parse_pick_shape (p : List UserOps) (op : List String) (step : Nat) (q : List UserOps)
    (hok : parse_pick p op step = .ok q) :
    ∃ ops, q = p ++ ops ∧ ∀ o ∈ ops, o ≠ UserOps.Push := by
  unfold parse_pick at hok
  split at hok
  all_goals first
    | (exact ⟨_, (Except.ok.inj hok).symm, by decide⟩)
    | (cases hok)

theorem parse_drop_shape (p : List UserOps) (op : List String) (step : Nat) (q : List UserOps)
    (hok : parse_drop p op step = .ok q) :
    ∃ ops, q = p ++ ops ∧ ∀ o ∈ ops, o ≠ UserOps.Push := by
  unfold parse_drop at hok
  split at hok
  all_goals first
    | (exact ⟨_, (Except.ok.inj hok).symm, by decide⟩)
    | (cases hok)

theorem parse_swap_shape (p : List UserOps) (op : List String) (step : Nat) (q : List UserOps)
    (hok : parse_swap p op step = .ok q) :
    ∃ ops, q = p ++ ops ∧ ∀ o ∈ ops, o ≠ UserOps.Push := by
  unfold parse_swap at hok
  split at hok
  all_goals first
    | (exact ⟨_, (Except.ok.inj hok).symm, by decide⟩)
    | (cases hok)

theorem parse_roll_shape (p : List UserOps) (op : List String) (step : Nat) (q : List UserOps)
    (hok : parse_roll p op step = .ok q) :
    ∃ ops, q = p ++ ops ∧ ∀ o ∈ ops, o ≠ UserOps.Push := by
  unfold parse_roll at hok
  split at hok
  all_goals first
    | (exact ⟨_, (Except.ok.inj hok).symm, by decide⟩)
    | (cases hok)

theorem parse_add_shape (p : List UserOps) (op : List String) (step : Nat) (q : List UserOps)
    (hok : parse_add p op step = .ok q) :
    ∃ ops, q = p ++ ops ∧ ∀ o ∈ ops, o ≠ UserOps.Push := by
  unfold parse_add at hok
  split at hok
  all_goals first
    | (exact ⟨_, (Except.ok.inj hok).symm, by decide⟩)
    | (cases hok)

theorem parse_sub_shape (p : List UserOps) (op : List String) (step : Nat) (q : List UserOps)
    (hok : parse_sub p op step = .ok q) :
    ∃ ops, q = p ++ ops ∧ ∀ o ∈ ops, o ≠ UserOps.Push := by
  unfold parse_sub at hok
  split at hok
  all_goals first
    | (exact ⟨_, (Except.ok.inj hok).symm, by decide⟩)
    | (cases hok)

theorem parse_mul_shape (p : List UserOps) (op : List String) (step : Nat) (q : List UserOps)
    (hok : parse_mul p op step = .ok q) :
    ∃ ops, q = p ++ ops ∧ ∀ o ∈ ops, o ≠ UserOps.Push := by
  unfold parse_mul at hok
  split at hok
  all_goals first
    | (exact ⟨_, (Except.ok.inj hok).symm, by decide⟩)
    | (cases hok)

theorem parse_div_shape (p : List UserOps) (op : List String) (step : Nat) (q : List UserOps)
    (hok : parse_div p op step = .ok q) :
    ∃ ops, q = p ++ ops ∧ ∀ o ∈ ops, o ≠ UserOps.Push := by
  unfold parse_div at hok
  split at hok
  all_goals first
    | (exact ⟨_, (Except.ok.inj hok).symm, by decide⟩)
    | (cases hok)

theorem parse_neg_shape (p : List UserOps) (op : List String) (step : Nat) (q : List UserOps)
    (hok : parse_neg p op step = .ok q) :
    ∃ ops, q = p ++ ops ∧ ∀ o ∈ ops, o ≠ UserOps.Push := by
  unfold parse_neg at hok
  split at hok
  all_goals first
    | (exact ⟨_, (Except.ok.inj hok).symm, by decide⟩)
    | (cases hok)

theorem parse_inv_shape (p : List UserOps) (op : List String) (step : Nat) (q : List UserOps)
    (hok : parse_inv p op step = .ok q) :
    ∃ ops, q = p ++ ops ∧ ∀ o ∈ ops, o ≠ UserOps.Push := by
  unfold parse_inv at hok
  split at hok
  all_goals first
    | (exact ⟨_, (Except.ok.inj hok).symm, by decide⟩)
    | (cases hok)

theorem parse_not_shape (p : List UserOps) (op : List String) (step : Nat) (q : List UserOps)
    (hok : parse_not p op step = .ok q) :
    ∃ ops, q = p ++ ops ∧ ∀ o ∈ ops, o ≠ UserOps.Push := by
  unfold parse_not at hok
  split at hok
  all_goals first
    | (exact ⟨_, (Except.ok.inj hok).symm, by decide⟩)
    | (cases hok)

theorem parse_and_shape (p : List UserOps) (op : List String) (step : Nat) (q : List UserOps)
    (hok : parse_and p op step = .ok q) :
    ∃ ops, q = p ++ ops ∧ ∀ o ∈ ops, o ≠ UserOps.Push := by
  unfold parse_and at hok
  split at hok
  all_goals first
    | (exact ⟨_, (Except.ok.inj hok).symm, by decide⟩)
    | (cases hok)

theorem parse_or_shape (p : List UserOps) (op : List String) (step : Nat) (q : List UserOps)
    (hok : parse_or p op step = .ok q) :
    ∃ ops, q = p ++ ops ∧ ∀ o ∈ ops, o ≠ UserOps.Push := by
  unfold parse_or at hok
  split at hok
  all_goals first
    | (exact ⟨_, (Except.ok.inj hok).symm, by decide⟩)
    | (cases hok)

theorem parse_choose_shape (p : List UserOps) (op : List String) (step : Nat) (q : List UserOps)
    (hok : parse_choose p op step = .ok q) :
    ∃ ops, q = p ++ ops ∧ ∀ o ∈ ops, o ≠ UserOps.Push := by
  unfold parse_choose at hok
  split at hok
  all_goals first
    | (exact ⟨_, (Except.ok.inj hok).symm, by decide⟩)
    | (cases hok)

theorem parse_hash_shape (p : List UserOps) (op : List String) (step : Nat) (q : List UserOps)
    (hok : parse_hash p op step = .ok q) :
    ∃ ops, q = p ++ ops ∧ ∀ o ∈ ops, o ≠ UserOps.Push := by
  unfold parse_hash at hok
  split at hok
  · cases hok
  · split at hok
    · cases hok
    · rename_i pre hpre
      simp only [Except.ok.injEq] at hok
      have hpre2 : ∀ o ∈ pre, o ≠ UserOps.Push := by
        split at hpre
        all_goals first
          | (rw [← Option.some.inj hpre]; decide)
          | (cases hpre)
      refine ⟨pre ++ (List.replicate ((HASH_OP_ALIGNMENT
          - (p ++ pre).length % HASH_OP_ALIGNMENT) % HASH_OP_ALIGNMENT) UserOps.Noop
          ++ hashRounds), ?_, ?_⟩
      · rw [← hok]
        simp [List.append_assoc]
      · exact nonPush_append hpre2
          (nonPush_append (nonPush_replicate _ (by decide)) (by decide))

theorem parse_mpath_shape (p : List UserOps) (op : List String) (step : Nat) (q : List UserOps)
    (hok : parse_mpath p op step = .ok q) :
    ∃ ops, q = p ++ ops ∧ ∀ o ∈ ops, o ≠ UserOps.Push := by
  unfold parse_mpath at hok
  split at hok
  · cases hok
  · rename_i n hre
    split at hok
    · cases hok
    · simp only [Except.ok.injEq] at hok
      refine ⟨[UserOps.Read2, UserOps.Dup4, UserOps.Pad2]
          ++ (List.replicate ((HASH_OP_ALIGNMENT
            - (p ++ [UserOps.Read2, UserOps.Dup4, UserOps.Pad2]).length % HASH_OP_ALIGNMENT)
              % HASH_OP_ALIGNMENT) UserOps.Noop
          ++ ((List.replicate (n - 2) SUB_CYCLE).flatten ++ SUB_CYCLE.take 28)), ?_, ?_⟩
      · rw [← hok]
        simp [List.append_assoc]
      · refine nonPush_append (by decide)
          (nonPush_append (nonPush_replicate _ (by decide)) (nonPush_append ?_ ?_))
        · intro o ho
          rw [List.mem_flatten] at ho
          obtain ⟨l, hl, hol⟩ := ho
          rw [List.mem_replicate] at hl
          rw [hl.2] at hol
          exact (by decide : ∀ x ∈ SUB_CYCLE, x ≠ UserOps.Push) o hol
        · intro o ho
          exact (by decide : ∀ x ∈ SUB_CYCLE, x ≠ UserOps.Push) o
            (List.take_subset 28 SUB_CYCLE ho)

theorem parse_push_inv (p : List UserOps) (h : HintMap) (op : List String) (step : Nat)
    (st' : List UserOps × HintMap) (hinv : asmInv (p, h))
    (hok : parse_push p h op step = .ok st') : asmInv st' := by
  unfold parse_push at hok
  split at hok
  · cases hok
  · simp only [Except.ok.injEq] at hok
    subst hok
    exact applyAct_inv (p, h) (.pushOp _) hinv trivial

theorem parse_eq_inv (p : List UserOps) (h : HintMap) (op : List String) (step : Nat)
    (st' : List UserOps × HintMap) (hinv : asmInv (p, h))
    (hok : parse_eq p h op step = .ok st') : asmInv st' := by
  unfold parse_eq at hok
  split at hok
  · cases hok
  · simp only [Except.ok.injEq] at hok
    subst hok
    exact applyAct_inv (p, h) (.hintOps OpHint.EqStart [UserOps.Read, UserOps.Eq]) hinv
      ⟨by simp, by decide⟩

theorem parse_gt_inv (p : List UserOps) (h : HintMap) (op : List String) (step : Nat)
    (st' : List UserOps × HintMap) (hinv : asmInv (p, h))
    (hok : parse_gt p h op step = .ok st') : asmInv st' := by
  unfold parse_gt at hok
  split at hok
  · cases hok
  · rename_i n hre
    split at hok
    · cases hok
    · simp only [Except.ok.injEq] at hok
      subst hok
      have h1 := applyAct_inv (p, h)
        (.appendOps [UserOps.Pad2, UserOps.Pad2, UserOps.Pad2, UserOps.Dup]) hinv
        (by simp only [actOK]; decide)
      have h2 := applyAct_inv _ (.pushOp (2 ^ (n - 1))) h1 trivial
      have h3 := applyAct_inv _
        (.hintOps (OpHint.CmpStart n) (List.replicate n UserOps.Cmp ++ gtPostamble)) h2
        ⟨by simp [gtPostamble], nonPush_append (nonPush_replicate _ (by decide)) (by decide)⟩
      dsimp only [applyAct] at h3
      simp only [← List.append_assoc] at h3
      exact h3

theorem parse_lt_inv (p : List UserOps) (h : HintMap) (op : List String) (step : Nat)
    (st' : List UserOps × HintMap) (hinv : asmInv (p, h))
    (hok : parse_lt p h op step = .ok st') : asmInv st' := by
  unfold parse_lt at hok
  split at hok
  · cases hok
  · rename_i n hre
    split at hok
    · cases hok
    · simp only [Except.ok.injEq] at hok
      subst hok
      have h1 := applyAct_inv (p, h)
        (.appendOps [UserOps.Pad2, UserOps.Pad2, UserOps.Pad2, UserOps.Dup]) hinv
        (by simp only [actOK]; decide)
      have h2 := applyAct_inv _ (.pushOp (2 ^ (n - 1))) h1 trivial
      have h3 := applyAct_inv _
        (.hintOps (OpHint.CmpStart n) (List.replicate n UserOps.Cmp ++ ltPostamble)) h2
        ⟨by simp [ltPostamble], nonPush_append (nonPush_replicate _ (by decide)) (by decide)⟩
      dsimp only [applyAct] at h3
      simp only [← List.append_assoc] at h3
      exact h3

theorem parse_rc_inv (p : List UserOps) (h : HintMap) (op : List String) (step : Nat)
    (st' : List UserOps × HintMap) (hinv : asmInv (p, h))
    (hok : parse_rc p h op step = .ok st') : asmInv st' := by
  unfold parse_rc at hok
  split at hok
  · cases hok
  · rename_i n hre
    split at hok
    · cases hok
    · simp only [Except.ok.injEq] at hok
      subst hok
      have h1 := applyAct_inv (p, h) (.appendOps [UserOps.Pad2]) hinv
        (by simp only [actOK]; decide)
      have h2 := applyAct_inv _ (.pushOp (2 ^ (n - 1))) h1 trivial
      have h3 := applyAct_inv _
        (.hintOps (OpHint.RcStart n)
          (List.replicate n UserOps.BinAcc ++ [UserOps.Drop, UserOps.Drop])) h2
        ⟨by simp, nonPush_append (nonPush_replicate _ (by decide)) (by decide)⟩
      have h4 := applyAct_inv _
        (.hintOps OpHint.EqStart [UserOps.Read, UserOps.Eq]) h3
        ⟨by simp, by decide⟩
      dsimp only [applyAct] at h4
      simp only [← List.append_assoc] at h4
      exact h4

theorem parse_isodd_inv (p : List UserOps) (h : HintMap) (op : List String) (step : Nat)
    (st' : List UserOps × HintMap) (hinv : asmInv (p, h))
    (hok : parse_isodd p h op step = .ok st') : asmInv st' := by
  unfold parse_isodd at hok
  split at hok
  · cases hok
  · rename_i n hre
    split at hok
    · cases hok
    · simp only [Except.ok.injEq] at hok
      subst hok
      have h1 := applyAct_inv (p, h) (.appendOps [UserOps.Pad2]) hinv
        (by simp only [actOK]; decide)
      have h2 := applyAct_inv _ (.pushOp (2 ^ (n - 1))) h1 trivial
      have h3 := applyAct_inv _
        (.hintOps (OpHint.RcStart n)
          (List.replicate n UserOps.BinAcc
            ++ [UserOps.Swap2, UserOps.AssertEq, UserOps.Drop])) h2
        ⟨by simp, nonPush_append (nonPush_replicate _ (by decide)) (by decide)⟩
      dsimp only [applyAct] at h3
      simp only [← List.append_assoc] at h3
      exact h3

theorem map_ok_pair {q : List UserOps} {h : HintMap} {st' : List UserOps × HintMap}
    {r : Except AssemblyError (List UserOps)}
    (hr : r = .ok q) (hok : r.map (fun p => (p, h)) = .ok st') : st' = (q, h) := by
  subst hr
  simp only [Except.map] at hok
  exact (Except.ok.inj hok).symm

theorem map_err_absurd {h : HintMap} {st' : List UserOps × HintMap}
    {r : Except AssemblyError (List UserOps)} {e : AssemblyError}
    (hr : r = .error e) (hok : r.map (fun p => (p, h)) = .ok st') : False := by
  subst hr
  simp only [Except.map] at hok
  cases hok

theorem dispatchOp_inv (st : List UserOps × HintMap) (m : Mnemonic) (op : List String)
    (step : Nat) (st' : List UserOps × HintMap)
    (hinv : asmInv st) (hok : dispatchOp st m op step = .ok st') : asmInv st' := by
  obtain ⟨p, h⟩ := st
  cases m <;> simp only [dispatchOp] at hok
  case noop =>
    cases hq : parse_noop p op step with
    | error e => exact absurd (map_err_absurd hq hok) (by simp)
    | ok q => rw [map_ok_pair hq hok]; exact plain_inv p h q hinv (parse_noop_shape p op step q hq)
  case assert =>
    cases hq : parse_assert p op step with
    | error e => exact absurd (map_err_absurd hq hok) (by simp)
    | ok q => rw [map_ok_pair hq hok]; exact plain_inv p h q hinv (parse_assert_shape p op step q hq)
  case push => exact parse_push_inv p h op step st' hinv hok
  case read =>
    cases hq : parse_read p op step with
    | error e => exact absurd (map_err_absurd hq hok) (by simp)
    | ok q => rw [map_ok_pair hq hok]; exact plain_inv p h q hinv (parse_read_shape p op step q hq)
  case dup =>
    cases hq : parse_dup p op step with
    | error e => exact absurd (map_err_absurd hq hok) (by simp)
    | ok q => rw [map_ok_pair hq hok]; exact plain_inv p h q hinv (parse_dup_shape p op step q hq)
  case pad =>
    cases hq : parse_pad p op step with
    | error e => exact absurd (map_err_absurd hq hok) (by simp)
    | ok q => rw [map_ok_pair hq hok]; exact plain_inv p h q hinv (parse_pad_shape p op step q hq)
  case pick =>
    cases hq : parse_pick p op step with
    | error e => exact absurd (map_err_absurd hq hok) (by simp)
    | ok q => rw [map_ok_pair hq hok]; exact plain_inv p h q hinv (parse_pick_shape p op step q hq)
  case drop =>
    cases hq : parse_drop p op step with
    | error e => exact absurd (map_err_absurd hq hok) (by simp)
    | ok q => rw [map_ok_pair hq hok]; exact plain_inv p h q hinv (parse_drop_shape p op step q hq)
  case swap =>
    cases hq : parse_swap p op step with
    | error e => exact absurd (map_err_absurd hq hok) (by simp)
    | ok q => rw [map_ok_pair hq hok]; exact plain_inv p h q hinv (parse_swap_shape p op step q hq)
  case roll =>
    cases hq : parse_roll p op step with
    | error e => exact absurd (map_err_absurd hq hok) (by simp)
    | ok q => rw [map_ok_pair hq hok]; exact plain_inv p h q hinv (parse_roll_shape p op step q hq)
  case add =>
    cases hq : parse_add p op step with
    | error e => exact absurd (map_err_absurd hq hok) (by simp)
    | ok q => rw [map_ok_pair hq hok]; exact plain_inv p h q hinv (parse_add_shape p op step q hq)
  case sub =>
    cases hq : parse_sub p op step with
    | error e => exact absurd (map_err_absurd hq hok) (by simp)
    | ok q => rw [map_ok_pair hq hok]; exact plain_inv p h q hinv (parse_sub_shape p op step q hq)
  case mul =>
    cases hq : parse_mul p op step with
    | error e => exact absurd (map_err_absurd hq hok) (by simp)
    | ok q => rw [map_ok_pair hq hok]; exact plain_inv p h q hinv (parse_mul_shape p op step q hq)
  case div =>
    cases hq : parse_div p op step with
    | error e => exact absurd (map_err_absurd hq hok) (by simp)
    | ok q => rw [map_ok_pair hq hok]; exact plain_inv p h q hinv (parse_div_shape p op step q hq)
  case neg =>
    cases hq : parse_neg p op step with
    | error e => exact absurd (map_err_absurd hq hok) (by simp)
    | ok q => rw [map_ok_pair hq hok]; exact plain_inv p h q hinv (parse_neg_shape p op step q hq)
  case inv =>
    cases hq : parse_inv p op step with
    | error e => exact absurd (map_err_absurd hq hok) (by simp)
    | ok q => rw [map_ok_pair hq hok]; exact plain_inv p h q hinv (parse_inv_shape p op step q hq)
  case not =>
    cases hq : parse_not p op step with
    | error e => exact absurd (map_err_absurd hq hok) (by simp)
    | ok q => rw [map_ok_pair hq hok]; exact plain_inv p h q hinv (parse_not_shape p op step q hq)
  case and =>
    cases hq : parse_and p op step with
    | error e => exact absurd (map_err_absurd hq hok) (by simp)
    | ok q => rw [map_ok_pair hq hok]; exact plain_inv p h q hinv (parse_and_shape p op step q hq)
  case or =>
    cases hq : parse_or p op step with
    | error e => exact absurd (map_err_absurd hq hok) (by simp)
    | ok q => rw [map_ok_pair hq hok]; exact plain_inv p h q hinv (parse_or_shape p op step q hq)
  case eq => exact parse_eq_inv p h op step st' hinv hok
  case gt => exact parse_gt_inv p h op step st' hinv hok
  case lt => exact parse_lt_inv p h op step st' hinv hok
  case rc => exact parse_rc_inv p h op step st' hinv hok
  case isodd => exact parse_isodd_inv p h op step st' hinv hok
  case choose =>
    cases hq : parse_choose p op step with
    | error e => exact absurd (map_err_absurd hq hok) (by simp)
    | ok q => rw [map_ok_pair hq hok]; exact plain_inv p h q hinv (parse_choose_shape p op step q hq)
  case hash =>
    cases hq : parse_hash p op step with
    | error e => exact absurd (map_err_absurd hq hok) (by simp)
    | ok q => rw [map_ok_pair hq hok]; exact plain_inv p h q hinv (parse_hash_shape p op step q hq)
  case mpath =>
    cases hq : parse_mpath p op step with
    | error e => exact absurd (map_err_absurd hq hok) (by simp)
    | ok q => rw [map_ok_pair hq hok]; exact plain_inv p h q hinv (parse_mpath_shape p op step q hq)

theorem assembleRun_inv (calls : List (Mnemonic × List String)) :
    ∀ (step : Nat) (st0 st : List UserOps × HintMap), asmInv st0 →
      assembleRun calls step st0 = .ok st → asmInv st := by
  induction calls with
  | nil =>
    intro step st0 st h0 hrun
    rw [assembleRun] at hrun
    exact (Except.ok.inj hrun) ▸ h0
  | cons c rest ih =>
    intro step st0 st h0 hrun
    obtain ⟨m, op⟩ := c
    rw [assembleRun] at hrun
    cases hd : dispatchOp st0 m op step with
    | error e => rw [hd] at hrun; cases hrun
    | ok st2 =>
      rw [hd] at hrun
      exact ih (step + 1) st2 st (dispatchOp_inv st0 m op step st2 h0 hd) hrun

/-- C3: for every assembled program (any token sequence driven through the
assembler loop from the empty state), every `Push` opcode sits at an index
divisible by 8 with exactly one `PushValue` hint keyed there; and in
particular `noop noop noop push.42` yields `[Noop × 8, Push]` with hints
`{8 ↦ PushValue 42}` (the three Noops are padded with 5 more to reach
index 8). -/
theorem c3_push_alignment :
    (∀ (calls : List (Mnemonic × List String)) (st : List UserOps × HintMap),
      assembleRun calls 0 ([], []) = .ok st → pushAligned st.1 st.2)
    ∧ assembleRun
        [(Mnemonic.noop, ["noop"]), (Mnemonic.noop, ["noop"]), (Mnemonic.noop, ["noop"]),
         (Mnemonic.push, ["push", "42"])] 0 ([], [])
      = .ok (List.replicate 8 UserOps.Noop ++ [UserOps.Push], [(8, OpHint.PushValue 42)]) := by
  constructor
  · intro calls st hrun
    have hinv0 : asmInv ([], []) := by
      constructor
      · intro i hi
        simp at hi
      · intro e he
        simp at he
    exact (assembleRun_inv calls 0 ([], []) st hinv0 hrun).1
  · rfl

/-- Witness for `c3_push_alignment`: the invariant holds of the concrete
assembly of `noop noop noop push.42`. -/
theorem c3_push_alignment_witness :
    pushAligned (List.replicate 8 UserOps.Noop ++ [UserOps.Push]) [(8, OpHint.PushValue 42)] := by
  have h := c3_push_alignment.1
    [(Mnemonic.noop, ["noop"]), (Mnemonic.noop, ["noop"]), (Mnemonic.noop, ["noop"]),
     (Mnemonic.push, ["push", "42"])]
    (List.replicate 8 UserOps.Noop ++ [UserOps.Push], [(8, OpHint.PushValue 42)]) rfl
  exact h

-- ================================================================================================
-- DECODER (src/processor/decoder/decoder2/mod.rs)
-- ================================================================================================

/-- One register trace column (`Vec<u128>`), field elements as `Nat`. -/
abbrev Reg := List Nat

/-- Read of a register column at a row; rows are in range whenever the
well-formedness invariant below holds, out-of-range reads default to 0. -/
def regGet (r : Reg) (i : Nat) : Nat := r.getD i 0

/-- `BASE_CYCLE_LENGTH` from decoder2. -/
def BASE_CYCLE_LENGTH : Nat := 16

/-- `MAX_CONTEXT_DEPTH` from decoder2. -/
def MAX_CONTEXT_DEPTH : Nat := 16

/-- `MAX_LOOP_DEPTH` from decoder2. -/
def MAX_LOOP_DEPTH : Nat := 8

/-- The decoder state (struct `Decoder` in decoder2). -/
structure Decoder where
  step : Nat
  op_acc : List Reg
  sponge : List Nat
  cf_op_bits : List Reg
  ld_op_bits : List Reg
  hd_op_bits : List Reg
  ctx_stack : List Reg
  ctx_depth : Nat
  loop_stack : List Reg
  loop_depth : Nat
deriving DecidableEq, Repr

/-- `Decoder::new`. -/
def Decoder.new (init_trace_length : Nat) : Decoder where
  step := 0
  op_acc := List.replicate 4 (List.replicate init_trace_length 0)
  sponge := List.replicate 4 0
  cf_op_bits := List.replicate 3 (List.replicate init_trace_length 0)
  ld_op_bits := List.replicate 5 (List.replicate init_trace_length 0)
  hd_op_bits := List.replicate 2 (List.replicate init_trace_length 0)
  ctx_stack := [List.replicate init_trace_length 0]
  ctx_depth := 1
  loop_stack := []
  loop_depth := 0

/-- `Decoder::trace_length` (`self.op_acc[0].len()`). -/
def Decoder.trace_length (d : Decoder) : Nat := (d.op_acc.getD 0 []).length

/-- Outcome of a fallible decoder operation: `ok`, or `panicked` carrying the
state at the moment of the failing `assert!`/`panic!`. -/
inductive DecOut where
  | ok (d : Decoder)
  | panicked (d : Decoder)
deriving DecidableEq, Repr

/-- Whether the operation succeeded. -/
def DecOut.isOk : DecOut → Bool
  | .ok _ => true
  | .panicked _ => false

/-- Map with index, auxiliary recursion. -/
def idxMapGo {α β : Type} (f : Nat → α → β) : Nat → List α → List β
  | _, [] => []
  | i, x :: xs => f i x :: idxMapGo f (i + 1) xs

/-- Map with index (embeds the indexed register loops of the source). -/
def idxMap {α β : Type} (f : Nat → α → β) (l : List α) : List β := idxMapGo f 0 l

/-- `Vec::resize` to a (not smaller) length, filling with field zero. -/
def resizeReg (r : Reg) (newLen : Nat) : Reg := r ++ List.replicate (newLen - r.length) 0

/-- `Decoder::advance_step`: increment the step pointer and double every
register trace when it no longer fits. -/
def Decoder.advance_step (d : Decoder) : Decoder :=
  let d := { d with step := d.step + 1 }
  if d.step ≥ d.trace_length then
    let newLen := d.trace_length * 2
    { d with
      op_acc := d.op_acc.map (fun r => resizeReg r newLen)
      cf_op_bits := d.cf_op_bits.map (fun r => resizeReg r newLen)
      ld_op_bits := d.ld_op_bits.map (fun r => resizeReg r newLen)
      hd_op_bits := d.hd_op_bits.map (fun r => resizeReg r newLen)
      ctx_stack := d.ctx_stack.map (fun r => resizeReg r newLen)
      loop_stack := d.loop_stack.map (fun r => resizeReg r newLen) }
  else d

/-- `Decoder::set_op_bits`: op_bits are always populated for the previous
step; user op bits split into 5 low and 2 high bits. -/
def Decoder.set_op_bits (d : Decoder) (flow_op : FlowOps) (user_op : UserOps) : Decoder :=
  let row := d.step - 1
  let fc := flow_op.code
  let uc := ucode user_op
  { d with
    cf_op_bits := idxMap (fun i r => r.set row ((fc >>> i) % 2)) d.cf_op_bits
    ld_op_bits := idxMap (fun i r => r.set row ((uc >>> i) % 2)) d.ld_op_bits
    hd_op_bits := idxMap (fun i r => r.set row ((uc >>> (i + 5)) % 2)) d.hd_op_bits }

/-- `Decoder::save_context`: push `sponge[0]`, shifting the context columns
right (each register `i ≥ 1` receives `ctx[i-1][step-1]`); overflow of
`MAX_CONTEXT_DEPTH` panics. -/
def Decoder.save_context (d : Decoder) : DecOut :=
  let d := { d with ctx_depth := d.ctx_depth + 1 }
  if d.ctx_depth > MAX_CONTEXT_DEPTH then .panicked d
  else
    let stack :=
      if d.ctx_depth > d.ctx_stack.length then
        d.ctx_stack ++ [List.replicate d.trace_length 0]
      else d.ctx_stack
    let stack2 := idxMap (fun i r =>
      if i = 0 then r.set d.step (d.sponge.headD 0)
      else r.set d.step (regGet (stack.getD (i - 1) []) (d.step - 1))) stack
    .ok { d with ctx_stack := stack2 }

/-- `Decoder::pop_context` after its underflow assert (checked by the
caller): shift the context columns left (`ctx[i-1][step] = ctx[i][step-1]`,
the last register untouched) and return `ctx[0][step-1]`. -/
def Decoder.pop_context (d : Decoder) : Decoder × Nat :=
  let stack := idxMap (fun i r =>
    if i + 1 < d.ctx_stack.length then
      r.set d.step (regGet (d.ctx_stack.getD (i + 1) []) (d.step - 1))
    else r) d.ctx_stack
  ({ d with ctx_stack := stack, ctx_depth := d.ctx_depth - 1 },
   regGet (d.ctx_stack.getD 0 []) (d.step - 1))

/-- `Decoder::copy_context_stack`. -/
def Decoder.copy_context_stack (d : Decoder) : Decoder :=
  { d with ctx_stack := d.ctx_stack.map (fun r => r.set d.step (regGet r (d.step - 1))) }

/-- `Decoder::save_loop_image`. -/
def Decoder.save_loop_image (d : Decoder) (loop_image : Nat) : DecOut :=
  let d := { d with loop_depth := d.loop_depth + 1 }
  if d.loop_depth > MAX_LOOP_DEPTH then .panicked d
  else
    let stack :=
      if d.loop_depth > d.loop_stack.length then
        d.loop_stack ++ [List.replicate d.trace_length 0]
      else d.loop_stack
    let stack2 := idxMap (fun i r =>
      if i = 0 then r.set d.step loop_image
      else r.set d.step (regGet (stack.getD (i - 1) []) (d.step - 1))) stack
    .ok { d with loop_stack := stack2 }

/-- `Decoder::peek_loop_image` after its underflow assert (checked by the
caller): copy the loop columns forward and return the top of the stack. -/
def Decoder.peek_loop_image (d : Decoder) : Decoder × Nat :=
  let d := { d with
    loop_stack := d.loop_stack.map (fun r => r.set d.step (regGet r (d.step - 1))) }
  (d, regGet (d.loop_stack.getD 0 []) d.step)

/-- `Decoder::pop_loop_image` after its underflow assert (checked by the
caller). -/
def Decoder.pop_loop_image (d : Decoder) : Decoder × Nat :=
  let stack := idxMap (fun i r =>
    if i + 1 < d.loop_stack.length then
      r.set d.step (regGet (d.loop_stack.getD (i + 1) []) (d.step - 1))
    else r) d.loop_stack
  ({ d with loop_stack := stack, loop_depth := d.loop_depth - 1 },
   regGet (d.loop_stack.getD 0 []) (d.step - 1))

/-- `Decoder::copy_loop_stack`. -/
def Decoder.copy_loop_stack (d : Decoder) : Decoder :=
  { d with loop_stack := d.loop_stack.map (fun r => r.set d.step (regGet r (d.step - 1))) }

/-- `Decoder::set_sponge`: install a state into the sponge and write it into
the `op_acc` row of the current step. -/
def Decoder.set_sponge (d : Decoder) (state : List Nat) : Decoder :=
  { d with sponge := state
         , op_acc := idxMap (fun i r => r.set d.step (state.getD i 0)) d.op_acc }

/-- Modelled from the spec (§4.4, glossary): the Rescue half-round primitives
of `utils::accumulator` (not among the provided sources).  `half1` bundles
steps 1-3 of a HACC round for a given ark index (`add_constants` column 0,
`apply_sbox`, `apply_mds`); `half2` bundles steps 5-7 (`add_constants`
column 4, `apply_inv_sbox`, `apply_mds`); `modulus` is the field modulus used
by `field::add`.  Every decoder theorem below is proved for EVERY choice of
these primitives, which in particular covers the repository's fixed Rescue
constants; the two `_len` fields record that the halves act on the 4-element
state in place (`[u128; 4]` in the source). -/
structure Prims where
  modulus : Nat
  half1 : Nat → List Nat → List Nat
  half2 : Nat → List Nat → List Nat
  half1_len : ∀ ark s, (half1 ark s).length = s.length
  half2_len : ∀ ark s, (half2 ark s).length = s.length

/-- One HACC permutation (spec §4.4): first half-round, injection of the
op code into slot 0 and the op value into slot 1 via `field::add`, second
half-round. -/
def haccPerm (P : Prims) (ark code_val op_value : Nat) (s : List Nat) : List Nat :=
  let s := P.half1 ark s
  let s := s.set 0 ((s.getD 0 0 + code_val) % P.modulus)
  let s := s.set 1 ((s.getD 1 0 + op_value) % P.modulus)
  P.half2 ark s

/-- `Decoder::apply_hacc_round`. -/
def Decoder.apply_hacc_round (P : Prims) (d : Decoder) (op_code : UserOps) (op_value : Nat) :
    Decoder :=
  let ark_idx := (d.step - 1) % BASE_CYCLE_LENGTH
  let s := haccPerm P ark_idx (ucode op_code) op_value d.sponge
  { d with sponge := s
         , op_acc := idxMap (fun i r => r.set d.step (s.getD i 0)) d.op_acc }

/-- `Decoder::start_block`. -/
def Decoder.start_block (d : Decoder) : DecOut :=
  if d.step % BASE_CYCLE_LENGTH ≠ BASE_CYCLE_LENGTH - 1 then .panicked d
  else
    let d := d.advance_step
    match d.save_context with
    | .panicked e => .panicked e
    | .ok d =>
      let d := d.copy_loop_stack
      let d := d.set_op_bits FlowOps.Begin UserOps.Noop
      .ok (d.set_sponge [0, 0, 0, 0])

/-- `Decoder::end_block`. -/
def Decoder.end_block (d : Decoder) (sibling_hash : Nat) (true_branch : Bool) : DecOut :=
  if d.step % BASE_CYCLE_LENGTH ≠ 0 then .panicked d
  else
    let d := d.advance_step
    if d.ctx_depth = 0 then .panicked d
    else
      let pc := d.pop_context
      let context_hash := pc.2
      let d := pc.1.copy_loop_stack
      let block_hash := d.sponge.headD 0
      if true_branch then
        let d := d.set_op_bits FlowOps.Tend UserOps.Noop
        .ok (d.set_sponge [context_hash, block_hash, sibling_hash, 0])
      else
        let d := d.set_op_bits FlowOps.Fend UserOps.Noop
        .ok (d.set_sponge [context_hash, sibling_hash, block_hash, 0])

/-- `Decoder::start_loop`. -/
def Decoder.start_loop (d : Decoder) (loop_image : Nat) : DecOut :=
  if d.step % BASE_CYCLE_LENGTH ≠ BASE_CYCLE_LENGTH - 1 then .panicked d
  else
    let d := d.advance_step
    match d.save_context with
    | .panicked e => .panicked e
    | .ok d =>
      match d.save_loop_image loop_image with
      | .panicked e => .panicked e
      | .ok d =>
        let d := d.set_op_bits FlowOps.Loop UserOps.Noop
        .ok (d.set_sponge [0, 0, 0, 0])

/-- `Decoder::wrap_loop`: requires `sponge[0]` to match the top loop image. -/
def Decoder.wrap_loop (d : Decoder) : DecOut :=
  if d.step % BASE_CYCLE_LENGTH ≠ BASE_CYCLE_LENGTH - 1 then .panicked d
  else
    let d := d.advance_step
    let d := d.copy_context_stack
    if d.loop_depth = 0 then .panicked d
    else
      let pk := d.peek_loop_image
      if pk.1.sponge.headD 0 ≠ pk.2 then .panicked pk.1
      else
        let d := (pk.1.set_op_bits FlowOps.Wrap UserOps.Noop)
        .ok (d.set_sponge [0, 0, 0, 0])

/-- `Decoder::break_loop`: pops the loop image, requires `sponge[0]` to match
it, and re-installs the current sponge (writing the `op_acc` row). -/
def Decoder.break_loop (d : Decoder) : DecOut :=
  if d.step % BASE_CYCLE_LENGTH ≠ BASE_CYCLE_LENGTH - 1 then .panicked d
  else
    let d := d.advance_step
    let d := d.copy_context_stack
    if d.loop_depth = 0 then .panicked d
    else
      let pp := d.pop_loop_image
      if pp.1.sponge.headD 0 ≠ pp.2 then .panicked pp.1
      else
        let d := (pp.1.set_op_bits FlowOps.Break UserOps.Noop)
        .ok (d.set_sponge d.sponge)

/-- The unconditional tail of `Decoder::decode_op` (after the `op_value`
checks). -/
def Decoder.decode_op_body (P : Prims) (d : Decoder) (op_code : UserOps) (op_value : Nat) :
    Decoder :=
  let d := d.advance_step
  let d := d.copy_context_stack
  let d := d.copy_loop_stack
  let d := d.set_op_bits FlowOps.Hacc op_code
  d.apply_hacc_round P op_code op_value

/-- `Decoder::decode_op`: a non-zero `op_value` is permitted only for `Push`
and only at steps divisible by `PUSH_OP_ALIGNMENT`. -/
def Decoder.decode_op (P : Prims) (d : Decoder) (op_code : UserOps) (op_value : Nat) : DecOut :=
  if op_value ≠ 0 then
    match op_code with
    | UserOps.Push =>
      if d.step % PUSH_OP_ALIGNMENT = 0 then .ok (d.decode_op_body P op_code op_value)
      else .panicked d
    | _ => .panicked d
  else .ok (d.decode_op_body P op_code op_value)

/-- Well-formedness of a decoder state: fixed register counts, columns of
equal length, step within the trace, stack depths within the column counts
and the caps. -/
def Decoder.wf (d : Decoder) : Bool :=
  (d.op_acc.length == 4) && (d.sponge.length == 4) &&
  (d.cf_op_bits.length == 3) && (d.ld_op_bits.length == 5) && (d.hd_op_bits.length == 2) &&
  decide (d.step < d.trace_length) &&
  d.op_acc.all (fun r => r.length == d.trace_length) &&
  d.cf_op_bits.all (fun r => r.length == d.trace_length) &&
  d.ld_op_bits.all (fun r => r.length == d.trace_length) &&
  d.hd_op_bits.all (fun r => r.length == d.trace_length) &&
  d.ctx_stack.all (fun r => r.length == d.trace_length) &&
  d.loop_stack.all (fun r => r.length == d.trace_length) &&
  decide (d.ctx_depth ≤ d.ctx_stack.length) &&
  decide (d.ctx_stack.length ≤ MAX_CONTEXT_DEPTH) &&
  decide (d.loop_depth ≤ d.loop_stack.length) &&
  decide (d.loop_stack.length ≤ MAX_LOOP_DEPTH)

/-- The logical stack contents read off a row of the stack columns. -/
def stackTop (stack : List Reg) (depth row : Nat) : List Nat :=
  (List.range depth).map (fun i => regGet (stack.getD i []) row)

/-- The logical context stack at the current step. -/
def Decoder.ctxTop (d : Decoder) : List Nat := stackTop d.ctx_stack d.ctx_depth d.step

/-- The logical loop stack at the current step. -/
def Decoder.loopTop (d : Decoder) : List Nat := stackTop d.loop_stack d.loop_depth d.step

/-- The control-flow bit row at a given step. -/
def Decoder.cfRow (d : Decoder) (row : Nat) : List Nat :=
  d.cf_op_bits.map (fun r => regGet r row)

/-- The `op_acc` row at a given step. -/
def Decoder.opAccRow (d : Decoder) (row : Nat) : List Nat :=
  d.op_acc.map (fun r => regGet r row)

-- ================================================================================================
-- Register and stack lemmas
-- ================================================================================================

theorem regGet_set_self (r : Reg) (i v : Nat) (h : i < r.length) :
    regGet (r.set i v) i = v := by
  unfold regGet
  rw [List.getD_eq_getElem?_getD, List.getElem?_set_self h]
  rfl

theorem regGet_set_other (r : Reg) (i j v : Nat) (h : i ≠ j) :
    regGet (r.set i v) j = regGet r j := by
  unfold regGet
  rw [List.getD_eq_getElem?_getD, List.getElem?_set_ne h, ← List.getD_eq_getElem?_getD]

theorem regGet_append_left (r r2 : Reg) (i : Nat) (h : i < r.length) :
    regGet (r ++ r2) i = regGet r i := by
  unfold regGet
  rw [List.getD_append _ _ _ _ h]

theorem regGet_resize (r : Reg) (n i : Nat) (h : i < r.length) :
    regGet (resizeReg r n) i = regGet r i := regGet_append_left _ _ _ h

theorem resizeReg_length (r : Reg) (n : Nat) (h : r.length ≤ n) :
    (resizeReg r n).length = n := by
  unfold resizeReg
  rw [List.length_append, List.length_replicate]
  omega

theorem idxMapGo_length {α β : Type} (f : Nat → α → β) (k : Nat) (l : List α) :
    (idxMapGo f k l).length = l.length := by
  induction l generalizing k with
  | nil => rfl
  | cons x xs ih => simp [idxMapGo, ih]

theorem idxMap_length {α β : Type} (f : Nat → α → β) (l : List α) :
    (idxMap f l).length = l.length := idxMapGo_length f 0 l

theorem idxMapGo_getD {α β : Type} (f : Nat → α → β) (k i : Nat) (l : List α) (db : β) (da : α)
    (h : i < l.length) : (idxMapGo f k l).getD i db = f (k + i) (l.getD i da) := by
  induction l generalizing k i with
  | nil => simp at h
  | cons x xs ih =>
    cases i with
    | zero => simp [idxMapGo]
    | succ j =>
      simp only [idxMapGo, List.getD_cons_succ]
      rw [ih (k + 1) j (by simpa using h)]
      congr 1
      omega

theorem idxMap_getD {α β : Type} (f : Nat → α → β) (i : Nat) (l : List α) (db : β) (da : α)
    (h : i < l.length) : (idxMap f l).getD i db = f i (l.getD i da) := by
  unfold idxMap
  rw [idxMapGo_getD f 0 i l db da h, Nat.zero_add]

theorem getD_map_of_lt {α β : Type} (f : α → β) (l : List α) (i : Nat) (db : β) (da : α)
    (h : i < l.length) : (l.map f).getD i db = f (l.getD i da) := by
  rw [List.getD_eq_getElem?_getD, List.getElem?_map, List.getD_eq_getElem?_getD]
  cases hx : l[i]? with
  | none =>
    rw [List.getElem?_eq_none_iff] at hx
    omega
  | some a => rfl

theorem getD_mem_or_default {α : Type} (l : List α) (i : Nat) (d : α) :
    l.getD i d ∈ l ∨ l.getD i d = d := by
  by_cases h : i < l.length
  · exact Or.inl (getD_mem_of_lt l d i h)
  · right
    rw [List.getD_eq_getElem?_getD]
    have : l[i]? = none := by
      rw [List.getElem?_eq_none_iff]
      omega
    rw [this]
    rfl

theorem stackTop_congr (s1 s2 : List Reg) (depth row1 row2 : Nat)
    (h : ∀ i, i < depth → regGet (s1.getD i []) row1 = regGet (s2.getD i []) row2) :
    stackTop s1 depth row1 = stackTop s2 depth row2 := by
  unfold stackTop
  apply List.map_congr_left
  intro i hi
  rw [List.mem_range] at hi
  exact h i hi

theorem wf_unpack (d : Decoder) (h : d.wf = true) :
    d.op_acc.length = 4 ∧ d.sponge.length = 4 ∧
    d.cf_op_bits.length = 3 ∧ d.ld_op_bits.length = 5 ∧ d.hd_op_bits.length = 2 ∧
    d.step < d.trace_length ∧
    (∀ r ∈ d.op_acc, r.length = d.trace_length) ∧
    (∀ r ∈ d.cf_op_bits, r.length = d.trace_length) ∧
    (∀ r ∈ d.ld_op_bits, r.length = d.trace_length) ∧
    (∀ r ∈ d.hd_op_bits, r.length = d.trace_length) ∧
    (∀ r ∈ d.ctx_stack, r.length = d.trace_length) ∧
    (∀ r ∈ d.loop_stack, r.length = d.trace_length) ∧
    d.ctx_depth ≤ d.ctx_stack.length ∧ d.ctx_stack.length ≤ MAX_CONTEXT_DEPTH ∧
    d.loop_depth ≤ d.loop_stack.length ∧ d.loop_stack.length ≤ MAX_LOOP_DEPTH := by
  unfold Decoder.wf at h
  simp only [Bool.and_eq_true, beq_iff_eq, decide_eq_true_eq, List.all_eq_true] at h
  tauto

theorem wf_pack (d : Decoder)
    (h : d.op_acc.length = 4 ∧ d.sponge.length = 4 ∧
      d.cf_op_bits.length = 3 ∧ d.ld_op_bits.length = 5 ∧ d.hd_op_bits.length = 2 ∧
      d.step < d.trace_length ∧
      (∀ r ∈ d.op_acc, r.length = d.trace_length) ∧
      (∀ r ∈ d.cf_op_bits, r.length = d.trace_length) ∧
      (∀ r ∈ d.ld_op_bits, r.length = d.trace_length) ∧
      (∀ r ∈ d.hd_op_bits, r.length = d.trace_length) ∧
      (∀ r ∈ d.ctx_stack, r.length = d.trace_length) ∧
      (∀ r ∈ d.loop_stack, r.length = d.trace_length) ∧
      d.ctx_depth ≤ d.ctx_stack.length ∧ d.ctx_stack.length ≤ MAX_CONTEXT_DEPTH ∧
      d.loop_depth ≤ d.loop_stack.length ∧ d.loop_stack.length ≤ MAX_LOOP_DEPTH) :
    d.wf = true := by
  unfold Decoder.wf
  simp only [Bool.and_eq_true, beq_iff_eq, decide_eq_true_eq, List.all_eq_true]
  tauto

theorem getD_out_of_range {α : Type} (l : List α) (i : Nat) (d : α) (h : l.length ≤ i) :
    l.getD i d = d := by
  rw [List.getD_eq_getElem?_getD]
  have hx : l[i]? = none := by
    rw [List.getElem?_eq_none_iff]
    omega
  rw [hx]
  rfl

theorem advance_step_eq (d : Decoder) :
    d.advance_step =
      if d.step + 1 ≥ d.trace_length then
        { d with
          step := d.step + 1,
          op_acc := d.op_acc.map (fun r => resizeReg r (d.trace_length * 2)),
          cf_op_bits := d.cf_op_bits.map (fun r => resizeReg r (d.trace_length * 2)),
          ld_op_bits := d.ld_op_bits.map (fun r => resizeReg r (d.trace_length * 2)),
          hd_op_bits := d.hd_op_bits.map (fun r => resizeReg r (d.trace_length * 2)),
          ctx_stack := d.ctx_stack.map (fun r => resizeReg r (d.trace_length * 2)),
          loop_stack := d.loop_stack.map (fun r => resizeReg r (d.trace_length * 2)) }
      else { d with step := d.step + 1 } := rfl

theorem advance_facts (d : Decoder) (hwf : d.wf = true) :
    (d.advance_step).step = d.step + 1
    ∧ (d.advance_step).sponge = d.sponge
    ∧ (d.advance_step).ctx_depth = d.ctx_depth
    ∧ (d.advance_step).loop_depth = d.loop_depth
    ∧ (d.advance_step).ctx_stack.length = d.ctx_stack.length
    ∧ (d.advance_step).loop_stack.length = d.loop_stack.length
    ∧ d.trace_length ≤ (d.advance_step).trace_length
    ∧ (d.advance_step).wf = true
    ∧ (∀ i row, row < d.trace_length →
        regGet ((d.advance_step).ctx_stack.getD i []) row = regGet (d.ctx_stack.getD i []) row)
    ∧ (∀ i row, row < d.trace_length →
        regGet ((d.advance_step).loop_stack.getD i []) row
          = regGet (d.loop_stack.getD i []) row) := by
  obtain ⟨hoa, hsp, hcf, hld, hhd, hstep, hoal, hcfl, hldl, hhdl, hctxl, hloopl,
    hcd, hcc, hlde, hlc⟩ := wf_unpack d hwf
  have hTpos : 0 < d.trace_length := Nat.lt_of_le_of_lt (Nat.zero_le _) hstep
  rw [advance_step_eq]
  by_cases hres : d.step + 1 ≥ d.trace_length
  · rw [if_pos hres]
    have hT2 : d.trace_length ≤ d.trace_length * 2 := by omega
    have htl : (({ d with
        step := d.step + 1,
        op_acc := d.op_acc.map (fun r => resizeReg r (d.trace_length * 2)),
        cf_op_bits := d.cf_op_bits.map (fun r => resizeReg r (d.trace_length * 2)),
        ld_op_bits := d.ld_op_bits.map (fun r => resizeReg r (d.trace_length * 2)),
        hd_op_bits := d.hd_op_bits.map (fun r => resizeReg r (d.trace_length * 2)),
        ctx_stack := d.ctx_stack.map (fun r => resizeReg r (d.trace_length * 2)),
        loop_stack := d.loop_stack.map (fun r => resizeReg r (d.trace_length * 2)) } :
          Decoder)).trace_length = d.trace_length * 2 := by
      show ((d.op_acc.map (fun r => resizeReg r (d.trace_length * 2))).getD 0 []).length
        = d.trace_length * 2
      rw [getD_map_of_lt _ _ _ _ [] (by omega)]
      exact resizeReg_length _ _ hT2
    refine ⟨rfl, rfl, rfl, rfl, by simp, by simp, ?_, ?_, ?_, ?_⟩
    · rw [htl]
      omega
    · apply wf_pack
      rw [htl]
      refine ⟨by simp [hoa], hsp, by simp [hcf], by simp [hld], by simp [hhd],
        (by show d.step + 1 < d.trace_length * 2; omega),
        ?_, ?_, ?_, ?_, ?_, ?_, by simp [hcd], by simpa using hcc, by simp [hlde],
        by simpa using hlc⟩
      all_goals
        intro r hr
        rw [List.mem_map] at hr
        obtain ⟨r0, hr0, rfl⟩ := hr
      · exact resizeReg_length _ _ (by rw [hoal r0 hr0]; omega)
      · exact resizeReg_length _ _ (by rw [hcfl r0 hr0]; omega)
      · exact resizeReg_length _ _ (by rw [hldl r0 hr0]; omega)
      · exact resizeReg_length _ _ (by rw [hhdl r0 hr0]; omega)
      · exact resizeReg_length _ _ (by rw [hctxl r0 hr0]; omega)
      · exact resizeReg_length _ _ (by rw [hloopl r0 hr0]; omega)
    · intro i row hrow
      by_cases hi : i < d.ctx_stack.length
      · show regGet ((d.ctx_stack.map (fun r => resizeReg r (d.trace_length * 2))).getD i [])
          row = regGet (d.ctx_stack.getD i []) row
        rw [getD_map_of_lt _ _ _ _ [] hi]
        exact regGet_resize _ _ _
          (by rw [hctxl _ (getD_mem_of_lt d.ctx_stack [] i hi)]; omega)
      · show regGet ((d.ctx_stack.map (fun r => resizeReg r (d.trace_length * 2))).getD i [])
          row = regGet (d.ctx_stack.getD i []) row
        rw [getD_out_of_range _ i [] (by rw [List.length_map]; omega),
          getD_out_of_range _ i [] (by omega)]
    · intro i row hrow
      by_cases hi : i < d.loop_stack.length
      · show regGet ((d.loop_stack.map (fun r => resizeReg r (d.trace_length * 2))).getD i [])
          row = regGet (d.loop_stack.getD i []) row
        rw [getD_map_of_lt _ _ _ _ [] hi]
        exact regGet_resize _ _ _
          (by rw [hloopl _ (getD_mem_of_lt d.loop_stack [] i hi)]; omega)
      · show regGet ((d.loop_stack.map (fun r => resizeReg r (d.trace_length * 2))).getD i [])
          row = regGet (d.loop_stack.getD i []) row
        rw [getD_out_of_range _ i [] (by rw [List.length_map]; omega),
          getD_out_of_range _ i [] (by omega)]
  · rw [if_neg hres]
    refine ⟨rfl, rfl, rfl, rfl, rfl, rfl, Nat.le_refl _, ?_, fun i row _ => rfl,
      fun i row _ => rfl⟩
    · apply wf_pack
      exact ⟨hoa, hsp, hcf, hld, hhd, (by show d.step + 1 < d.trace_length; omega),
        hoal, hcfl, hldl, hhdl, hctxl, hloopl, hcd, hcc, hlde, hlc⟩

theorem regGet_nil (n : Nat) : regGet [] n = 0 := rfl

theorem copy_stack_entry (stack : List Reg) (T step : Nat)
    (hlen : ∀ r ∈ stack, r.length = T) (hstep : step < T) (i : Nat) :
    regGet ((stack.map (fun r => r.set step (regGet r (step - 1)))).getD i []) step
      = regGet (stack.getD i []) (step - 1) := by
  by_cases hi : i < stack.length
  · rw [getD_map_of_lt _ _ _ _ [] hi]
    exact regGet_set_self _ _ _
      (by rw [hlen _ (getD_mem_of_lt stack [] i hi)]; omega)
  · rw [getD_out_of_range _ _ _ (by rw [List.length_map]; omega),
      getD_out_of_range _ _ _ (by omega)]
    rfl

theorem list_length_three {α : Type} (l : List α) (h : l.length = 3) :
    ∃ a b c, l = [a, b, c] := by
  cases l with
  | nil => simp at h
  | cons a t =>
    cases t with
    | nil => simp at h
    | cons b t2 =>
      cases t2 with
      | nil => simp at h
      | cons c t3 =>
        cases t3 with
        | nil => exact ⟨a, b, c, rfl⟩
        | cons e t4 => simp at h

theorem list_length_four {α : Type} (l : List α) (h : l.length = 4) :
    ∃ a b c e, l = [a, b, c, e] := by
  cases l with
  | nil => simp at h
  | cons a t =>
    obtain ⟨b, c, e, ht⟩ := list_length_three t (by simpa using h)
    exact ⟨a, b, c, e, by rw [ht]⟩

theorem copy_context_stack_facts (d : Decoder) (hwf : d.wf = true) :
    (d.copy_context_stack).wf = true
    ∧ (d.copy_context_stack).step = d.step
    ∧ (d.copy_context_stack).sponge = d.sponge
    ∧ (d.copy_context_stack).op_acc = d.op_acc
    ∧ (d.copy_context_stack).cf_op_bits = d.cf_op_bits
    ∧ (d.copy_context_stack).loop_stack = d.loop_stack
    ∧ (d.copy_context_stack).loop_depth = d.loop_depth
    ∧ (d.copy_context_stack).ctx_depth = d.ctx_depth
    ∧ (∀ dep, stackTop (d.copy_context_stack).ctx_stack dep d.step
        = stackTop d.ctx_stack dep (d.step - 1)) := by
  obtain ⟨hoa, hsp, hcf, hld, hhd, hstep, hoal, hcfl, hldl, hhdl, hctxl, hloopl,
    hcd, hcc, hlde, hlc⟩ := wf_unpack d hwf
  refine ⟨?_, rfl, rfl, rfl, rfl, rfl, rfl, rfl, ?_⟩
  · apply wf_pack
    refine ⟨hoa, hsp, hcf, hld, hhd, hstep, hoal, hcfl, hldl, hhdl, ?_,
      hloopl, ?_, ?_, hlde, hlc⟩
    · intro r hr
      rw [show d.copy_context_stack.ctx_stack
            = d.ctx_stack.map (fun r => r.set d.step (regGet r (d.step - 1))) from rfl] at hr
      rw [List.mem_map] at hr
      obtain ⟨r0, hr0, rfl⟩ := hr
      rw [List.length_set]
      exact hctxl r0 hr0
    · show d.ctx_depth ≤ (d.ctx_stack.map _).length
      rw [List.length_map]
      exact hcd
    · show (d.ctx_stack.map _).length ≤ MAX_CONTEXT_DEPTH
      rw [List.length_map]
      exact hcc
  · intro dep
    exact stackTop_congr _ _ _ _ _
      (fun i _ => copy_stack_entry d.ctx_stack d.trace_length d.step hctxl hstep i)

theorem copy_loop_stack_facts (d : Decoder) (hwf : d.wf = true) :
    (d.copy_loop_stack).wf = true
    ∧ (d.copy_loop_stack).step = d.step
    ∧ (d.copy_loop_stack).sponge = d.sponge
    ∧ (d.copy_loop_stack).op_acc = d.op_acc
    ∧ (d.copy_loop_stack).cf_op_bits = d.cf_op_bits
    ∧ (d.copy_loop_stack).ctx_stack = d.ctx_stack
    ∧ (d.copy_loop_stack).ctx_depth = d.ctx_depth
    ∧ (d.copy_loop_stack).loop_depth = d.loop_depth
    ∧ (∀ dep, stackTop (d.copy_loop_stack).loop_stack dep d.step
        = stackTop d.loop_stack dep (d.step - 1)) := by
  obtain ⟨hoa, hsp, hcf, hld, hhd, hstep, hoal, hcfl, hldl, hhdl, hctxl, hloopl,
    hcd, hcc, hlde, hlc⟩ := wf_unpack d hwf
  refine ⟨?_, rfl, rfl, rfl, rfl, rfl, rfl, rfl, ?_⟩
  · apply wf_pack
    refine ⟨hoa, hsp, hcf, hld, hhd, hstep, hoal, hcfl, hldl, hhdl, hctxl, ?_,
      hcd, hcc, ?_, ?_⟩
    · intro r hr
      rw [show d.copy_loop_stack.loop_stack
            = d.loop_stack.map (fun r => r.set d.step (regGet r (d.step - 1))) from rfl] at hr
      rw [List.mem_map] at hr
      obtain ⟨r0, hr0, rfl⟩ := hr
      rw [List.length_set]
      exact hloopl r0 hr0
    · show d.loop_depth ≤ (d.loop_stack.map _).length
      rw [List.length_map]
      exact hlde
    · show (d.loop_stack.map _).length ≤ MAX_LOOP_DEPTH
      rw [List.length_map]
      exact hlc
  · intro dep
    exact stackTop_congr _ _ _ _ _
      (fun i _ => copy_stack_entry d.loop_stack d.trace_length d.step hloopl hstep i)

/-- The context/loop stack after the conditional register growth inside
`save_context`/`save_loop_image`. -/
def saveGrow (stack : List Reg) (depth T : Nat) : List Reg :=
  if depth > stack.length then stack ++ [List.replicate T 0] else stack

theorem saveGrow_facts (stack : List Reg) (depth T : Nat)
    (hlen : ∀ r ∈ stack, r.length = T) (hdep0 : depth ≤ stack.length + 1) :
    (∀ r ∈ saveGrow stack depth T, r.length = T)
    ∧ depth ≤ (saveGrow stack depth T).length
    ∧ (saveGrow stack depth T).length = max stack.length depth
    ∧ (∀ i, i < stack.length → (saveGrow stack depth T).getD i [] = stack.getD i []) := by
  unfold saveGrow
  by_cases hg : depth > stack.length
  · rw [if_pos hg]
    refine ⟨?_, ?_, ?_, ?_⟩
    · intro r hr
      rw [List.mem_append] at hr
      rcases hr with hr | hr
      · exact hlen r hr
      · rw [List.mem_singleton] at hr
        rw [hr, List.length_replicate]
    · rw [List.length_append, List.length_singleton]
      omega
    · rw [List.length_append, List.length_singleton]
      omega
    · intro i hi
      rw [List.getD_append _ _ _ _ hi]
  · rw [if_neg hg]
    exact ⟨hlen, by omega, by omega, fun i _ => rfl⟩

theorem idxMapGo_mem {α β : Type} (f : Nat → α → β) (k : Nat) (l : List α) (b : β)
    (hb : b ∈ idxMapGo f k l) : ∃ i a, a ∈ l ∧ b = f i a := by
  induction l generalizing k with
  | nil => cases hb
  | cons x xs ih =>
    rw [idxMapGo] at hb
    rcases List.mem_cons.mp hb with h | h
    · exact ⟨k, x, List.mem_cons_self _ _, h⟩
    · obtain ⟨i, a, ha, hba⟩ := ih (k + 1) h
      exact ⟨i, a, List.mem_cons_of_mem _ ha, hba⟩

theorem idxMap_mem {α β : Type} (f : Nat → α → β) (l : List α) (b : β)
    (hb : b ∈ idxMap f l) : ∃ i a, a ∈ l ∧ b = f i a := idxMapGo_mem f 0 l b hb

theorem save_context_eq (d : Decoder) :
    d.save_context =
      (if d.ctx_depth + 1 > MAX_CONTEXT_DEPTH then
        DecOut.panicked { d with ctx_depth := d.ctx_depth + 1 }
      else
        DecOut.ok { d with
          ctx_depth := d.ctx_depth + 1,
          ctx_stack := idxMap (fun i r =>
            if i = 0 then r.set d.step (d.sponge.headD 0)
            else r.set d.step
              (regGet ((saveGrow d.ctx_stack (d.ctx_depth + 1) d.trace_length).getD (i - 1) [])
                (d.step - 1)))
            (saveGrow d.ctx_stack (d.ctx_depth + 1) d.trace_length) }) := rfl

theorem save_loop_image_eq (d : Decoder) (img : Nat) :
    d.save_loop_image img =
      (if d.loop_depth + 1 > MAX_LOOP_DEPTH then
        DecOut.panicked { d with loop_depth := d.loop_depth + 1 }
      else
        DecOut.ok { d with
          loop_depth := d.loop_depth + 1,
          loop_stack := idxMap (fun i r =>
            if i = 0 then r.set d.step img
            else r.set d.step
              (regGet ((saveGrow d.loop_stack (d.loop_depth + 1) d.trace_length).getD (i - 1) [])
                (d.step - 1)))
            (saveGrow d.loop_stack (d.loop_depth + 1) d.trace_length) }) := rfl

theorem save_shift_stackTop (stack : List Reg) (T step depth top : Nat)
    (hlen : ∀ r ∈ stack, r.length = T) (hstep : step < T) (_hstep1 : 1 ≤ step)
    (hdep : depth ≤ stack.length) :
    stackTop (idxMap (fun i r =>
        if i = 0 then r.set step top
        else r.set step
          (regGet ((saveGrow stack (depth + 1) T).getD (i - 1) []) (step - 1)))
      (saveGrow stack (depth + 1) T)) (depth + 1) step
      = top :: stackTop stack depth (step - 1) := by
  obtain ⟨hGlen, hGdep, hGlength, hGpres⟩ := saveGrow_facts stack (depth + 1) T hlen (by omega)
  unfold stackTop
  rw [List.range_succ_eq_map, List.map_cons, List.map_map]
  congr 1
  · rw [idxMap_getD _ _ _ _ [] (by omega)]
    show regGet ((if (0 : Nat) = 0 then _ else _) : Reg) step = top
    rw [if_pos rfl]
    exact regGet_set_self _ _ _
      (by rw [hGlen _ (getD_mem_of_lt _ [] 0 (by omega))]; omega)
  · apply List.map_congr_left
    intro i hi
    rw [List.mem_range] at hi
    show regGet ((idxMap _ (saveGrow stack (depth + 1) T)).getD (i + 1) []) step
      = regGet (stack.getD i []) (step - 1)
    rw [idxMap_getD _ _ _ _ [] (by omega)]
    show regGet ((if i + 1 = 0 then _ else _) : Reg) step = _
    rw [if_neg (by omega)]
    rw [regGet_set_self _ _ _
      (by rw [hGlen _ (getD_mem_of_lt _ [] (i + 1) (by omega))]; omega)]
    rw [show i + 1 - 1 = i from rfl]
    rw [hGpres i (by omega)]

theorem save_context_ok (d : Decoder) (hwf : d.wf = true) (hstep1 : 1 ≤ d.step)
    (hcap : d.ctx_depth < MAX_CONTEXT_DEPTH) :
    ∃ d2, d.save_context = .ok d2
      ∧ d2.wf = true
      ∧ d2.step = d.step
      ∧ d2.sponge = d.sponge
      ∧ d2.op_acc = d.op_acc
      ∧ d2.cf_op_bits = d.cf_op_bits
      ∧ d2.ld_op_bits = d.ld_op_bits
      ∧ d2.hd_op_bits = d.hd_op_bits
      ∧ d2.loop_stack = d.loop_stack
      ∧ d2.loop_depth = d.loop_depth
      ∧ d2.ctx_depth = d.ctx_depth + 1
      ∧ stackTop d2.ctx_stack d2.ctx_depth d.step
          = d.sponge.headD 0 :: stackTop d.ctx_stack d.ctx_depth (d.step - 1) := by
  obtain ⟨hoa, hsp, hcf, hld, hhd, hstep, hoal, hcfl, hldl, hhdl, hctxl, hloopl,
    hcd, hcc, hlde, hlc⟩ := wf_unpack d hwf
  rw [save_context_eq]
  rw [if_neg (by unfold MAX_CONTEXT_DEPTH at hcap ⊢; omega)]
  obtain ⟨hGlen, hGdep, hGlength, hGpres⟩ :=
    saveGrow_facts d.ctx_stack (d.ctx_depth + 1) d.trace_length hctxl (by omega)
  refine ⟨_, rfl, ?_, rfl, rfl, rfl, rfl, rfl, rfl, rfl, rfl, rfl, ?_⟩
  · apply wf_pack
    refine ⟨hoa, hsp, hcf, hld, hhd, hstep, hoal, hcfl, hldl, hhdl, ?_, hloopl,
      ?_, ?_, hlde, hlc⟩
    · intro r hr
      obtain ⟨i, a, ha, hba⟩ := idxMap_mem _ _ _ hr
      have hal : a.length = d.trace_length := hGlen a ha
      rw [hba]
      by_cases hi : i = 0
      · rw [if_pos hi, List.length_set]
        exact hal
      · rw [if_neg hi, List.length_set]
        exact hal
    · show d.ctx_depth + 1 ≤ (idxMap _ _).length
      rw [idxMap_length]
      exact hGdep
    · show (idxMap _ _).length ≤ MAX_CONTEXT_DEPTH
      rw [idxMap_length, hGlength]
      unfold MAX_CONTEXT_DEPTH at hcc hcap ⊢
      omega
  · exact save_shift_stackTop d.ctx_stack d.trace_length d.step d.ctx_depth
      (d.sponge.headD 0) hctxl hstep hstep1 hcd

theorem save_loop_image_ok (d : Decoder) (img : Nat) (hwf : d.wf = true) (hstep1 : 1 ≤ d.step)
    (hcap : d.loop_depth < MAX_LOOP_DEPTH) :
    ∃ d2, d.save_loop_image img = .ok d2
      ∧ d2.wf = true
      ∧ d2.step = d.step
      ∧ d2.sponge = d.sponge
      ∧ d2.op_acc = d.op_acc
      ∧ d2.cf_op_bits = d.cf_op_bits
      ∧ d2.ld_op_bits = d.ld_op_bits
      ∧ d2.hd_op_bits = d.hd_op_bits
      ∧ d2.ctx_stack = d.ctx_stack
      ∧ d2.ctx_depth = d.ctx_depth
      ∧ d2.loop_depth = d.loop_depth + 1
      ∧ stackTop d2.loop_stack d2.loop_depth d.step
          = img :: stackTop d.loop_stack d.loop_depth (d.step - 1) := by
  obtain ⟨hoa, hsp, hcf, hld, hhd, hstep, hoal, hcfl, hldl, hhdl, hctxl, hloopl,
    hcd, hcc, hlde, hlc⟩ := wf_unpack d hwf
  rw [save_loop_image_eq]
  rw [if_neg (by unfold MAX_LOOP_DEPTH at hcap ⊢; omega)]
  obtain ⟨hGlen, hGdep, hGlength, hGpres⟩ :=
    saveGrow_facts d.loop_stack (d.loop_depth + 1) d.trace_length hloopl (by omega)
  refine ⟨_, rfl, ?_, rfl, rfl, rfl, rfl, rfl, rfl, rfl, rfl, rfl, ?_⟩
  · apply wf_pack
    refine ⟨hoa, hsp, hcf, hld, hhd, hstep, hoal, hcfl, hldl, hhdl, hctxl, ?_,
      hcd, hcc, ?_, ?_⟩
    · intro r hr
      obtain ⟨i, a, ha, hba⟩ := idxMap_mem _ _ _ hr
      have hal : a.length = d.trace_length := hGlen a ha
      rw [hba]
      by_cases hi : i = 0
      · rw [if_pos hi, List.length_set]
        exact hal
      · rw [if_neg hi, List.length_set]
        exact hal
    · show d.loop_depth + 1 ≤ (idxMap _ _).length
      rw [idxMap_length]
      exact hGdep
    · show (idxMap _ _).length ≤ MAX_LOOP_DEPTH
      rw [idxMap_length, hGlength]
      unfold MAX_LOOP_DEPTH at hlc hcap ⊢
      omega
  · exact save_shift_stackTop d.loop_stack d.trace_length d.step d.loop_depth
      img hloopl hstep hstep1 hlde

theorem pop_shift_stackTop (stack : List Reg) (T step depth : Nat)
    (hlen : ∀ r ∈ stack, r.length = T) (hstep : step < T)
    (hdep : depth + 1 ≤ stack.length) :
    stackTop (idxMap (fun i r =>
        if i + 1 < stack.length then
          r.set step (regGet (stack.getD (i + 1) []) (step - 1))
        else r) stack) depth step
      = (stackTop stack (depth + 1) (step - 1)).tail := by
  unfold stackTop
  rw [List.range_succ_eq_map, List.map_cons, List.map_map, List.tail_cons]
  apply List.map_congr_left
  intro i hi
  rw [List.mem_range] at hi
  show regGet ((idxMap _ stack).getD i []) step
    = regGet (stack.getD (Nat.succ i) []) (step - 1)
  rw [idxMap_getD _ _ _ _ [] (by omega)]
  show regGet ((if i + 1 < stack.length then _ else _) : Reg) step = _
  rw [if_pos (by omega)]
  exact regGet_set_self _ _ _ (by rw [hlen _ (getD_mem_of_lt _ [] i (by omega))]; omega)

theorem stackTop_headD (stack : List Reg) (k row : Nat) :
    (stackTop stack (k + 1) row).headD 0 = regGet (stack.getD 0 []) row := by
  unfold stackTop
  rw [List.range_succ_eq_map, List.map_cons]
  rfl

theorem pop_context_eq (d : Decoder) :
    d.pop_context =
      ({ d with
          ctx_stack := idxMap (fun i r =>
            if i + 1 < d.ctx_stack.length then
              r.set d.step (regGet (d.ctx_stack.getD (i + 1) []) (d.step - 1))
            else r) d.ctx_stack,
          ctx_depth := d.ctx_depth - 1 },
       regGet (d.ctx_stack.getD 0 []) (d.step - 1)) := rfl

theorem pop_loop_image_eq (d : Decoder) :
    d.pop_loop_image =
      ({ d with
          loop_stack := idxMap (fun i r =>
            if i + 1 < d.loop_stack.length then
              r.set d.step (regGet (d.loop_stack.getD (i + 1) []) (d.step - 1))
            else r) d.loop_stack,
          loop_depth := d.loop_depth - 1 },
       regGet (d.loop_stack.getD 0 []) (d.step - 1)) := rfl

theorem pop_context_facts (d : Decoder) (hwf : d.wf = true) (hdep : 1 ≤ d.ctx_depth) :
    (d.pop_context).1.wf = true
    ∧ (d.pop_context).1.step = d.step
    ∧ (d.pop_context).1.sponge = d.sponge
    ∧ (d.pop_context).1.op_acc = d.op_acc
    ∧ (d.pop_context).1.cf_op_bits = d.cf_op_bits
    ∧ (d.pop_context).1.ld_op_bits = d.ld_op_bits
    ∧ (d.pop_context).1.hd_op_bits = d.hd_op_bits
    ∧ (d.pop_context).1.loop_stack = d.loop_stack
    ∧ (d.pop_context).1.loop_depth = d.loop_depth
    ∧ (d.pop_context).1.ctx_depth = d.ctx_depth - 1
    ∧ stackTop (d.pop_context).1.ctx_stack (d.ctx_depth - 1) d.step
        = (stackTop d.ctx_stack d.ctx_depth (d.step - 1)).tail
    ∧ (d.pop_context).2 = (stackTop d.ctx_stack d.ctx_depth (d.step - 1)).headD 0 := by
  obtain ⟨hoa, hsp, hcf, hld, hhd, hstep, hoal, hcfl, hldl, hhdl, hctxl, hloopl,
    hcd, hcc, hlde, hlc⟩ := wf_unpack d hwf
  obtain ⟨k, hk⟩ : ∃ k, d.ctx_depth = k + 1 := ⟨d.ctx_depth - 1, by omega⟩
  rw [pop_context_eq]
  refine ⟨?_, rfl, rfl, rfl, rfl, rfl, rfl, rfl, rfl, rfl, ?_, ?_⟩
  · apply wf_pack
    refine ⟨hoa, hsp, hcf, hld, hhd, hstep, hoal, hcfl, hldl, hhdl, ?_, hloopl,
      ?_, ?_, hlde, hlc⟩
    · intro r hr
      obtain ⟨i, a, ha, hba⟩ := idxMap_mem _ _ _ hr
      have hal : a.length = d.trace_length := hctxl a ha
      rw [hba]
      by_cases hi : i + 1 < d.ctx_stack.length
      · rw [if_pos hi, List.length_set]
        exact hal
      · rw [if_neg hi]
        exact hal
    · show d.ctx_depth - 1 ≤ (idxMap _ _).length
      rw [idxMap_length]
      omega
    · show (idxMap _ _).length ≤ MAX_CONTEXT_DEPTH
      rw [idxMap_length]
      exact hcc
  · show stackTop (idxMap _ _) (d.ctx_depth - 1) d.step = _
    rw [hk]
    show stackTop (idxMap _ _) (k + 1 - 1) d.step = _
    rw [show k + 1 - 1 = k from rfl]
    exact pop_shift_stackTop d.ctx_stack d.trace_length d.step k hctxl hstep (by omega)
  · rw [hk, stackTop_headD]

theorem pop_loop_image_facts (d : Decoder) (hwf : d.wf = true) (hdep : 1 ≤ d.loop_depth) :
    (d.pop_loop_image).1.wf = true
    ∧ (d.pop_loop_image).1.step = d.step
    ∧ (d.pop_loop_image).1.sponge = d.sponge
    ∧ (d.pop_loop_image).1.op_acc = d.op_acc
    ∧ (d.pop_loop_image).1.cf_op_bits = d.cf_op_bits
    ∧ (d.pop_loop_image).1.ld_op_bits = d.ld_op_bits
    ∧ (d.pop_loop_image).1.hd_op_bits = d.hd_op_bits
    ∧ (d.pop_loop_image).1.ctx_stack = d.ctx_stack
    ∧ (d.pop_loop_image).1.ctx_depth = d.ctx_depth
    ∧ (d.pop_loop_image).1.loop_depth = d.loop_depth - 1
    ∧ stackTop (d.pop_loop_image).1.loop_stack (d.loop_depth - 1) d.step
        = (stackTop d.loop_stack d.loop_depth (d.step - 1)).tail
    ∧ (d.pop_loop_image).2 = (stackTop d.loop_stack d.loop_depth (d.step - 1)).headD 0 := by
  obtain ⟨hoa, hsp, hcf, hld, hhd, hstep, hoal, hcfl, hldl, hhdl, hctxl, hloopl,
    hcd, hcc, hlde, hlc⟩ := wf_unpack d hwf
  obtain ⟨k, hk⟩ : ∃ k, d.loop_depth = k + 1 := ⟨d.loop_depth - 1, by omega⟩
  rw [pop_loop_image_eq]
  refine ⟨?_, rfl, rfl, rfl, rfl, rfl, rfl, rfl, rfl, rfl, ?_, ?_⟩
  · apply wf_pack
    refine ⟨hoa, hsp, hcf, hld, hhd, hstep, hoal, hcfl, hldl, hhdl, hctxl, ?_,
      hcd, hcc, ?_, ?_⟩
    · intro r hr
      obtain ⟨i, a, ha, hba⟩ := idxMap_mem _ _ _ hr
      have hal : a.length = d.trace_length := hloopl a ha
      rw [hba]
      by_cases hi : i + 1 < d.loop_stack.length
      · rw [if_pos hi, List.length_set]
        exact hal
      · rw [if_neg hi]
        exact hal
    · show d.loop_depth - 1 ≤ (idxMap _ _).length
      rw [idxMap_length]
      omega
    · show (idxMap _ _).length ≤ MAX_LOOP_DEPTH
      rw [idxMap_length]
      exact hlc
  · show stackTop (idxMap _ _) (d.loop_depth - 1) d.step = _
    rw [hk]
    show stackTop (idxMap _ _) (k + 1 - 1) d.step = _
    rw [show k + 1 - 1 = k from rfl]
    exact pop_shift_stackTop d.loop_stack d.trace_length d.step k hloopl hstep (by omega)
  · rw [hk, stackTop_headD]

theorem peek_loop_image_facts (d : Decoder) (hwf : d.wf = true) (hdep : 1 ≤ d.loop_depth) :
    (d.peek_loop_image).1 = d.copy_loop_stack
    ∧ (d.peek_loop_image).2 = (stackTop d.loop_stack d.loop_depth (d.step - 1)).headD 0 := by
  obtain ⟨hoa, hsp, hcf, hld, hhd, hstep, hoal, hcfl, hldl, hhdl, hctxl, hloopl,
    hcd, hcc, hlde, hlc⟩ := wf_unpack d hwf
  obtain ⟨k, hk⟩ : ∃ k, d.loop_depth = k + 1 := ⟨d.loop_depth - 1, by omega⟩
  refine ⟨rfl, ?_⟩
  rw [hk, stackTop_headD]
  show regGet ((d.loop_stack.map
      (fun r => r.set d.step (regGet r (d.step - 1)))).getD 0 []) d.step
    = regGet (d.loop_stack.getD 0 []) (d.step - 1)
  exact copy_stack_entry d.loop_stack d.trace_length d.step hloopl hstep 0

theorem opacc_idxMap_entry0_length (op_acc : List Reg) (f : Nat → Reg → Reg)
    (hpres : ∀ i r, (f i r).length = r.length) (hlen : 0 < op_acc.length) :
    ((idxMap f op_acc).getD 0 []).length = (op_acc.getD 0 []).length := by
  rw [idxMap_getD f 0 op_acc [] [] hlen]
  exact hpres 0 _

theorem set_op_bits_facts (d : Decoder) (fo : FlowOps) (uo : UserOps) (hwf : d.wf = true) :
    (d.set_op_bits fo uo).wf = true
    ∧ (d.set_op_bits fo uo).step = d.step
    ∧ (d.set_op_bits fo uo).sponge = d.sponge
    ∧ (d.set_op_bits fo uo).op_acc = d.op_acc
    ∧ (d.set_op_bits fo uo).ctx_stack = d.ctx_stack
    ∧ (d.set_op_bits fo uo).ctx_depth = d.ctx_depth
    ∧ (d.set_op_bits fo uo).loop_stack = d.loop_stack
    ∧ (d.set_op_bits fo uo).loop_depth = d.loop_depth
    ∧ (d.set_op_bits fo uo).cfRow (d.step - 1)
        = [fo.code % 2, (fo.code >>> 1) % 2, (fo.code >>> 2) % 2] := by
  obtain ⟨hoa, hsp, hcf, hld, hhd, hstep, hoal, hcfl, hldl, hhdl, hctxl, hloopl,
    hcd, hcc, hlde, hlc⟩ := wf_unpack d hwf
  refine ⟨?_, rfl, rfl, rfl, rfl, rfl, rfl, rfl, ?_⟩
  · apply wf_pack
    refine ⟨hoa, hsp, ?_, ?_, ?_, hstep, hoal, ?_, ?_, ?_, hctxl, hloopl,
      hcd, hcc, hlde, hlc⟩
    · show (idxMap _ _).length = 3
      rw [idxMap_length]
      exact hcf
    · show (idxMap _ _).length = 5
      rw [idxMap_length]
      exact hld
    · show (idxMap _ _).length = 2
      rw [idxMap_length]
      exact hhd
    all_goals
      intro r hr
      obtain ⟨i, a, ha, hba⟩ := idxMap_mem _ _ _ hr
      rw [hba, List.length_set]
    · exact hcfl a ha
    · exact hldl a ha
    · exact hhdl a ha
  · obtain ⟨r0, r1, r2, hr⟩ := list_length_three d.cf_op_bits hcf
    have h0 : r0.length = d.trace_length := hcfl r0 (by rw [hr]; simp)
    have h1 : r1.length = d.trace_length := hcfl r1 (by rw [hr]; simp)
    have h2 : r2.length = d.trace_length := hcfl r2 (by rw [hr]; simp)
    show (idxMap (fun i r => r.set (d.step - 1) ((fo.code >>> i) % 2)) d.cf_op_bits).map
      (fun r => regGet r (d.step - 1)) = _
    rw [hr]
    show [regGet (r0.set (d.step - 1) ((fo.code >>> 0) % 2)) (d.step - 1),
          regGet (r1.set (d.step - 1) ((fo.code >>> 1) % 2)) (d.step - 1),
          regGet (r2.set (d.step - 1) ((fo.code >>> 2) % 2)) (d.step - 1)] = _
    rw [regGet_set_self _ _ _ (by omega), regGet_set_self _ _ _ (by omega),
      regGet_set_self _ _ _ (by omega)]
    rw [Nat.shiftRight_zero]

theorem set_sponge_facts (d : Decoder) (st : List Nat) (hwf : d.wf = true)
    (hst : st.length = 4) :
    (d.set_sponge st).wf = true
    ∧ (d.set_sponge st).step = d.step
    ∧ (d.set_sponge st).sponge = st
    ∧ (d.set_sponge st).cf_op_bits = d.cf_op_bits
    ∧ (d.set_sponge st).ctx_stack = d.ctx_stack
    ∧ (d.set_sponge st).ctx_depth = d.ctx_depth
    ∧ (d.set_sponge st).loop_stack = d.loop_stack
    ∧ (d.set_sponge st).loop_depth = d.loop_depth
    ∧ (d.set_sponge st).opAccRow d.step = st := by
  obtain ⟨hoa, hsp, hcf, hld, hhd, hstep, hoal, hcfl, hldl, hhdl, hctxl, hloopl,
    hcd, hcc, hlde, hlc⟩ := wf_unpack d hwf
  have htl : (d.set_sponge st).trace_length = d.trace_length := by
    show ((idxMap _ d.op_acc).getD 0 []).length = _
    rw [opacc_idxMap_entry0_length _ _ (fun i r => List.length_set r _ _) (by omega)]
    rfl
  refine ⟨?_, rfl, rfl, rfl, rfl, rfl, rfl, rfl, ?_⟩
  · apply wf_pack
    rw [htl]
    refine ⟨?_, hst, hcf, hld, hhd, hstep, ?_, hcfl, hldl, hhdl, hctxl, hloopl,
      hcd, hcc, hlde, hlc⟩
    · show (idxMap _ _).length = 4
      rw [idxMap_length]
      exact hoa
    · intro r hr
      obtain ⟨i, a, ha, hba⟩ := idxMap_mem _ _ _ hr
      rw [hba, List.length_set]
      exact hoal a ha
  · obtain ⟨a0, a1, a2, a3, hoadec⟩ := list_length_four d.op_acc hoa
    obtain ⟨s0, s1, s2, s3, hstdec⟩ := list_length_four st hst
    have ha0 : a0.length = d.trace_length := hoal a0 (by rw [hoadec]; simp)
    have ha1 : a1.length = d.trace_length := hoal a1 (by rw [hoadec]; simp)
    have ha2 : a2.length = d.trace_length := hoal a2 (by rw [hoadec]; simp)
    have ha3 : a3.length = d.trace_length := hoal a3 (by rw [hoadec]; simp)
    show (idxMap (fun i r => r.set d.step (st.getD i 0)) d.op_acc).map
      (fun r => regGet r d.step) = st
    rw [hoadec, hstdec]
    show [regGet (a0.set d.step (([s0, s1, s2, s3] : List Nat).getD 0 0)) d.step,
          regGet (a1.set d.step (([s0, s1, s2, s3] : List Nat).getD 1 0)) d.step,
          regGet (a2.set d.step (([s0, s1, s2, s3] : List Nat).getD 2 0)) d.step,
          regGet (a3.set d.step (([s0, s1, s2, s3] : List Nat).getD 3 0)) d.step]
      = [s0, s1, s2, s3]
    rw [regGet_set_self _ _ _ (by omega), regGet_set_self _ _ _ (by omega),
      regGet_set_self _ _ _ (by omega), regGet_set_self _ _ _ (by omega)]
    rfl

theorem haccPerm_length (P : Prims) (ark c v : Nat) (s : List Nat) :
    (haccPerm P ark c v s).length = s.length := by
  unfold haccPerm
  rw [P.half2_len, List.length_set, List.length_set, P.half1_len]

theorem apply_hacc_round_facts (P : Prims) (d : Decoder) (op : UserOps) (v : Nat)
    (hwf : d.wf = true) :
    (d.apply_hacc_round P op v).wf = true
    ∧ (d.apply_hacc_round P op v).step = d.step
    ∧ (d.apply_hacc_round P op v).sponge
        = haccPerm P ((d.step - 1) % BASE_CYCLE_LENGTH) (ucode op) v d.sponge
    ∧ (d.apply_hacc_round P op v).cf_op_bits = d.cf_op_bits
    ∧ (d.apply_hacc_round P op v).ctx_stack = d.ctx_stack
    ∧ (d.apply_hacc_round P op v).ctx_depth = d.ctx_depth
    ∧ (d.apply_hacc_round P op v).loop_stack = d.loop_stack
    ∧ (d.apply_hacc_round P op v).loop_depth = d.loop_depth := by
  obtain ⟨hoa, hsp, hcf, hld, hhd, hstep, hoal, hcfl, hldl, hhdl, hctxl, hloopl,
    hcd, hcc, hlde, hlc⟩ := wf_unpack d hwf
  have htl : (d.apply_hacc_round P op v).trace_length = d.trace_length := by
    show ((idxMap _ d.op_acc).getD 0 []).length = _
    rw [opacc_idxMap_entry0_length _ _ (fun i r => List.length_set r _ _) (by omega)]
    rfl
  refine ⟨?_, rfl, rfl, rfl, rfl, rfl, rfl, rfl⟩
  apply wf_pack
  rw [htl]
  refine ⟨?_, ?_, hcf, hld, hhd, hstep, ?_, hcfl, hldl, hhdl, hctxl, hloopl,
    hcd, hcc, hlde, hlc⟩
  · show (idxMap _ _).length = 4
    rw [idxMap_length]
    exact hoa
  · show (haccPerm P _ _ _ d.sponge).length = 4
    rw [haccPerm_length]
    exact hsp
  · intro r hr
    obtain ⟨i, a, ha, hba⟩ := idxMap_mem _ _ _ hr
    rw [hba, List.length_set]
    exact hoal a ha

theorem advance_stackTop (d : Decoder) (hwf : d.wf = true) (dep : Nat) :
    stackTop (d.advance_step).ctx_stack dep d.step = stackTop d.ctx_stack dep d.step
    ∧ stackTop (d.advance_step).loop_stack dep d.step = stackTop d.loop_stack dep d.step := by
  obtain ⟨-, -, -, -, -, -, -, -, hctx, hloop⟩ := advance_facts d hwf
  have hstep : d.step < d.trace_length := (wf_unpack d hwf).2.2.2.2.2.1
  constructor
  · exact stackTop_congr _ _ _ _ _ (fun i _ => hctx i d.step hstep)
  · exact stackTop_congr _ _ _ _ _ (fun i _ => hloop i d.step hstep)

theorem start_block_eq (d : Decoder) :
    d.start_block =
      if d.step % BASE_CYCLE_LENGTH ≠ BASE_CYCLE_LENGTH - 1 then .panicked d
      else
        match d.advance_step.save_context with
        | .panicked e => .panicked e
        | .ok d2 =>
          .ok ((d2.copy_loop_stack.set_op_bits FlowOps.Begin UserOps.Noop).set_sponge
            [0, 0, 0, 0]) := rfl

theorem start_block_ok (d : Decoder) (hwf : d.wf = true)
    (hstep : d.step % 16 = 15) (hcap : d.ctx_depth < MAX_CONTEXT_DEPTH) :
    ∃ d', d.start_block = .ok d'
      ∧ d'.wf = true
      ∧ d'.step = d.step + 1
      ∧ d'.sponge = [0, 0, 0, 0]
      ∧ d'.ctx_depth = d.ctx_depth + 1
      ∧ d'.ctxTop = d.sponge.headD 0 :: d.ctxTop
      ∧ d'.loop_depth = d.loop_depth
      ∧ d'.loopTop = d.loopTop := by
  obtain ⟨hA1, hA2, hA3, hA4, hA5, hA6, hA7, hA8, hA9, hA10⟩ := advance_facts d hwf
  obtain ⟨d2, hd2eq, hw2, hst2, hsp2, hoa2, hcfb2, hldb2, hhdb2, hls2, hld2, hcd2, htop2⟩ :=
    save_context_ok d.advance_step hA8 (by omega) (by rw [hA3]; exact hcap)
  obtain ⟨hw3, hst3, hsp3, hoa3, hcfb3, hctx3, hcdp3, hldp3, hlt3⟩ :=
    copy_loop_stack_facts d2 hw2
  obtain ⟨hw4, hst4, hsp4, hoa4, hctx4, hcdp4, hls4, hldp4, hcfr4⟩ :=
    set_op_bits_facts d2.copy_loop_stack FlowOps.Begin UserOps.Noop hw3
  obtain ⟨hw5, hst5, hsp5, hcfb5, hctx5, hcdp5, hls5, hldp5, hoar5⟩ :=
    set_sponge_facts (d2.copy_loop_stack.set_op_bits FlowOps.Begin UserOps.Noop)
      [0, 0, 0, 0] hw4 (by rfl)
  rw [start_block_eq, if_neg (by unfold BASE_CYCLE_LENGTH; omega), hd2eq]
  refine ⟨_, rfl, hw5, ?_, hsp5, ?_, ?_, ?_, ?_⟩
  · rw [hst5, hst4, hst3, hst2, hA1]
  · rw [hcdp5, hcdp4, hcdp3, hcd2, hA3]
  · show stackTop _ _ _ = _
    rw [hctx5, hctx4, hctx3, hst5, hst4, hst3, hst2, hcdp5, hcdp4, hcdp3]
    rw [htop2, hA2]
    congr 1
    rw [hA1, hA3]
    rw [show d.step + 1 - 1 = d.step from rfl]
    exact (advance_stackTop d hwf d.ctx_depth).1
  · rw [hldp5, hldp4, hldp3, hld2, hA4]
  · show stackTop _ _ _ = _
    rw [hls5, hls4, hldp5, hldp4, hldp3, hld2, hA4, hst5, hst4, hst3]
    rw [hlt3 d.loop_depth]
    rw [hls2, hst2, hA1]
    rw [show d.step + 1 - 1 = d.step from rfl]
    exact (advance_stackTop d hwf d.loop_depth).2

theorem start_loop_eq (d : Decoder) (img : Nat) :
    d.start_loop img =
      if d.step % BASE_CYCLE_LENGTH ≠ BASE_CYCLE_LENGTH - 1 then .panicked d
      else
        match d.advance_step.save_context with
        | .panicked e => .panicked e
        | .ok d2 =>
          match d2.save_loop_image img with
          | .panicked e => .panicked e
          | .ok d3 =>
            .ok ((d3.set_op_bits FlowOps.Loop UserOps.Noop).set_sponge [0, 0, 0, 0]) := rfl

theorem start_loop_ok (d : Decoder) (img : Nat) (hwf : d.wf = true)
    (hstep : d.step % 16 = 15) (hcap : d.ctx_depth < MAX_CONTEXT_DEPTH)
    (hlcap : d.loop_depth < MAX_LOOP_DEPTH) :
    ∃ d', d.start_loop img = .ok d'
      ∧ d'.wf = true
      ∧ d'.step = d.step + 1
      ∧ d'.sponge = [0, 0, 0, 0]
      ∧ d'.ctx_depth = d.ctx_depth + 1
      ∧ d'.ctxTop = d.sponge.headD 0 :: d.ctxTop
      ∧ d'.loop_depth = d.loop_depth + 1
      ∧ d'.loopTop = img :: d.loopTop := by
  obtain ⟨hA1, hA2, hA3, hA4, hA5, hA6, hA7, hA8, hA9, hA10⟩ := advance_facts d hwf
  obtain ⟨d2, hd2eq, hw2, hst2, hsp2, hoa2, hcfb2, hldb2, hhdb2, hls2, hld2, hcd2, htop2⟩ :=
    save_context_ok d.advance_step hA8 (by omega) (by rw [hA3]; exact hcap)
  obtain ⟨d3, hd3eq, hw3, hst3, hsp3, hoa3, hcfb3, hldb3, hhdb3, hctx3, hcdp3, hldp3, htop3⟩ :=
    save_loop_image_ok d2 img hw2 (by rw [hst2]; omega) (by rw [hld2, hA4]; exact hlcap)
  obtain ⟨hw4, hst4, hsp4, hoa4, hctx4, hcdp4, hls4, hldp4, hcfr4⟩ :=
    set_op_bits_facts d3 FlowOps.Loop UserOps.Noop hw3
  obtain ⟨hw5, hst5, hsp5, hcfb5, hctx5, hcdp5, hls5, hldp5, hoar5⟩ :=
    set_sponge_facts (d3.set_op_bits FlowOps.Loop UserOps.Noop) [0, 0, 0, 0] hw4 (by rfl)
  have heq : d.start_loop img
      = .ok ((d3.set_op_bits FlowOps.Loop UserOps.Noop).set_sponge [0, 0, 0, 0]) := by
    rw [start_loop_eq, if_neg (by unfold BASE_CYCLE_LENGTH; omega), hd2eq]
    show (match d2.save_loop_image img with
        | DecOut.panicked e => DecOut.panicked e
        | DecOut.ok d3 =>
          DecOut.ok ((d3.set_op_bits FlowOps.Loop UserOps.Noop).set_sponge [0, 0, 0, 0])) = _
    rw [hd3eq]
  rw [heq]
  refine ⟨_, rfl, hw5, ?_, hsp5, ?_, ?_, ?_, ?_⟩
  · rw [hst5, hst4, hst3, hst2, hA1]
  · rw [hcdp5, hcdp4, hcdp3, hcd2, hA3]
  · show stackTop _ _ _ = _
    rw [hctx5, hctx4, hctx3, hst5, hst4, hst3, hst2, hcdp5, hcdp4, hcdp3]
    rw [htop2, hA2]
    congr 1
    rw [hA1, hA3]
    rw [show d.step + 1 - 1 = d.step from rfl]
    exact (advance_stackTop d hwf d.ctx_depth).1
  · rw [hldp5, hldp4, hldp3, hld2, hA4]
  · show stackTop _ _ _ = _
    rw [hls5, hls4, hldp5, hldp4, hst5, hst4, hst3]
    rw [htop3]
    congr 1
    rw [hls2, hld2, hst2, hA1, hA4]
    rw [show d.step + 1 - 1 = d.step from rfl]
    exact (advance_stackTop d hwf d.loop_depth).2

theorem end_block_eq (d : Decoder) (sib : Nat) (tb : Bool) :
    d.end_block sib tb =
      if d.step % BASE_CYCLE_LENGTH ≠ 0 then .panicked d
      else
        if d.advance_step.ctx_depth = 0 then .panicked d.advance_step
        else
          if tb then
            .ok (((d.advance_step.pop_context).1.copy_loop_stack.set_op_bits FlowOps.Tend
              UserOps.Noop).set_sponge
              [(d.advance_step.pop_context).2,
               (d.advance_step.pop_context).1.copy_loop_stack.sponge.headD 0, sib, 0])
          else
            .ok (((d.advance_step.pop_context).1.copy_loop_stack.set_op_bits FlowOps.Fend
              UserOps.Noop).set_sponge
              [(d.advance_step.pop_context).2, sib,
               (d.advance_step.pop_context).1.copy_loop_stack.sponge.headD 0, 0]) := rfl

theorem end_block_ok (d : Decoder) (sib : Nat) (tb : Bool) (hwf : d.wf = true)
    (hstep : d.step % 16 = 0) (hdep : 1 ≤ d.ctx_depth) :
    ∃ d', d.end_block sib tb = .ok d'
      ∧ d'.wf = true
      ∧ d'.step = d.step + 1
      ∧ d'.sponge = (if tb then [d.ctxTop.headD 0, d.sponge.headD 0, sib, 0]
          else [d.ctxTop.headD 0, sib, d.sponge.headD 0, 0])
      ∧ d'.ctx_depth = d.ctx_depth - 1
      ∧ d'.ctxTop = d.ctxTop.tail
      ∧ d'.loop_depth = d.loop_depth
      ∧ d'.loopTop = d.loopTop
      ∧ d'.cfRow d.step = (if tb then [0, 1, 0] else [1, 1, 0])
      ∧ d'.opAccRow d'.step = d'.sponge := by
  obtain ⟨hA1, hA2, hA3, hA4, hA5, hA6, hA7, hA8, hA9, hA10⟩ := advance_facts d hwf
  obtain ⟨hw2, hst2, hsp2, hoa2, hcfb2, hldb2, hhdb2, hls2, hld2, hcd2, htop2, hval2⟩ :=
    pop_context_facts d.advance_step hA8 (by omega)
  obtain ⟨hw3, hst3, hsp3, hoa3, hcfb3, hctx3, hcdp3, hldp3, hlt3⟩ :=
    copy_loop_stack_facts (d.advance_step.pop_context).1 hw2
  have hctxval : (d.advance_step.pop_context).2 = d.ctxTop.headD 0 := by
    rw [hval2, hA1]
    rw [show d.step + 1 - 1 = d.step from rfl]
    rw [hA3, (advance_stackTop d hwf d.ctx_depth).1]
    rfl
  have hsponge3 : (d.advance_step.pop_context).1.copy_loop_stack.sponge = d.sponge := by
    rw [hsp3, hsp2, hA2]
  have hctxtail : stackTop (d.advance_step.pop_context).1.ctx_stack
      (d.advance_step.pop_context).1.ctx_depth d.advance_step.step = d.ctxTop.tail := by
    rw [hcd2, htop2, hA1, hA3]
    rw [show d.step + 1 - 1 = d.step from rfl]
    rw [(advance_stackTop d hwf d.ctx_depth).1]
    rfl
  have hlooppres : stackTop (d.advance_step.pop_context).1.copy_loop_stack.loop_stack
      (d.advance_step.pop_context).1.copy_loop_stack.loop_depth
      (d.advance_step.pop_context).1.copy_loop_stack.step = d.loopTop := by
    rw [hldp3, hld2, hst3]
    rw [hlt3 d.advance_step.loop_depth]
    rw [hls2, hst2, hA1, hA4]
    rw [show d.step + 1 - 1 = d.step from rfl]
    exact (advance_stackTop d hwf d.loop_depth).2
  cases tb with
  | true =>
    obtain ⟨hw4, hst4, hsp4, hoa4, hctx4, hcdp4, hls4, hldp4, hcfr4⟩ :=
      set_op_bits_facts (d.advance_step.pop_context).1.copy_loop_stack
        FlowOps.Tend UserOps.Noop hw3
    obtain ⟨hw5, hst5, hsp5, hcfb5, hctx5, hcdp5, hls5, hldp5, hoar5⟩ :=
      set_sponge_facts ((d.advance_step.pop_context).1.copy_loop_stack.set_op_bits
        FlowOps.Tend UserOps.Noop)
        [(d.advance_step.pop_context).2,
         (d.advance_step.pop_context).1.copy_loop_stack.sponge.headD 0, sib, 0] hw4 (by rfl)
    rw [end_block_eq, if_neg (by unfold BASE_CYCLE_LENGTH; omega),
      if_neg (by rw [hA3]; omega), if_pos rfl]
    refine ⟨_, rfl, hw5, ?_, ?_, ?_, ?_, ?_, ?_, ?_, ?_⟩
    · rw [hst5, hst4, hst3, hst2, hA1]
    · rw [hsp5, if_pos rfl, hctxval, hsponge3]
    · rw [hcdp5, hcdp4, hcdp3, hcd2, hA3]
    · show stackTop _ _ _ = _
      rw [hctx5, hctx4, hctx3, hst5, hst4, hst3, hst2, hcdp5, hcdp4, hcdp3]
      exact hctxtail
    · rw [hldp5, hldp4, hldp3, hld2, hA4]
    · show stackTop _ _ _ = _
      rw [hls5, hls4, hldp5, hldp4, hst5, hst4]
      exact hlooppres
    · show List.map _ _ = _
      rw [hcfb5]
      have hrow : d.step = (d.advance_step.pop_context).1.copy_loop_stack.step - 1 := by
        rw [hst3, hst2, hA1]
        omega
      rw [hrow, if_pos rfl]
      exact hcfr4
    · rw [hst5, hsp5]
      exact hoar5
  | false =>
    obtain ⟨hw4, hst4, hsp4, hoa4, hctx4, hcdp4, hls4, hldp4, hcfr4⟩ :=
      set_op_bits_facts (d.advance_step.pop_context).1.copy_loop_stack
        FlowOps.Fend UserOps.Noop hw3
    obtain ⟨hw5, hst5, hsp5, hcfb5, hctx5, hcdp5, hls5, hldp5, hoar5⟩ :=
      set_sponge_facts ((d.advance_step.pop_context).1.copy_loop_stack.set_op_bits
        FlowOps.Fend UserOps.Noop)
        [(d.advance_step.pop_context).2, sib,
         (d.advance_step.pop_context).1.copy_loop_stack.sponge.headD 0, 0] hw4 (by rfl)
    rw [end_block_eq, if_neg (by unfold BASE_CYCLE_LENGTH; omega),
      if_neg (by rw [hA3]; omega), if_neg (by simp)]
    refine ⟨_, rfl, hw5, ?_, ?_, ?_, ?_, ?_, ?_, ?_, ?_⟩
    · rw [hst5, hst4, hst3, hst2, hA1]
    · rw [hsp5, if_neg (by simp), hctxval, hsponge3]
    · rw [hcdp5, hcdp4, hcdp3, hcd2, hA3]
    · show stackTop _ _ _ = _
      rw [hctx5, hctx4, hctx3, hst5, hst4, hst3, hst2, hcdp5, hcdp4, hcdp3]
      exact hctxtail
    · rw [hldp5, hldp4, hldp3, hld2, hA4]
    · show stackTop _ _ _ = _
      rw [hls5, hls4, hldp5, hldp4, hst5, hst4]
      exact hlooppres
    · show List.map _ _ = _
      rw [hcfb5]
      have hrow : d.step = (d.advance_step.pop_context).1.copy_loop_stack.step - 1 := by
        rw [hst3, hst2, hA1]
        omega
      rw [hrow, if_neg (by simp)]
      exact hcfr4
    · rw [hst5, hsp5]
      exact hoar5

theorem loop_entry_facts (d : Decoder) (hwf : d.wf = true) :
    (d.advance_step.copy_context_stack).wf = true
    ∧ (d.advance_step.copy_context_stack).step = d.step + 1
    ∧ (d.advance_step.copy_context_stack).sponge = d.sponge
    ∧ (d.advance_step.copy_context_stack).loop_depth = d.loop_depth
    ∧ (d.advance_step.copy_context_stack).ctx_depth = d.ctx_depth
    ∧ (∀ dep, stackTop (d.advance_step.copy_context_stack).ctx_stack dep (d.step + 1)
        = stackTop d.ctx_stack dep d.step)
    ∧ (∀ dep, stackTop (d.advance_step.copy_context_stack).loop_stack dep d.step
        = stackTop d.loop_stack dep d.step) := by
  obtain ⟨hA1, hA2, hA3, hA4, hA5, hA6, hA7, hA8, hA9, hA10⟩ := advance_facts d hwf
  obtain ⟨hw2, hst2, hsp2, hoa2, hcf2, hls2, hld2, hcd2, hct2⟩ :=
    copy_context_stack_facts d.advance_step hA8
  refine ⟨hw2, ?_, ?_, ?_, ?_, ?_, ?_⟩
  · rw [hst2, hA1]
  · rw [hsp2, hA2]
  · rw [hld2, hA4]
  · rw [hcd2, hA3]
  · intro dep
    have hthis := hct2 dep
    rw [hA1] at hthis
    rw [hthis, show d.step + 1 - 1 = d.step from rfl]
    exact (advance_stackTop d hwf dep).1
  · intro dep
    rw [hls2]
    exact (advance_stackTop d hwf dep).2

theorem wrap_loop_eq (d : Decoder) :
    d.wrap_loop =
      if d.step % BASE_CYCLE_LENGTH ≠ BASE_CYCLE_LENGTH - 1 then .panicked d
      else
        if d.advance_step.copy_context_stack.loop_depth = 0 then
          .panicked d.advance_step.copy_context_stack
        else
          if (d.advance_step.copy_context_stack.peek_loop_image).1.sponge.headD 0
              ≠ (d.advance_step.copy_context_stack.peek_loop_image).2 then
            .panicked (d.advance_step.copy_context_stack.peek_loop_image).1
          else
            .ok (((d.advance_step.copy_context_stack.peek_loop_image).1.set_op_bits
              FlowOps.Wrap UserOps.Noop).set_sponge [0, 0, 0, 0]) := rfl

theorem break_loop_eq (d : Decoder) :
    d.break_loop =
      if d.step % BASE_CYCLE_LENGTH ≠ BASE_CYCLE_LENGTH - 1 then .panicked d
      else
        if d.advance_step.copy_context_stack.loop_depth = 0 then
          .panicked d.advance_step.copy_context_stack
        else
          if (d.advance_step.copy_context_stack.pop_loop_image).1.sponge.headD 0
              ≠ (d.advance_step.copy_context_stack.pop_loop_image).2 then
            .panicked (d.advance_step.copy_context_stack.pop_loop_image).1
          else
            .ok ((((d.advance_step.copy_context_stack.pop_loop_image).1.set_op_bits
                FlowOps.Break UserOps.Noop)).set_sponge
              (((d.advance_step.copy_context_stack.pop_loop_image).1.set_op_bits
                FlowOps.Break UserOps.Noop)).sponge) := rfl

theorem wrap_guard_vals (d : Decoder) (hwf : d.wf = true) (hdep : 1 ≤ d.loop_depth) :
    (d.advance_step.copy_context_stack.peek_loop_image).1.sponge.headD 0 = d.sponge.headD 0
    ∧ (d.advance_step.copy_context_stack.peek_loop_image).2 = d.loopTop.headD 0 := by
  obtain ⟨hw2, hst2, hsp2, hld2, hcd2, hctxt2, hloopt2⟩ := loop_entry_facts d hwf
  obtain ⟨hpk1, hpkv⟩ := peek_loop_image_facts d.advance_step.copy_context_stack hw2
    (by rw [hld2]; exact hdep)
  obtain ⟨hw3, hst3, hsp3, hoa3, hcf3, hctx3, hcd3, hld3, hlt3⟩ :=
    copy_loop_stack_facts d.advance_step.copy_context_stack hw2
  constructor
  · rw [hpk1, hsp3, hsp2]
  · rw [hpkv, hst2, hld2, show d.step + 1 - 1 = d.step from rfl]
    exact congrArg (fun l => List.headD l 0) (hloopt2 d.loop_depth)

theorem break_guard_vals (d : Decoder) (hwf : d.wf = true) (hdep : 1 ≤ d.loop_depth) :
    (d.advance_step.copy_context_stack.pop_loop_image).1.sponge.headD 0 = d.sponge.headD 0
    ∧ (d.advance_step.copy_context_stack.pop_loop_image).2 = d.loopTop.headD 0 := by
  obtain ⟨hw2, hst2, hsp2, hld2, hcd2, hctxt2, hloopt2⟩ := loop_entry_facts d hwf
  obtain ⟨hw3, hst3, hsp3, hoa3, hcf3, hldb3, hhdb3, hctx3, hcd3, hld3, htail3, hval3⟩ :=
    pop_loop_image_facts d.advance_step.copy_context_stack hw2 (by rw [hld2]; exact hdep)
  constructor
  · rw [hsp3, hsp2]
  · rw [hval3, hst2, hld2, show d.step + 1 - 1 = d.step from rfl]
    exact congrArg (fun l => List.headD l 0) (hloopt2 d.loop_depth)

theorem wrap_loop_ok (d : Decoder) (hwf : d.wf = true)
    (hstep : d.step % 16 = 15) (hdep : 1 ≤ d.loop_depth)
    (hmatch : d.sponge.headD 0 = d.loopTop.headD 0) :
    ∃ d', d.wrap_loop = .ok d'
      ∧ d'.wf = true
      ∧ d'.step = d.step + 1
      ∧ d'.sponge = [0, 0, 0, 0]
      ∧ d'.ctx_depth = d.ctx_depth
      ∧ d'.ctxTop = d.ctxTop
      ∧ d'.loop_depth = d.loop_depth
      ∧ d'.loopTop = d.loopTop
      ∧ d'.cfRow d.step = [1, 0, 1]
      ∧ d'.opAccRow d'.step = [0, 0, 0, 0] := by
  obtain ⟨hw2, hst2, hsp2, hld2, hcd2, hctxt2, hloopt2⟩ := loop_entry_facts d hwf
  obtain ⟨hg1, hg2⟩ := wrap_guard_vals d hwf hdep
  obtain ⟨hpk1, hpkv⟩ := peek_loop_image_facts d.advance_step.copy_context_stack hw2
    (by rw [hld2]; exact hdep)
  obtain ⟨hw3, hst3, hsp3, hoa3, hcf3, hctx3, hcd3, hld3, hlt3⟩ :=
    copy_loop_stack_facts d.advance_step.copy_context_stack hw2
  have hw3' : (d.advance_step.copy_context_stack.peek_loop_image).1.wf = true := by
    rw [hpk1]; exact hw3
  obtain ⟨hw4, hst4, hsp4, hoa4, hctx4, hcdp4, hls4, hldp4, hcfr4⟩ :=
    set_op_bits_facts (d.advance_step.copy_context_stack.peek_loop_image).1
      FlowOps.Wrap UserOps.Noop hw3'
  obtain ⟨hw5, hst5, hsp5, hcfb5, hctx5, hcdp5, hls5, hldp5, hoar5⟩ :=
    set_sponge_facts ((d.advance_step.copy_context_stack.peek_loop_image).1.set_op_bits
      FlowOps.Wrap UserOps.Noop) [0, 0, 0, 0] hw4 (by rfl)
  rw [wrap_loop_eq, if_neg (by unfold BASE_CYCLE_LENGTH; omega),
    if_neg (by rw [hld2]; omega),
    if_neg (show ¬ _ ≠ _ from fun hne => hne (by rw [hg1, hg2]; exact hmatch))]
  refine ⟨_, rfl, hw5, ?_, hsp5, ?_, ?_, ?_, ?_, ?_, ?_⟩
  · rw [hst5, hst4, hpk1, hst3, hst2]
  · rw [hcdp5, hcdp4, hpk1, hcd3, hcd2]
  · show stackTop _ _ _ = _
    rw [hctx5, hctx4, hcdp5, hcdp4, hst5, hst4, hpk1, hctx3, hcd3, hcd2, hst3, hst2]
    exact hctxt2 d.ctx_depth
  · rw [hldp5, hldp4, hpk1, hld3, hld2]
  · show stackTop _ _ _ = _
    rw [hls5, hls4, hldp5, hldp4, hst5, hst4, hpk1, hld3, hld2, hst3]
    rw [hlt3 d.loop_depth, hst2, show d.step + 1 - 1 = d.step from rfl]
    exact hloopt2 d.loop_depth
  · show List.map _ _ = _
    rw [hcfb5]
    have hrow : d.step = (d.advance_step.copy_context_stack.peek_loop_image).1.step - 1 := by
      rw [hpk1, hst3, hst2]
      omega
    rw [hrow]
    exact hcfr4
  · rw [hst5]
    exact hoar5

theorem break_loop_ok (d : Decoder) (hwf : d.wf = true)
    (hstep : d.step % 16 = 15) (hdep : 1 ≤ d.loop_depth)
    (hmatch : d.sponge.headD 0 = d.loopTop.headD 0) :
    ∃ d', d.break_loop = .ok d'
      ∧ d'.wf = true
      ∧ d'.step = d.step + 1
      ∧ d'.sponge = d.sponge
      ∧ d'.ctx_depth = d.ctx_depth
      ∧ d'.ctxTop = d.ctxTop
      ∧ d'.loop_depth = d.loop_depth - 1
      ∧ d'.loopTop = d.loopTop.tail
      ∧ d'.cfRow d.step = [0, 1, 1]
      ∧ d'.opAccRow d'.step = d.sponge := by
  obtain ⟨hw2, hst2, hsp2, hld2, hcd2, hctxt2, hloopt2⟩ := loop_entry_facts d hwf
  obtain ⟨hg1, hg2⟩ := break_guard_vals d hwf hdep
  obtain ⟨hw3, hst3, hsp3, hoa3, hcf3, hldb3, hhdb3, hctx3, hcd3, hld3, htail3, hval3⟩ :=
    pop_loop_image_facts d.advance_step.copy_context_stack hw2 (by rw [hld2]; exact hdep)
  obtain ⟨hw4, hst4, hsp4, hoa4, hctx4, hcdp4, hls4, hldp4, hcfr4⟩ :=
    set_op_bits_facts (d.advance_step.copy_context_stack.pop_loop_image).1
      FlowOps.Break UserOps.Noop hw3
  obtain ⟨hw5, hst5, hsp5, hcfb5, hctx5, hcdp5, hls5, hldp5, hoar5⟩ :=
    set_sponge_facts ((d.advance_step.copy_context_stack.pop_loop_image).1.set_op_bits
      FlowOps.Break UserOps.Noop)
      ((d.advance_step.copy_context_stack.pop_loop_image).1.set_op_bits
        FlowOps.Break UserOps.Noop).sponge hw4
      (by rw [hsp4, hsp3, hsp2]; exact (wf_unpack d hwf).2.1)
  rw [break_loop_eq, if_neg (by unfold BASE_CYCLE_LENGTH; omega),
    if_neg (by rw [hld2]; omega),
    if_neg (show ¬ _ ≠ _ from fun hne => hne (by rw [hg1, hg2]; exact hmatch))]
  refine ⟨_, rfl, hw5, ?_, ?_, ?_, ?_, ?_, ?_, ?_, ?_⟩
  · rw [hst5, hst4, hst3, hst2]
  · rw [hsp5, hsp4, hsp3, hsp2]
  · rw [hcdp5, hcdp4, hcd3, hcd2]
  · show stackTop _ _ _ = _
    rw [hctx5, hctx4, hcdp5, hcdp4, hst5, hst4, hctx3, hcd3, hcd2, hst3, hst2]
    exact hctxt2 d.ctx_depth
  · rw [hldp5, hldp4, hld3, hld2]
  · show stackTop _ _ _ = _
    rw [hls5, hls4, hldp5, hldp4, hst5, hst4, hld3, hst3]
    rw [htail3]
    congr 1
    rw [hld2, hst2, show d.step + 1 - 1 = d.step from rfl]
    exact hloopt2 d.loop_depth
  · show List.map _ _ = _
    rw [hcfb5]
    have hrow : d.step = (d.advance_step.copy_context_stack.pop_loop_image).1.step - 1 := by
      rw [hst3, hst2]
      omega
    rw [hrow]
    exact hcfr4
  · rw [hst5]
    rw [hoar5, hsp4, hsp3, hsp2]

theorem start_block_misaligned (d : Decoder) (h : d.step % 16 ≠ 15) :
    d.start_block = .panicked d := by
  rw [start_block_eq, if_pos (by unfold BASE_CYCLE_LENGTH; omega)]

theorem start_loop_misaligned (d : Decoder) (img : Nat) (h : d.step % 16 ≠ 15) :
    d.start_loop img = .panicked d := by
  rw [start_loop_eq, if_pos (by unfold BASE_CYCLE_LENGTH; omega)]

theorem wrap_loop_misaligned (d : Decoder) (h : d.step % 16 ≠ 15) :
    d.wrap_loop = .panicked d := by
  rw [wrap_loop_eq, if_pos (by unfold BASE_CYCLE_LENGTH; omega)]

theorem break_loop_misaligned (d : Decoder) (h : d.step % 16 ≠ 15) :
    d.break_loop = .panicked d := by
  rw [break_loop_eq, if_pos (by unfold BASE_CYCLE_LENGTH; omega)]

theorem end_block_misaligned (d : Decoder) (sib : Nat) (tb : Bool) (h : d.step % 16 ≠ 0) :
    d.end_block sib tb = .panicked d := by
  rw [end_block_eq, if_pos (by unfold BASE_CYCLE_LENGTH; omega)]

theorem wrap_loop_mismatch (d : Decoder) (hwf : d.wf = true)
    (hstep : d.step % 16 = 15) (hdep : 1 ≤ d.loop_depth)
    (hne : d.sponge.headD 0 ≠ d.loopTop.headD 0) :
    d.wrap_loop = .panicked (d.advance_step.copy_context_stack.peek_loop_image).1 := by
  obtain ⟨hw2, hst2, hsp2, hld2, hcd2, hctxt2, hloopt2⟩ := loop_entry_facts d hwf
  obtain ⟨hg1, hg2⟩ := wrap_guard_vals d hwf hdep
  rw [wrap_loop_eq, if_neg (by unfold BASE_CYCLE_LENGTH; omega),
    if_neg (by rw [hld2]; omega), if_pos (by rw [hg1, hg2]; exact hne)]

theorem break_loop_mismatch (d : Decoder) (hwf : d.wf = true)
    (hstep : d.step % 16 = 15) (hdep : 1 ≤ d.loop_depth)
    (hne : d.sponge.headD 0 ≠ d.loopTop.headD 0) :
    d.break_loop = .panicked (d.advance_step.copy_context_stack.pop_loop_image).1 := by
  obtain ⟨hw2, hst2, hsp2, hld2, hcd2, hctxt2, hloopt2⟩ := loop_entry_facts d hwf
  obtain ⟨hg1, hg2⟩ := break_guard_vals d hwf hdep
  rw [break_loop_eq, if_neg (by unfold BASE_CYCLE_LENGTH; omega),
    if_neg (by rw [hld2]; omega), if_pos (by rw [hg1, hg2]; exact hne)]

theorem decode_op_push_misaligned (P : Prims) (d : Decoder) (v : Nat)
    (hv : v ≠ 0) (h : d.step % 8 ≠ 0) :
    d.decode_op P UserOps.Push v = .panicked d := by
  unfold Decoder.decode_op
  rw [if_pos hv]
  show (if d.step % PUSH_OP_ALIGNMENT = 0 then _ else DecOut.panicked d) = _
  rw [if_neg (show ¬ d.step % PUSH_OP_ALIGNMENT = 0 by unfold PUSH_OP_ALIGNMENT; omega)]

theorem decode_op_nonpush_nonzero (P : Prims) (d : Decoder) (op : UserOps) (v : Nat)
    (hv : v ≠ 0) (hop : op ≠ UserOps.Push) :
    d.decode_op P op v = .panicked d := by
  unfold Decoder.decode_op
  rw [if_pos hv]
  cases op
  case Push => exact absurd rfl hop
  all_goals rfl

theorem decode_op_zero (P : Prims) (d : Decoder) (op : UserOps) :
    d.decode_op P op 0 = .ok (d.decode_op_body P op 0) := by
  unfold Decoder.decode_op
  rw [if_neg (show ¬ (0 : Nat) ≠ 0 from fun hne => hne rfl)]

theorem decode_op_push_aligned (P : Prims) (d : Decoder) (v : Nat) (h : d.step % 8 = 0) :
    d.decode_op P UserOps.Push v = .ok (d.decode_op_body P UserOps.Push v) := by
  unfold Decoder.decode_op
  by_cases hv : v ≠ 0
  · rw [if_pos hv]
    show (if d.step % PUSH_OP_ALIGNMENT = 0 then
        DecOut.ok (d.decode_op_body P UserOps.Push v) else DecOut.panicked d) = _
    rw [if_pos (show d.step % PUSH_OP_ALIGNMENT = 0 from h)]
  · rw [if_neg hv]

theorem decode_op_body_eq (P : Prims) (d : Decoder) (op : UserOps) (v : Nat) :
    d.decode_op_body P op v
      = ((d.advance_step.copy_context_stack.copy_loop_stack).set_op_bits
          FlowOps.Hacc op).apply_hacc_round P op v := rfl

theorem decode_op_body_facts (P : Prims) (d : Decoder) (op : UserOps) (v : Nat)
    (hwf : d.wf = true) :
    (d.decode_op_body P op v).wf = true
    ∧ (d.decode_op_body P op v).step = d.step + 1
    ∧ (d.decode_op_body P op v).sponge
        = haccPerm P (d.step % BASE_CYCLE_LENGTH) (ucode op) v d.sponge
    ∧ (d.decode_op_body P op v).ctx_depth = d.ctx_depth
    ∧ (d.decode_op_body P op v).ctxTop = d.ctxTop
    ∧ (d.decode_op_body P op v).loop_depth = d.loop_depth
    ∧ (d.decode_op_body P op v).loopTop = d.loopTop
    ∧ (d.decode_op_body P op v).cfRow d.step = [0, 0, 0] := by
  obtain ⟨hw2, hst2, hsp2, hld2, hcd2, hctxt2, hloopt2⟩ := loop_entry_facts d hwf
  obtain ⟨hw3, hst3, hsp3, hoa3, hcf3, hctx3, hcd3, hld3, hlt3⟩ :=
    copy_loop_stack_facts d.advance_step.copy_context_stack hw2
  obtain ⟨hw4, hst4, hsp4, hoa4, hctx4, hcdp4, hls4, hldp4, hcfr4⟩ :=
    set_op_bits_facts d.advance_step.copy_context_stack.copy_loop_stack FlowOps.Hacc op hw3
  obtain ⟨hw5, hst5, hsp5, hcf5, hctx5, hcd5, hls5, hld5⟩ :=
    apply_hacc_round_facts P
      (d.advance_step.copy_context_stack.copy_loop_stack.set_op_bits FlowOps.Hacc op) op v hw4
  simp only [decode_op_body_eq]
  refine ⟨hw5, ?_, ?_, ?_, ?_, ?_, ?_, ?_⟩
  · rw [hst5, hst4, hst3, hst2]
  · rw [hsp5, hst4, hst3, hst2, show d.step + 1 - 1 = d.step from rfl, hsp4, hsp3, hsp2]
  · rw [hcd5, hcdp4, hcd3, hcd2]
  · show stackTop _ _ _ = _
    rw [hctx5, hctx4, hctx3, hcd5, hcdp4, hcd3, hcd2, hst5, hst4, hst3, hst2]
    exact hctxt2 d.ctx_depth
  · rw [hld5, hldp4, hld3, hld2]
  · show stackTop _ _ _ = _
    rw [hls5, hls4, hld5, hldp4, hld3, hld2, hst5, hst4, hst3]
    rw [hlt3 d.loop_depth, hst2, show d.step + 1 - 1 = d.step from rfl]
    exact hloopt2 d.loop_depth
  · show List.map _ _ = _
    rw [hcf5]
    have hrow : d.step
        = d.advance_step.copy_context_stack.copy_loop_stack.step - 1 := by
      rw [hst3, hst2]
      omega
    rw [hrow]
    exact hcfr4

-- ================================================================================================
-- Concrete evaluation vehicles for the decoder theorems
-- ================================================================================================

/-- A trivial instantiation of the Rescue half-round primitives (identity
halves over the distaff field), used only to evaluate the decoder theorems
on concrete inputs; every theorem is quantified over all primitives. -/
def idPrims : Prims :=
  ⟨MODULUS, fun _ s => s, fun _ s => s, fun _ _ => rfl, fun _ _ => rfl⟩

/-- A concrete well-formed decoder state at step 15 with one saved context
and one saved loop image (both zero, matching the zero sponge). -/
def exDec15 : Decoder :=
  { step := 15
  , op_acc := [List.replicate 16 0, List.replicate 16 0,
               List.replicate 16 0, List.replicate 16 0]
  , sponge := [0, 0, 0, 0]
  , cf_op_bits := [List.replicate 16 0, List.replicate 16 0, List.replicate 16 0]
  , ld_op_bits := [List.replicate 16 0, List.replicate 16 0, List.replicate 16 0,
                   List.replicate 16 0, List.replicate 16 0]
  , hd_op_bits := [List.replicate 16 0, List.replicate 16 0]
  , ctx_stack := [List.replicate 16 0]
  , ctx_depth := 1
  , loop_stack := [List.replicate 16 0]
  , loop_depth := 1 }

/-- A concrete well-formed decoder state at step 0 with one saved context. -/
def exDec0 : Decoder :=
  { step := 0
  , op_acc := [List.replicate 16 0, List.replicate 16 0,
               List.replicate 16 0, List.replicate 16 0]
  , sponge := [0, 0, 0, 0]
  , cf_op_bits := [List.replicate 16 0, List.replicate 16 0, List.replicate 16 0]
  , ld_op_bits := [List.replicate 16 0, List.replicate 16 0, List.replicate 16 0,
                   List.replicate 16 0, List.replicate 16 0]
  , hd_op_bits := [List.replicate 16 0, List.replicate 16 0]
  , ctx_stack := [List.replicate 16 0]
  , ctx_depth := 1
  , loop_stack := []
  , loop_depth := 0 }

-- ================================================================================================
-- Claims C6 - C10
-- ================================================================================================

/-- **C6.** For every `end_block(sibling_hash, true_branch)` call on a
well-formed decoder at a step with `step % 16 = 0` and a non-empty context
stack, the call succeeds: the context stack is popped (depth drops by one,
the logical stack loses its head), the loop stack is copied forward
unchanged, and with `block_hash = sponge[0]` and `ctx` the popped context
value, the flow-op row written at the call step is `Tend` (`[0,1,0]`) and
the sponge becomes `(ctx, block_hash, sibling_hash, 0)` when `true_branch`
holds, else `Fend` (`[1,1,0]`) and `(ctx, sibling_hash, block_hash, 0)`. -/
theorem c6_end_block (d : Decoder) (sib : Nat) (tb : Bool) (hwf : d.wf = true)
    (hstep : d.step % 16 = 0) (hdep : 1 ≤ d.ctx_depth) :
    ∃ d', d.end_block sib tb = .ok d'
      ∧ d'.ctx_depth = d.ctx_depth - 1
      ∧ d'.ctxTop = d.ctxTop.tail
      ∧ d'.loop_depth = d.loop_depth
      ∧ d'.loopTop = d.loopTop
      ∧ d'.sponge = (if tb then [d.ctxTop.headD 0, d.sponge.headD 0, sib, 0]
          else [d.ctxTop.headD 0, sib, d.sponge.headD 0, 0])
      ∧ d'.cfRow d.step = (if tb then [0, 1, 0] else [1, 1, 0])
      ∧ d'.opAccRow d'.step = d'.sponge := by
  obtain ⟨d', heq, hw, hst, hsp, hcd, hct, hld, hlt, hcf, hoa⟩ :=
    end_block_ok d sib tb hwf hstep hdep
  exact ⟨d', heq, hcd, hct, hld, hlt, hsp, hcf, hoa⟩

theorem c6_end_block_witness :
    exDec0.wf = true ∧ exDec0.step % 16 = 0 ∧ 1 ≤ exDec0.ctx_depth
    ∧ ∃ d', exDec0.end_block 7 true = .ok d' ∧ d'.ctx_depth = 0 :=
  ⟨by decide, by decide, by decide,
    (c6_end_block exDec0 7 true (by decide) (by decide) (by decide)).elim
      (fun d' h => ⟨d', h.1, by rw [h.2.1]; rfl⟩)⟩

/-- **C7.** On a well-formed decoder whose other preconditions hold (stack
depths strictly below the caps for the push operations, non-empty stacks for
the pop operations, and a sponge matching the saved loop image), each
mutator aborts exactly when its alignment precondition is violated:
`start_block`, `start_loop`, `wrap_loop` and `break_loop` abort iff
`step % 16 ≠ 15`, `end_block` aborts iff `step % 16 ≠ 0`, and `decode_op`
with a `Push` opcode and non-zero `op_value` aborts iff `step % 8 ≠ 0`. -/
theorem c7_alignment_aborts (P : Prims) (d : Decoder) (img sib v : Nat) (tb : Bool)
    (hwf : d.wf = true)
    (hccap : d.ctx_depth < MAX_CONTEXT_DEPTH) (hlcap : d.loop_depth < MAX_LOOP_DEPTH)
    (hcdep : 1 ≤ d.ctx_depth) (hldep : 1 ≤ d.loop_depth)
    (hv : v ≠ 0) (hmatch : d.sponge.headD 0 = d.loopTop.headD 0) :
    ((d.start_block).isOk = false ↔ d.step % 16 ≠ 15)
    ∧ ((d.start_loop img).isOk = false ↔ d.step % 16 ≠ 15)
    ∧ ((d.wrap_loop).isOk = false ↔ d.step % 16 ≠ 15)
    ∧ ((d.break_loop).isOk = false ↔ d.step % 16 ≠ 15)
    ∧ ((d.end_block sib tb).isOk = false ↔ d.step % 16 ≠ 0)
    ∧ ((d.decode_op P UserOps.Push v).isOk = false ↔ d.step % 8 ≠ 0) := by
  refine ⟨⟨?_, ?_⟩, ⟨?_, ?_⟩, ⟨?_, ?_⟩, ⟨?_, ?_⟩, ⟨?_, ?_⟩, ⟨?_, ?_⟩⟩
  · intro hfail
    by_cases ha : d.step % 16 = 15
    · obtain ⟨d', heq, -⟩ := start_block_ok d hwf ha hccap
      rw [heq] at hfail
      exact absurd hfail (by simp [DecOut.isOk])
    · exact ha
  · intro h
    rw [start_block_misaligned d h]
    rfl
  · intro hfail
    by_cases ha : d.step % 16 = 15
    · obtain ⟨d', heq, -⟩ := start_loop_ok d img hwf ha hccap hlcap
      rw [heq] at hfail
      exact absurd hfail (by simp [DecOut.isOk])
    · exact ha
  · intro h
    rw [start_loop_misaligned d img h]
    rfl
  · intro hfail
    by_cases ha : d.step % 16 = 15
    · obtain ⟨d', heq, -⟩ := wrap_loop_ok d hwf ha hldep hmatch
      rw [heq] at hfail
      exact absurd hfail (by simp [DecOut.isOk])
    · exact ha
  · intro h
    rw [wrap_loop_misaligned d h]
    rfl
  · intro hfail
    by_cases ha : d.step % 16 = 15
    · obtain ⟨d', heq, -⟩ := break_loop_ok d hwf ha hldep hmatch
      rw [heq] at hfail
      exact absurd hfail (by simp [DecOut.isOk])
    · exact ha
  · intro h
    rw [break_loop_misaligned d h]
    rfl
  · intro hfail
    by_cases ha : d.step % 16 = 0
    · obtain ⟨d', heq, -⟩ := end_block_ok d sib tb hwf ha hcdep
      rw [heq] at hfail
      exact absurd hfail (by simp [DecOut.isOk])
    · exact ha
  · intro h
    rw [end_block_misaligned d sib tb h]
    rfl
  · intro hfail
    by_cases ha : d.step % 8 = 0
    · rw [decode_op_push_aligned P d v ha] at hfail
      exact absurd hfail (by simp [DecOut.isOk])
    · exact ha
  · intro h
    rw [decode_op_push_misaligned P d v hv h]
    rfl

theorem c7_alignment_aborts_witness :
    exDec15.wf = true
    ∧ exDec15.ctx_depth < MAX_CONTEXT_DEPTH ∧ exDec15.loop_depth < MAX_LOOP_DEPTH
    ∧ 1 ≤ exDec15.ctx_depth ∧ 1 ≤ exDec15.loop_depth ∧ (5 : Nat) ≠ 0
    ∧ exDec15.sponge.headD 0 = exDec15.loopTop.headD 0
    ∧ ((exDec15.start_block).isOk = false ↔ exDec15.step % 16 ≠ 15) :=
  ⟨by decide, by decide, by decide, by decide, by decide, by decide, by decide,
    (c7_alignment_aborts idPrims exDec15 3 7 5 true (by decide) (by decide) (by decide)
      (by decide) (by decide) (by decide) (by decide)).1⟩

/-- **C8.** On a well-formed decoder at a validly aligned step
(`step % 16 = 15`) with a non-empty loop stack, `wrap_loop` and `break_loop`
abort if and only if `sponge[0]` differs from the relevant loop image: the
top of the loop stack for `wrap_loop`, which is also the value popped by
`break_loop`. -/
theorem c8_loop_image_mismatch (d : Decoder) (hwf : d.wf = true)
    (hstep : d.step % 16 = 15) (hdep : 1 ≤ d.loop_depth) :
    ((d.wrap_loop).isOk = false ↔ d.sponge.headD 0 ≠ d.loopTop.headD 0)
    ∧ ((d.break_loop).isOk = false ↔ d.sponge.headD 0 ≠ d.loopTop.headD 0) := by
  constructor
  · constructor
    · intro hfail heq0
      obtain ⟨d', heqq, -⟩ := wrap_loop_ok d hwf hstep hdep heq0
      rw [heqq] at hfail
      exact absurd hfail (by simp [DecOut.isOk])
    · intro hne
      rw [wrap_loop_mismatch d hwf hstep hdep hne]
      rfl
  · constructor
    · intro hfail heq0
      obtain ⟨d', heqq, -⟩ := break_loop_ok d hwf hstep hdep heq0
      rw [heqq] at hfail
      exact absurd hfail (by simp [DecOut.isOk])
    · intro hne
      rw [break_loop_mismatch d hwf hstep hdep hne]
      rfl

theorem c8_loop_image_mismatch_witness :
    exDec15.wf = true ∧ exDec15.step % 16 = 15 ∧ 1 ≤ exDec15.loop_depth
    ∧ ((exDec15.wrap_loop).isOk = false
        ↔ exDec15.sponge.headD 0 ≠ exDec15.loopTop.headD 0) :=
  ⟨by decide, by decide, by decide,
    (c8_loop_image_mismatch exDec15 (by decide) (by decide) (by decide)).1⟩

/-- **C9.** After a successful `break_loop` on a well-formed decoder (valid
alignment, non-empty loop stack, sponge matching the loop image), the
4-element sponge equals its value before the call, yet the `op_acc` row at
the new current step is written with that sponge, the loop image is popped
(depth drops by one, the logical loop stack loses its head), and the
context stack is copied forward unchanged. -/
theorem c9_break_loop_frame (d : Decoder) (hwf : d.wf = true)
    (hstep : d.step % 16 = 15) (hdep : 1 ≤ d.loop_depth)
    (hmatch : d.sponge.headD 0 = d.loopTop.headD 0) :
    ∃ d', d.break_loop = .ok d'
      ∧ d'.sponge = d.sponge
      ∧ d'.opAccRow d'.step = d.sponge
      ∧ d'.loop_depth = d.loop_depth - 1
      ∧ d'.loopTop = d.loopTop.tail
      ∧ d'.ctx_depth = d.ctx_depth
      ∧ d'.ctxTop = d.ctxTop := by
  obtain ⟨d', heq, hw, hst, hsp, hcd, hct, hld, hlt, hcf, hoa⟩ :=
    break_loop_ok d hwf hstep hdep hmatch
  exact ⟨d', heq, hsp, hoa, hld, hlt, hcd, hct⟩

theorem c9_break_loop_frame_witness :
    exDec15.wf = true ∧ exDec15.step % 16 = 15 ∧ 1 ≤ exDec15.loop_depth
    ∧ exDec15.sponge.headD 0 = exDec15.loopTop.headD 0
    ∧ ∃ d', exDec15.break_loop = .ok d' ∧ d'.sponge = exDec15.sponge :=
  ⟨by decide, by decide, by decide, by decide,
    (c9_break_loop_frame exDec15 (by decide) (by decide) (by decide) (by decide)).elim
      (fun d' h => ⟨d', h.1, h.2.1⟩)⟩

/-- **C10.** For every call `decode_op(op_code, op_value)` with a non-zero
`op_value` and an `op_code` other than `Push`, the decoder panics, and the
panic-time state is exactly the pre-call state: step counter, sponge,
`op_acc`, all three op-bit register groups, and both stacks (columns and
depths) are unchanged. -/
theorem c10_decode_op_nonzero_nonpush (P : Prims) (d : Decoder) (op : UserOps) (v : Nat)
    (hv : v ≠ 0) (hop : op ≠ UserOps.Push) :
    ∃ e, d.decode_op P op v = .panicked e
      ∧ e.step = d.step ∧ e.sponge = d.sponge ∧ e.op_acc = d.op_acc
      ∧ e.cf_op_bits = d.cf_op_bits ∧ e.ld_op_bits = d.ld_op_bits
      ∧ e.hd_op_bits = d.hd_op_bits
      ∧ e.ctx_stack = d.ctx_stack ∧ e.ctx_depth = d.ctx_depth
      ∧ e.loop_stack = d.loop_stack ∧ e.loop_depth = d.loop_depth :=
  ⟨d, decode_op_nonpush_nonzero P d op v hv hop,
    rfl, rfl, rfl, rfl, rfl, rfl, rfl, rfl, rfl, rfl⟩

theorem c10_decode_op_nonzero_nonpush_witness :
    (1 : Nat) ≠ 0 ∧ UserOps.Add ≠ UserOps.Push
    ∧ ∃ e, exDec15.decode_op idPrims UserOps.Add 1 = .panicked e ∧ e.step = exDec15.step :=
  ⟨by decide, by decide,
    (c10_decode_op_nonzero_nonpush idPrims exDec15 UserOps.Add 1 (by decide)
        (by decide)).elim
      (fun e h => ⟨e, h.1, h.2.1⟩)⟩

-- ================================================================================================
-- Static program-block hashing (C1)
-- ================================================================================================

/-- Modelled from the spec (§4.5): opcode absorption for span hashing — one
HACC round per opcode with `op_value = 0`, round constants cycling with the
step counter; `ark` is the decoder step at which the first opcode is
absorbed (only its residue mod 16 matters). -/
def absorbOps (P : Prims) : Nat → List UserOps → List Nat → List Nat
  | _, [], s => s
  | ark, op :: ops, s =>
    absorbOps P (ark + 1) ops (haccPerm P (ark % BASE_CYCLE_LENGTH) (ucode op) 0 s)

/-- Modelled from the spec (§4.1): `hash_acc(prev, v0, v1)`.  Per the spec,
"the exact field schedule matches what the decoder produces at
Begin/Tend/Fend/Loop time", i.e. the 4-state `(prev, v0, v1, 0)` that
`end_block` installs at a block boundary. -/
def hash_acc (prev v0 v1 : Nat) : List Nat := [prev, v0, v1, 0]

mutual
/-- Modelled from the spec (§4.1): the left-to-right fold underlying
`hash_seq`, tracking the sponge state and the round-constant counter: a
contained span absorbs its opcodes (advancing the counter by its length); a
nested block replaces the state by its own block hash of the current `S[0]`
and leaves the counter one past a 16-aligned boundary. -/
def seqFoldSA (P : Prims) : List ProgramBlock → List Nat → Nat → List Nat × Nat
  | [], s, ark => (s, ark)
  | ProgramBlock.span ops :: bs, s, ark =>
    seqFoldSA P bs (absorbOps P ark ops s) (ark + ops.length)
  | ProgramBlock.group g :: bs, s, _ =>
    seqFoldSA P bs (blockHashState P (ProgramBlock.group g) (s.headD 0)) 1
  | ProgramBlock.switch t f :: bs, s, _ =>
    seqFoldSA P bs (blockHashState P (ProgramBlock.switch t f) (s.headD 0)) 1
  | ProgramBlock.loop bd sk :: bs, s, _ =>
    seqFoldSA P bs (blockHashState P (ProgramBlock.loop bd sk) (s.headD 0)) 1
termination_by bs _ _ => sizeOf bs * 2

/-- Modelled from the spec (§4.1): the 4-state a block contributes given the
parent's `S[0]` — `hash_acc` of the children summaries for Group/Switch/Loop
(flow.rs `Group::hash`/`Switch::hash`/`Loop::hash`), opcode absorption for a
bare span. -/
def blockHashState (P : Prims) : ProgramBlock → Nat → List Nat
  | ProgramBlock.span ops, prev => absorbOps P 0 ops [prev, 0, 0, 0]
  | ProgramBlock.group blocks, prev => hash_acc prev (seqHash P blocks) 0
  | ProgramBlock.switch t f, prev => hash_acc prev (seqHash P t) (seqHash P f)
  | ProgramBlock.loop body skip, prev => hash_acc prev (seqHash P body) (seqHash P skip)
termination_by b _ => sizeOf b * 2

/-- Modelled from the spec (§4.1): `hash_seq(blocks)` — fold the list into
`S` starting from `S = (0,0,0,0)` and return `S[0]` of the final state. -/
def seqHash (P : Prims) (bs : List ProgramBlock) : Nat :=
  ((seqFoldSA P bs [0, 0, 0, 0] 0).1).headD 0
termination_by sizeOf bs * 2 + 1
end

/-- `ProgramBlock::hash` (flow.rs lines 43-51) together with the per-variant
hash bodies: Group mixes `hash_seq(blocks)` with `0`, Switch mixes the two
branch sequence hashes, Loop mixes the body and skip sequence hashes; a bare
Span absorbs its opcodes into the given state. -/
def ProgramBlock.hash (P : Prims) (b : ProgramBlock) (state : List Nat) : List Nat :=
  match b with
  | ProgramBlock.span ops => absorbOps P 0 ops state
  | ProgramBlock.group blocks => hash_acc (state.headD 0) (seqHash P blocks) 0
  | ProgramBlock.switch t f => hash_acc (state.headD 0) (seqHash P t) (seqHash P f)
  | ProgramBlock.loop body skip => hash_acc (state.headD 0) (seqHash P body) (seqHash P skip)

theorem absorbOps_congr (P : Prims) (ops : List UserOps) :
    ∀ s a b, a % 16 = b % 16 → absorbOps P a ops s = absorbOps P b ops s := by
  induction ops with
  | nil => intro s a b h; rfl
  | cons op ops ih =>
    intro s a b h
    show absorbOps P (a + 1) ops _ = absorbOps P (b + 1) ops _
    rw [show a % BASE_CYCLE_LENGTH = b % BASE_CYCLE_LENGTH from h]
    exact ih _ _ _ (by omega)

theorem seqFoldSA_cons_nonspan (P : Prims) (b : ProgramBlock) (bs : List ProgramBlock)
    (s : List Nat) (ark : Nat) (h : b.is_span = false) :
    seqFoldSA P (b :: bs) s ark
      = seqFoldSA P bs (blockHashState P b (s.headD 0)) 1 := by
  cases b with
  | span ops => simp [ProgramBlock.is_span] at h
  | group g => simp only [seqFoldSA]
  | switch t f => simp only [seqFoldSA]
  | loop bd sk => simp only [seqFoldSA]

theorem seqFoldSA_cons_span (P : Prims) (ops : List UserOps) (bs : List ProgramBlock)
    (s : List Nat) (ark : Nat) :
    seqFoldSA P (ProgramBlock.span ops :: bs) s ark
      = seqFoldSA P bs (absorbOps P ark ops s) (ark + ops.length) := by
  simp only [seqFoldSA]

theorem seqFoldSA_nil (P : Prims) (s : List Nat) (ark : Nat) :
    seqFoldSA P [] s ark = (s, ark) := by
  simp only [seqFoldSA]

theorem seqFoldSA_congr (P : Prims) (bs : List ProgramBlock) :
    ∀ s a b, a % 16 = b % 16 →
      (seqFoldSA P bs s a).1 = (seqFoldSA P bs s b).1
      ∧ (seqFoldSA P bs s a).2 % 16 = (seqFoldSA P bs s b).2 % 16 := by
  induction bs with
  | nil =>
    intro s a b h
    rw [seqFoldSA_nil, seqFoldSA_nil]
    exact ⟨rfl, h⟩
  | cons blk bs ih =>
    intro s a b h
    by_cases hsp : blk.is_span = true
    · obtain ⟨ops, rfl⟩ : ∃ ops, blk = ProgramBlock.span ops := by
        cases blk with
        | span ops => exact ⟨ops, rfl⟩
        | group g => simp [ProgramBlock.is_span] at hsp
        | switch t f => simp [ProgramBlock.is_span] at hsp
        | loop bd sk => simp [ProgramBlock.is_span] at hsp
      rw [seqFoldSA_cons_span, seqFoldSA_cons_span,
        absorbOps_congr P ops s a b h]
      exact ih _ _ _ (by omega)
    · rw [seqFoldSA_cons_nonspan P blk bs s a (by simpa using hsp),
        seqFoldSA_cons_nonspan P blk bs s b (by simpa using hsp)]
      exact ⟨rfl, rfl⟩

/-- Driving a span: `decode_op` once per opcode, with `op_value = 0`
(spec §4.5: span hashing absorbs opcodes with zero values). -/
def decodeOps (P : Prims) : Decoder → List UserOps → DecOut
  | d, [] => .ok d
  | d, op :: ops =>
    match d.decode_op P op 0 with
    | .panicked e => .panicked e
    | .ok d1 => decodeOps P d1 ops

theorem decodeOps_facts (P : Prims) (ops : List UserOps) :
    ∀ d : Decoder, d.wf = true →
      ∃ d', decodeOps P d ops = .ok d'
        ∧ d'.wf = true
        ∧ d'.step = d.step + ops.length
        ∧ d'.sponge = absorbOps P d.step ops d.sponge
        ∧ d'.ctx_depth = d.ctx_depth ∧ d'.ctxTop = d.ctxTop
        ∧ d'.loop_depth = d.loop_depth ∧ d'.loopTop = d.loopTop := by
  induction ops with
  | nil =>
    intro d hwf
    exact ⟨d, rfl, hwf, rfl, rfl, rfl, rfl, rfl, rfl⟩
  | cons op ops ih =>
    intro d hwf
    obtain ⟨hwB, hstB, hspB, hcdB, hctB, hldB, hltB, hcfB⟩ := decode_op_body_facts P d op 0 hwf
    obtain ⟨d', heq, hw', hst', hsp', hcd', hct', hld', hlt'⟩ :=
      ih (d.decode_op_body P op 0) hwB
    have hshape : decodeOps P d (op :: ops) = decodeOps P (d.decode_op_body P op 0) ops := by
      show (match d.decode_op P op 0 with
            | DecOut.panicked e => DecOut.panicked e
            | DecOut.ok d1 => decodeOps P d1 ops) = _
      rw [decode_op_zero]
    refine ⟨d', by rw [hshape]; exact heq, hw', ?_, ?_, ?_, ?_, ?_, ?_⟩
    · rw [hst', hstB, List.length_cons]
      omega
    · rw [hsp', hstB, hspB]
      rfl
    · rw [hcd', hcdB]
    · rw [hct', hctB]
    · rw [hld', hldB]
    · rw [hlt', hltB]

theorem start_block_overflow (d : Decoder) (hwf : d.wf = true)
    (hcap : MAX_CONTEXT_DEPTH ≤ d.ctx_depth) :
    ∀ e, d.start_block ≠ .ok e := by
  intro e h
  by_cases ha : d.step % BASE_CYCLE_LENGTH ≠ BASE_CYCLE_LENGTH - 1
  · rw [start_block_eq, if_pos ha] at h
    exact DecOut.noConfusion h
  · rw [start_block_eq, if_neg ha, save_context_eq,
      if_pos (show d.advance_step.ctx_depth + 1 > MAX_CONTEXT_DEPTH by
        rw [(advance_facts d hwf).2.2.1]; omega)] at h
    exact DecOut.noConfusion h

theorem start_block_ok_elim (d d' : Decoder) (hwf : d.wf = true)
    (h : d.start_block = .ok d') :
    d.step % 16 = 15 ∧ d'.wf = true ∧ d'.step = d.step + 1 ∧ d'.sponge = [0, 0, 0, 0]
    ∧ d'.ctx_depth = d.ctx_depth + 1 ∧ d'.ctxTop = d.sponge.headD 0 :: d.ctxTop
    ∧ d'.loop_depth = d.loop_depth ∧ d'.loopTop = d.loopTop := by
  have hstep : d.step % 16 = 15 := by
    by_contra ha
    rw [start_block_misaligned d ha] at h
    exact DecOut.noConfusion h
  have hcap : d.ctx_depth < MAX_CONTEXT_DEPTH := by
    by_contra hc
    exact start_block_overflow d hwf (by omega) d' h
  obtain ⟨d2, heq, hrest⟩ := start_block_ok d hwf hstep hcap
  rw [heq] at h
  injection h with h2
  subst h2
  exact ⟨hstep, hrest⟩

theorem start_loop_overflow (d : Decoder) (img : Nat) (hwf : d.wf = true)
    (hcap : MAX_CONTEXT_DEPTH ≤ d.ctx_depth ∨ MAX_LOOP_DEPTH ≤ d.loop_depth) :
    ∀ e, d.start_loop img ≠ .ok e := by
  intro e h
  by_cases ha : d.step % BASE_CYCLE_LENGTH ≠ BASE_CYCLE_LENGTH - 1
  · rw [start_loop_eq, if_pos ha] at h
    exact DecOut.noConfusion h
  · rw [start_loop_eq, if_neg ha] at h
    obtain ⟨hA1, hA2, hA3, hA4, hA5, hA6, hA7, hA8, hA9, hA10⟩ := advance_facts d hwf
    cases hcap with
    | inl hc =>
      rw [save_context_eq,
        if_pos (show d.advance_step.ctx_depth + 1 > MAX_CONTEXT_DEPTH by
          rw [hA3]; omega)] at h
      exact DecOut.noConfusion h
    | inr hc =>
      by_cases hcc : d.ctx_depth < MAX_CONTEXT_DEPTH
      · obtain ⟨d2, heq2, hw2, hst2, hsp2, hoa2, hcfb2, hldb2, hhdb2, hls2, hld2, hcd2, htop2⟩ :=
          save_context_ok d.advance_step hA8 (by omega) (by rw [hA3]; exact hcc)
        rw [heq2] at h
        have h' : (match d2.save_loop_image img with
            | DecOut.panicked e => DecOut.panicked e
            | DecOut.ok d3 =>
              DecOut.ok ((d3.set_op_bits FlowOps.Loop UserOps.Noop).set_sponge
                [0, 0, 0, 0])) = DecOut.ok e := h
        rw [save_loop_image_eq,
          if_pos (show d2.loop_depth + 1 > MAX_LOOP_DEPTH by rw [hld2, hA4]; omega)] at h'
        exact DecOut.noConfusion h'
      · rw [save_context_eq,
          if_pos (show d.advance_step.ctx_depth + 1 > MAX_CONTEXT_DEPTH by
            rw [hA3]; omega)] at h
        exact DecOut.noConfusion h

theorem start_loop_ok_elim (d d' : Decoder) (img : Nat) (hwf : d.wf = true)
    (h : d.start_loop img = .ok d') :
    d.step % 16 = 15 ∧ d'.wf = true ∧ d'.step = d.step + 1 ∧ d'.sponge = [0, 0, 0, 0]
    ∧ d'.ctx_depth = d.ctx_depth + 1 ∧ d'.ctxTop = d.sponge.headD 0 :: d.ctxTop
    ∧ d'.loop_depth = d.loop_depth + 1 ∧ d'.loopTop = img :: d.loopTop := by
  have hstep : d.step % 16 = 15 := by
    by_contra ha
    rw [start_loop_misaligned d img ha] at h
    exact DecOut.noConfusion h
  have hcap : d.ctx_depth < MAX_CONTEXT_DEPTH ∧ d.loop_depth < MAX_LOOP_DEPTH := by
    by_contra hc
    rw [Decidable.not_and_iff_or_not, Nat.not_lt, Nat.not_lt] at hc
    exact start_loop_overflow d img hwf hc d' h
  obtain ⟨d2, heq, hrest⟩ := start_loop_ok d img hwf hstep hcap.1 hcap.2
  rw [heq] at h
  injection h with h2
  subst h2
  exact ⟨hstep, hrest⟩

theorem end_block_underflow (d : Decoder) (sib : Nat) (tb : Bool) (hwf : d.wf = true)
    (hdep : d.ctx_depth = 0) :
    ∀ e, d.end_block sib tb ≠ .ok e := by
  intro e h
  by_cases ha : d.step % BASE_CYCLE_LENGTH ≠ 0
  · rw [end_block_eq, if_pos ha] at h
    exact DecOut.noConfusion h
  · rw [end_block_eq, if_neg ha,
      if_pos (show d.advance_step.ctx_depth = 0 by
        rw [(advance_facts d hwf).2.2.1]; exact hdep)] at h
    exact DecOut.noConfusion h

theorem end_block_ok_elim (d d' : Decoder) (sib : Nat) (tb : Bool) (hwf : d.wf = true)
    (h : d.end_block sib tb = .ok d') :
    d.step % 16 = 0 ∧ d'.wf = true ∧ d'.step = d.step + 1
    ∧ d'.sponge = (if tb then [d.ctxTop.headD 0, d.sponge.headD 0, sib, 0]
        else [d.ctxTop.headD 0, sib, d.sponge.headD 0, 0])
    ∧ d'.ctx_depth = d.ctx_depth - 1 ∧ d'.ctxTop = d.ctxTop.tail
    ∧ d'.loop_depth = d.loop_depth ∧ d'.loopTop = d.loopTop := by
  have hstep : d.step % 16 = 0 := by
    by_contra ha
    rw [end_block_misaligned d sib tb ha] at h
    exact DecOut.noConfusion h
  have hdep : 1 ≤ d.ctx_depth := by
    by_contra hc
    exact end_block_underflow d sib tb hwf (by omega) d' h
  obtain ⟨d2, heq, hw, hst, hsp, hcd, hct, hld, hlt, hcf, hoa⟩ :=
    end_block_ok d sib tb hwf hstep hdep
  rw [heq] at h
  injection h with h2
  subst h2
  exact ⟨hstep, hw, hst, hsp, hcd, hct, hld, hlt⟩

theorem wrap_loop_underflow (d : Decoder) (hwf : d.wf = true)
    (hdep : d.loop_depth = 0) :
    ∀ e, d.wrap_loop ≠ .ok e := by
  intro e h
  by_cases ha : d.step % BASE_CYCLE_LENGTH ≠ BASE_CYCLE_LENGTH - 1
  · rw [wrap_loop_eq, if_pos ha] at h
    exact DecOut.noConfusion h
  · obtain ⟨hw2, hst2, hsp2, hld2, hcd2, hctxt2, hloopt2⟩ := loop_entry_facts d hwf
    rw [wrap_loop_eq, if_neg ha,
      if_pos (show d.advance_step.copy_context_stack.loop_depth = 0 by
        rw [hld2]; exact hdep)] at h
    exact DecOut.noConfusion h

theorem wrap_loop_ok_elim (d d' : Decoder) (hwf : d.wf = true)
    (h : d.wrap_loop = .ok d') :
    d.step % 16 = 15 ∧ d.sponge.headD 0 = d.loopTop.headD 0
    ∧ d'.wf = true ∧ d'.step = d.step + 1 ∧ d'.sponge = [0, 0, 0, 0]
    ∧ d'.ctx_depth = d.ctx_depth ∧ d'.ctxTop = d.ctxTop
    ∧ d'.loop_depth = d.loop_depth ∧ d'.loopTop = d.loopTop := by
  have hstep : d.step % 16 = 15 := by
    by_contra ha
    rw [wrap_loop_misaligned d ha] at h
    exact DecOut.noConfusion h
  have hdep : 1 ≤ d.loop_depth := by
    by_contra hc
    exact wrap_loop_underflow d hwf (by omega) d' h
  have hmatch : d.sponge.headD 0 = d.loopTop.headD 0 := by
    by_contra hne
    rw [wrap_loop_mismatch d hwf hstep hdep hne] at h
    exact DecOut.noConfusion h
  obtain ⟨d2, heq, hw, hst, hsp, hcd, hct, hld, hlt, hcf, hoa⟩ :=
    wrap_loop_ok d hwf hstep hdep hmatch
  rw [heq] at h
  injection h with h2
  subst h2
  exact ⟨hstep, hmatch, hw, hst, hsp, hcd, hct, hld, hlt⟩

theorem break_loop_underflow (d : Decoder) (hwf : d.wf = true)
    (hdep : d.loop_depth = 0) :
    ∀ e, d.break_loop ≠ .ok e := by
  intro e h
  by_cases ha : d.step % BASE_CYCLE_LENGTH ≠ BASE_CYCLE_LENGTH - 1
  · rw [break_loop_eq, if_pos ha] at h
    exact DecOut.noConfusion h
  · obtain ⟨hw2, hst2, hsp2, hld2, hcd2, hctxt2, hloopt2⟩ := loop_entry_facts d hwf
    rw [break_loop_eq, if_neg ha,
      if_pos (show d.advance_step.copy_context_stack.loop_depth = 0 by
        rw [hld2]; exact hdep)] at h
    exact DecOut.noConfusion h

theorem break_loop_ok_elim (d d' : Decoder) (hwf : d.wf = true)
    (h : d.break_loop = .ok d') :
    d.step % 16 = 15 ∧ d.sponge.headD 0 = d.loopTop.headD 0
    ∧ d'.wf = true ∧ d'.step = d.step + 1 ∧ d'.sponge = d.sponge
    ∧ d'.ctx_depth = d.ctx_depth ∧ d'.ctxTop = d.ctxTop
    ∧ d'.loop_depth = d.loop_depth - 1 ∧ d'.loopTop = d.loopTop.tail := by
  have hstep : d.step % 16 = 15 := by
    by_contra ha
    rw [break_loop_misaligned d ha] at h
    exact DecOut.noConfusion h
  have hdep : 1 ≤ d.loop_depth := by
    by_contra hc
    exact break_loop_underflow d hwf (by omega) d' h
  have hmatch : d.sponge.headD 0 = d.loopTop.headD 0 := by
    by_contra hne
    rw [break_loop_mismatch d hwf hstep hdep hne] at h
    exact DecOut.noConfusion h
  obtain ⟨d2, heq, hw, hst, hsp, hcd, hct, hld, hlt, hcf, hoa⟩ :=
    break_loop_ok d hwf hstep hdep hmatch
  rw [heq] at h
  injection h with h2
  subst h2
  exact ⟨hstep, hmatch, hw, hst, hsp, hcd, hct, hld, hlt⟩

/-- The three driving tasks of the hash-agreement refinement: running a
block sequence, running a single (non-span) block, and running the
iteration phase of a loop (between `start_loop` and the final
`end_block`). -/
inductive DTask where
  | seq (bs : List ProgramBlock)
  | blk (b : ProgramBlock)
  | iter (body skip : List ProgramBlock)

/-- Modelled from the spec (§2, §4.3): driving the decoder through a block's
opcode stream — the matching `start_block`/`start_loop`, `decode_op` and
`end_block`/`wrap_loop`/`break_loop` sequence.  A sequence interleaves span
decoding with nested block drives; a Group wraps its content in
`start_block` / `end_block(0, true)`; a Switch runs one branch and ends
with the other branch's sequence hash as the sibling; a Loop starts with
the body's sequence hash as the loop image, runs the body one or more
times (`wrap_loop` between iterations), and ends with `break_loop` followed
by `end_block(hash_seq(skip), true)`. -/
inductive Drive (P : Prims) : DTask → Decoder → Decoder → Prop where
  | nil (d : Decoder) : Drive P (DTask.seq []) d d
  | spanStep (ops : List UserOps) (bs : List ProgramBlock) (d d1 d2 : Decoder) :
      decodeOps P d ops = .ok d1 →
      Drive P (DTask.seq bs) d1 d2 →
      Drive P (DTask.seq (ProgramBlock.span ops :: bs)) d d2
  | nested (b : ProgramBlock) (bs : List ProgramBlock) (d d1 d2 : Decoder) :
      b.is_span = false →
      Drive P (DTask.blk b) d d1 →
      Drive P (DTask.seq bs) d1 d2 →
      Drive P (DTask.seq (b :: bs)) d d2
  | group (bs : List ProgramBlock) (d d1 d2 d3 : Decoder) :
      d.start_block = .ok d1 →
      Drive P (DTask.seq bs) d1 d2 →
      d2.end_block 0 true = .ok d3 →
      Drive P (DTask.blk (ProgramBlock.group bs)) d d3
  | switchT (t f : List ProgramBlock) (d d1 d2 d3 : Decoder) :
      d.start_block = .ok d1 →
      Drive P (DTask.seq t) d1 d2 →
      d2.end_block (seqHash P f) true = .ok d3 →
      Drive P (DTask.blk (ProgramBlock.switch t f)) d d3
  | switchF (t f : List ProgramBlock) (d d1 d2 d3 : Decoder) :
      d.start_block = .ok d1 →
      Drive P (DTask.seq f) d1 d2 →
      d2.end_block (seqHash P t) false = .ok d3 →
      Drive P (DTask.blk (ProgramBlock.switch t f)) d d3
  | loopStart (body skip : List ProgramBlock) (d d1 d2 : Decoder) :
      d.start_loop (seqHash P body) = .ok d1 →
      Drive P (DTask.iter body skip) d1 d2 →
      Drive P (DTask.blk (ProgramBlock.loop body skip)) d d2
  | iterDone (body skip : List ProgramBlock) (d d1 d2 d3 : Decoder) :
      Drive P (DTask.seq body) d d1 →
      d1.break_loop = .ok d2 →
      d2.end_block (seqHash P skip) true = .ok d3 →
      Drive P (DTask.iter body skip) d d3
  | iterMore (body skip : List ProgramBlock) (d d1 d2 d3 : Decoder) :
      Drive P (DTask.seq body) d d1 →
      d1.wrap_loop = .ok d2 →
      Drive P (DTask.iter body skip) d2 d3 →
      Drive P (DTask.iter body skip) d d3

/-- The refinement invariant proved for each driving task: a sequence drive
realises the spec's `hash_seq` fold (state and round-constant counter), a
block drive realises the spec's block hash of the incoming `S[0]` and lands
one step past a 16-aligned boundary, and an iteration drive (entered with a
zero sponge at an aligned step, the body hash on top of the loop stack)
produces `hash_acc(ctx, hash_seq(body), hash_seq(skip))` while popping one
context and one loop entry; all drives preserve the untouched parts of the
stacks. -/
def SimPost (P : Prims) : DTask → Decoder → Decoder → Prop
  | DTask.seq bs, d, d' =>
      d'.wf = true
      ∧ d'.sponge = (seqFoldSA P bs d.sponge d.step).1
      ∧ d'.step % 16 = (seqFoldSA P bs d.sponge d.step).2 % 16
      ∧ d'.ctx_depth = d.ctx_depth ∧ d'.ctxTop = d.ctxTop
      ∧ d'.loop_depth = d.loop_depth ∧ d'.loopTop = d.loopTop
  | DTask.blk b, d, d' =>
      d'.wf = true
      ∧ d'.sponge = blockHashState P b (d.sponge.headD 0)
      ∧ d'.step % 16 = 1
      ∧ d'.ctx_depth = d.ctx_depth ∧ d'.ctxTop = d.ctxTop
      ∧ d'.loop_depth = d.loop_depth ∧ d'.loopTop = d.loopTop
  | DTask.iter body skip, d, d' =>
      d.sponge = [0, 0, 0, 0] → d.step % 16 = 0 →
      d.loopTop.headD 0 = seqHash P body →
      d'.wf = true
      ∧ d'.sponge = [d.ctxTop.headD 0, seqHash P body, seqHash P skip, 0]
      ∧ d'.step % 16 = 1
      ∧ d'.ctx_depth = d.ctx_depth - 1 ∧ d'.ctxTop = d.ctxTop.tail
      ∧ d'.loop_depth = d.loop_depth - 1 ∧ d'.loopTop = d.loopTop.tail

theorem drive_sim (P : Prims) (t : DTask) (d d' : Decoder)
    (hdrive : Drive P t d d') : d.wf = true → SimPost P t d d' := by
  induction hdrive with
  | nil d =>
    intro hwf
    simp only [SimPost, seqFoldSA_nil]
    exact ⟨hwf, trivial, trivial, trivial, trivial, trivial, trivial⟩
  | spanStep ops bs d d1 d2 heq hdr ih =>
    intro hwf
    obtain ⟨e, heqe, hwE, hstE, hspE, hcdE, hctE, hldE, hltE⟩ := decodeOps_facts P ops d hwf
    rw [heq] at heqe
    injection heqe with h2
    subst h2
    obtain ⟨hw2, hsp2, hst2, hcd2, hct2, hld2, hlt2⟩ := ih hwE
    simp only [SimPost]
    rw [seqFoldSA_cons_span]
    refine ⟨hw2, ?_, ?_, ?_, ?_, ?_, ?_⟩
    · rw [hsp2, hspE, hstE]
    · rw [hst2, hspE, hstE]
    · rw [hcd2, hcdE]
    · rw [hct2, hctE]
    · rw [hld2, hldE]
    · rw [hlt2, hltE]
  | nested b bs d d1 d2 hspan hdr1 hdr2 ih1 ih2 =>
    intro hwf
    obtain ⟨hw1, hsp1, hst1, hcd1, hct1, hld1, hlt1⟩ := ih1 hwf
    obtain ⟨hw2, hsp2, hst2, hcd2, hct2, hld2, hlt2⟩ := ih2 hw1
    simp only [SimPost]
    rw [seqFoldSA_cons_nonspan P b bs d.sponge d.step hspan]
    have hcong := seqFoldSA_congr P bs (blockHashState P b (d.sponge.headD 0)) d1.step 1
      (by rw [hst1])
    refine ⟨hw2, ?_, ?_, ?_, ?_, ?_, ?_⟩
    · rw [hsp2, hsp1, hcong.1]
    · rw [hst2, hsp1, hcong.2]
    · rw [hcd2, hcd1]
    · rw [hct2, hct1]
    · rw [hld2, hld1]
    · rw [hlt2, hlt1]
  | group bs d d1 d2 d3 hstart hdr hend ih =>
    intro hwf
    obtain ⟨hstep, hw1, hst1, hsp1, hcd1, hct1, hld1, hlt1⟩ := start_block_ok_elim d d1 hwf hstart
    obtain ⟨hw2, hsp2, hst2, hcd2, hct2, hld2, hlt2⟩ := ih hw1
    obtain ⟨hstep2, hw3, hst3, hsp3, hcd3, hct3, hld3, hlt3⟩ :=
      end_block_ok_elim d2 d3 0 true hw2 hend
    have hseq : d2.sponge.headD 0 = seqHash P bs := by
      rw [hsp2, hsp1,
        (seqFoldSA_congr P bs [0, 0, 0, 0] d1.step 0 (by rw [hst1]; omega)).1]
      simp only [seqHash]
    simp only [SimPost]
    refine ⟨hw3, ?_, ?_, ?_, ?_, ?_, ?_⟩
    · rw [hsp3, if_pos rfl, hct2, hct1, hseq]
      simp only [blockHashState, hash_acc, List.headD_cons]
    · rw [hst3]
      omega
    · rw [hcd3, hcd2, hcd1]
      omega
    · rw [hct3, hct2, hct1]
      rfl
    · rw [hld3, hld2, hld1]
    · rw [hlt3, hlt2, hlt1]
  | switchT t f d d1 d2 d3 hstart hdr hend ih =>
    intro hwf
    obtain ⟨hstep, hw1, hst1, hsp1, hcd1, hct1, hld1, hlt1⟩ := start_block_ok_elim d d1 hwf hstart
    obtain ⟨hw2, hsp2, hst2, hcd2, hct2, hld2, hlt2⟩ := ih hw1
    obtain ⟨hstep2, hw3, hst3, hsp3, hcd3, hct3, hld3, hlt3⟩ :=
      end_block_ok_elim d2 d3 (seqHash P f) true hw2 hend
    have hseq : d2.sponge.headD 0 = seqHash P t := by
      rw [hsp2, hsp1,
        (seqFoldSA_congr P t [0, 0, 0, 0] d1.step 0 (by rw [hst1]; omega)).1]
      simp only [seqHash]
    simp only [SimPost]
    refine ⟨hw3, ?_, ?_, ?_, ?_, ?_, ?_⟩
    · rw [hsp3, if_pos rfl, hct2, hct1, hseq]
      simp only [blockHashState, hash_acc, List.headD_cons]
    · rw [hst3]
      omega
    · rw [hcd3, hcd2, hcd1]
      omega
    · rw [hct3, hct2, hct1]
      rfl
    · rw [hld3, hld2, hld1]
    · rw [hlt3, hlt2, hlt1]
  | switchF t f d d1 d2 d3 hstart hdr hend ih =>
    intro hwf
    obtain ⟨hstep, hw1, hst1, hsp1, hcd1, hct1, hld1, hlt1⟩ := start_block_ok_elim d d1 hwf hstart
    obtain ⟨hw2, hsp2, hst2, hcd2, hct2, hld2, hlt2⟩ := ih hw1
    obtain ⟨hstep2, hw3, hst3, hsp3, hcd3, hct3, hld3, hlt3⟩ :=
      end_block_ok_elim d2 d3 (seqHash P t) false hw2 hend
    have hseq : d2.sponge.headD 0 = seqHash P f := by
      rw [hsp2, hsp1,
        (seqFoldSA_congr P f [0, 0, 0, 0] d1.step 0 (by rw [hst1]; omega)).1]
      simp only [seqHash]
    simp only [SimPost]
    refine ⟨hw3, ?_, ?_, ?_, ?_, ?_, ?_⟩
    · rw [hsp3, if_neg (by simp), hct2, hct1, hseq]
      simp only [blockHashState, hash_acc, List.headD_cons]
    · rw [hst3]
      omega
    · rw [hcd3, hcd2, hcd1]
      omega
    · rw [hct3, hct2, hct1]
      rfl
    · rw [hld3, hld2, hld1]
    · rw [hlt3, hlt2, hlt1]
  | loopStart body skip d d1 d2 hstart hdr ih =>
    intro hwf
    obtain ⟨hstep, hw1, hst1, hsp1, hcd1, hct1, hld1, hlt1⟩ :=
      start_loop_ok_elim d d1 (seqHash P body) hwf hstart
    obtain ⟨hw2, hsp2, hst2, hcd2, hct2, hld2, hlt2⟩ :=
      ih hw1 hsp1 (by rw [hst1]; omega) (by rw [hlt1]; rfl)
    simp only [SimPost]
    refine ⟨hw2, ?_, hst2, ?_, ?_, ?_, ?_⟩
    · rw [hsp2, hct1]
      simp only [blockHashState, hash_acc, List.headD_cons]
    · rw [hcd2, hcd1]
      omega
    · rw [hct2, hct1]
      rfl
    · rw [hld2, hld1]
      omega
    · rw [hlt2, hlt1]
      rfl
  | iterDone body skip d d1 d2 d3 hdrseq hbreak hend ihseq =>
    intro hwf
    intro hsp0 hstep0 himg
    obtain ⟨hw1, hsp1, hst1, hcd1, hct1, hld1, hlt1⟩ := ihseq hwf
    obtain ⟨hstepB, hmatchB, hw2, hst2, hsp2, hcd2, hct2, hld2, hlt2⟩ :=
      break_loop_ok_elim d1 d2 hw1 hbreak
    obtain ⟨hstepE, hw3, hst3, hsp3, hcd3, hct3, hld3, hlt3⟩ :=
      end_block_ok_elim d2 d3 (seqHash P skip) true hw2 hend
    have hseq1 : d1.sponge.headD 0 = seqHash P body := by
      rw [hsp1, hsp0,
        (seqFoldSA_congr P body [0, 0, 0, 0] d.step 0 (by omega)).1]
      simp only [seqHash]
    refine ⟨hw3, ?_, ?_, ?_, ?_, ?_, ?_⟩
    · rw [hsp3, if_pos rfl, hct2, hct1, hsp2, hseq1]
    · rw [hst3]
      omega
    · rw [hcd3, hcd2, hcd1]
    · rw [hct3, hct2, hct1]
    · rw [hld3, hld2, hld1]
    · rw [hlt3, hlt2, hlt1]
  | iterMore body skip d d1 d2 d3 hdrseq hwrap hdriter ihseq ihiter =>
    intro hwf
    intro hsp0 hstep0 himg
    obtain ⟨hw1, hsp1, hst1, hcd1, hct1, hld1, hlt1⟩ := ihseq hwf
    obtain ⟨hstepW, hmatchW, hw2, hst2, hsp2, hcd2, hct2, hld2, hlt2⟩ :=
      wrap_loop_ok_elim d1 d2 hw1 hwrap
    obtain ⟨hw3, hsp3, hst3, hcd3, hct3, hld3, hlt3⟩ :=
      ihiter hw2 hsp2 (by omega) (by rw [hlt2, hlt1]; exact himg)
    refine ⟨hw3, ?_, hst3, ?_, ?_, ?_, ?_⟩
    · rw [hsp3, hct2, hct1]
    · rw [hcd3, hcd2, hcd1]
    · rw [hct3, hct2, hct1]
    · rw [hld3, hld2, hld1]
    · rw [hlt3, hlt2, hlt1]

/-- **C1.** For every Group, Switch, or Loop block, driving a well-formed
decoder through the block's opcode stream (the matching
`start_block`/`start_loop`, `decode_op`, and
`end_block`/`wrap_loop`/`break_loop` sequence, captured by `Drive`) yields a
final sponge equal to the statically computed `ProgramBlock.hash` of the
incoming sponge — in particular the final `sponge[0]` equals
`block.hash(prev_state)[0]`.  Proved for every choice of the Rescue
half-round primitives. -/
theorem c1_hash_agreement (P : Prims) (b : ProgramBlock) (d d' : Decoder)
    (hwf : d.wf = true) (hspan : b.is_span = false)
    (hdrive : Drive P (DTask.blk b) d d') :
    d'.sponge = ProgramBlock.hash P b d.sponge
    ∧ d'.sponge.headD 0 = (ProgramBlock.hash P b d.sponge).headD 0 := by
  have hsim := drive_sim P (DTask.blk b) d d' hdrive hwf
  simp only [SimPost] at hsim
  obtain ⟨hw, hsp, -⟩ := hsim
  have heq : blockHashState P b (d.sponge.headD 0) = ProgramBlock.hash P b d.sponge := by
    cases b with
    | span ops => simp [ProgramBlock.is_span] at hspan
    | group g => simp only [blockHashState, ProgramBlock.hash]
    | switch t f => simp only [blockHashState, ProgramBlock.hash]
    | loop bd sk => simp only [blockHashState, ProgramBlock.hash]
  rw [hsp, heq]
  exact ⟨rfl, rfl⟩

theorem c1_hash_agreement_witness :
    exDec15.wf = true ∧ (ProgramBlock.group []).is_span = false
    ∧ ∃ d', Drive idPrims (DTask.blk (ProgramBlock.group [])) exDec15 d'
        ∧ d'.sponge = ProgramBlock.hash idPrims (ProgramBlock.group []) exDec15.sponge := by
  have hwf : exDec15.wf = true := by decide
  obtain ⟨d1, h1⟩ : ∃ e, exDec15.start_block = DecOut.ok e := by
    obtain ⟨e, he, -⟩ := start_block_ok exDec15 hwf (by decide) (by decide)
    exact ⟨e, he⟩
  obtain ⟨hstep1, hw1, hst1, hsp1, hcd1, hct1, hld1, hlt1⟩ :=
    start_block_ok_elim exDec15 d1 hwf h1
  obtain ⟨d3, h3⟩ : ∃ e, d1.end_block 0 true = DecOut.ok e := by
    obtain ⟨e, he, -⟩ := end_block_ok d1 0 true hw1 (by rw [hst1]; decide)
      (by rw [hcd1]; omega)
    exact ⟨e, he⟩
  have hdrive : Drive idPrims (DTask.blk (ProgramBlock.group [])) exDec15 d3 :=
    Drive.group [] exDec15 d1 d1 d3 h1 (Drive.nil d1) h3
  exact ⟨hwf, rfl, d3, hdrive,
    (c1_hash_agreement idPrims (ProgramBlock.group []) exDec15 d3 hwf rfl hdrive).1⟩
